import Mathlib

/-!
Verification model of the device-planning unification engine in
`src/relay/transforms/device_domains.cc`.

The embedding follows the implementation note of the design document: domains
are records in an append-only arena addressed by stable `Nat` indices, the
equivalence table is an index-to-index association list over the same arena,
and pointer identity becomes index equality.  The external `SEScope` lattice is
modelled at its interface boundary as a record of independently constrainable
components; `Join` is componentwise agreement, `Default` fills unconstrained
components from the fallback, and canonicalization is the identity (the model
keeps scopes in canonical form).

Fatal `ICHECK` failures are modelled by the `Res.abort` result, exhausted
recursion fuel by `Res.nofuel`, and ordinary returns by `Res.ok`; the soft
`nullptr` / `false` sentinels of `JoinOrNull` / `UnifyOrNull` /
`CollapseOrFalse` live inside the `ok` payload as `Option` / `Bool` values.
-/

namespace DeviceDomains

/-- A device scope: the external lattice value, modelled as two independently
constrainable components (mirroring the device / memory-scope fields). -/
structure SEScope where
  deviceType : Option Nat
  memoryScope : Option Nat
deriving DecidableEq

/-- Scope with every component constrained (`SEScope::IsFullyConstrained`). -/
def SEScope.isFullyConstrained (s : SEScope) : Bool :=
  s.deviceType.isSome && s.memoryScope.isSome

/-- Scope with no component constrained (`SEScope::IsFullyUnconstrained`). -/
def SEScope.isFullyUnconstrained (s : SEScope) : Bool :=
  s.deviceType.isNone && s.memoryScope.isNone

/-- The fully unconstrained scope (`SEScope::FullyUnconstrained`). -/
def SEScope.fullyUnconstrained : SEScope := ⟨none, none⟩

/-- Join of one lattice component: defined components must agree. -/
def joinField : Option Nat → Option Nat → Option (Option Nat)
  | none, b => some b
  | some a, none => some (some a)
  | some a, some b => if a = b then some (some a) else none

/-- Lattice join (`SEScope::Join`): componentwise, `none` on conflict. -/
def SEScope.join (a b : SEScope) : Option SEScope :=
  match joinField a.deviceType b.deviceType, joinField a.memoryScope b.memoryScope with
  | some d, some m => some ⟨d, m⟩
  | _, _ => none

/-- Lattice defaulting (`SEScope::Default`): keep constrained components of
`actual`, fill unconstrained ones from `fallback`. -/
def SEScope.defaultWith (actual fallback : SEScope) : SEScope :=
  ⟨actual.deviceType.orElse (fun _ => fallback.deviceType),
   actual.memoryScope.orElse (fun _ => fallback.memoryScope)⟩

/-- Canonicalization via the compilation config (`CanonicalSEScope`); the model
keeps scopes in canonical form, so this is the identity. -/
def canonicalSEScope (s : SEScope) : SEScope := s

/-- One arena record of a `DeviceDomain`: first-order with a scope, or
higher-order with the indices of its `args_and_result_` sub-domains. -/
inductive DomainNode where
  | fo (scope : SEScope)
  | ho (parts : List Nat)
deriving DecidableEq

/-- Size of `args_and_result_` (0 exactly for first-order domains). -/
def nodeSize : DomainNode → Nat
  | DomainNode.fo _ => 0
  | DomainNode.ho ps => ps.length

/-- The `DeviceDomains` solver state: the domain arena, the equivalence table
`domain_to_equiv_`, and the intern table
`fully_constrained_se_scope_to_domain_`. -/
structure DD where
  arena : List DomainNode
  equiv : List (Nat × Nat)
  intern : List (SEScope × Nat)
deriving DecidableEq

/-- The arena record for a domain index, when the index is live. -/
def nodeAt (s : DD) (i : Nat) : Option DomainNode := s.arena.get? i

/-- First-match lookup in the equivalence table. -/
def findEquiv : List (Nat × Nat) → Nat → Option Nat
  | [], _ => none
  | (k, v) :: rest, i => if k = i then some v else findEquiv rest i

/-- In-place rewrite of the target of an existing equivalence entry
(the path-compression slot update `itr->second = root`). -/
def setEquiv : List (Nat × Nat) → Nat → Nat → List (Nat × Nat)
  | [], _, _ => []
  | (k, v) :: rest, i, t => if k = i then (k, t) :: rest else (k, v) :: setEquiv rest i t

/-- Map-style `emplace`: insert only when the key is absent. -/
def emplaceEquiv (e : List (Nat × Nat)) (k t : Nat) : List (Nat × Nat) :=
  match findEquiv e k with
  | some _ => e
  | none => e ++ [(k, t)]

/-- First-match lookup in the fully-constrained intern table. -/
def findIntern : List (SEScope × Nat) → SEScope → Option Nat
  | [], _ => none
  | (c, i) :: rest, sc => if c = sc then some i else findIntern rest sc

/-- Result of an operation: `abort` models a fatal `ICHECK` failure (the C++
process dies), `nofuel` models exhausted recursion fuel (which never occurs on
the well-formed states the engine actually reaches), and `ok` an ordinary
return. -/
inductive Res (α : Type) where
  | abort
  | nofuel
  | ok (val : α)
deriving DecidableEq

/-- Make (or intern) a first-order domain (`MakeFirstOrderDomain`): a fully
constrained scope is deduplicated through the intern table, any other scope
gets a fresh record. -/
def makeFirstOrderDomain (s : DD) (sc : SEScope) : DD × Nat :=
  if sc.isFullyConstrained then
    match findIntern s.intern sc with
    | some i => (s, i)
    | none =>
      ({ s with arena := s.arena ++ [DomainNode.fo sc],
                intern := s.intern ++ [(sc, s.arena.length)] }, s.arena.length)
  else
    ({ s with arena := s.arena ++ [DomainNode.fo sc] }, s.arena.length)

/-- Direct higher-order construction (`MakeHigherOrderDomain`) from
already-built parts. -/
def makeHigherOrderDomain (s : DD) (parts : List Nat) : DD × Nat :=
  ({ s with arena := s.arena ++ [DomainNode.ho parts] }, s.arena.length)

/-- The shape of an expression type, as far as domain construction observes it:
a non-function type, or a function type with argument types and result type. -/
inductive Ty where
  | prim
  | func (args : List Ty) (ret : Ty)

mutual
/-- Build a domain shaped like a type (`MakeDomain`): function types become
higher-order domains whose parameters are fresh fully-unconstrained domains and
whose result carries the requested scope; other types delegate to
`MakeFirstOrderDomain`. -/
def makeDomain : DD → Ty → SEScope → DD × Nat
  | s, Ty.prim, sc => makeFirstOrderDomain s sc
  | s, Ty.func args ret, sc =>
    let p1 := makeDomainParams s args
    let p2 := makeDomain p1.1 ret sc
    makeHigherOrderDomain p2.1 (p1.2 ++ [p2.2])

/-- Parameter loop of `MakeDomain`: one fresh fully-unconstrained domain per
argument type, in order. -/
def makeDomainParams : DD → List Ty → DD × List Nat
  | s, [] => (s, [])
  | s, t :: ts =>
    let p1 := makeDomain s t SEScope.fullyUnconstrained
    let p2 := makeDomainParams p1.1 ts
    (p2.1, p1.2 :: p2.2)
end

/-- A domain shaped like a type with no scope commitment (`Free`). -/
def free (s : DD) (t : Ty) : DD × Nat := makeDomain s t SEScope.fullyUnconstrained

/-- Domain for a type at a canonicalized scope (`ForSEScope`); aborts when the
canonical scope is fully unconstrained (its `ICHECK`). -/
def forSEScope (s : DD) (t : Ty) (sc : SEScope) : Res (DD × Nat) :=
  let c := canonicalSEScope sc
  if c.isFullyUnconstrained then Res.abort
  else Res.ok (makeDomain s t c)

/-- Root-finding loop of `Lookup`: follow equivalence entries until a domain
with no entry is reached.  A self-entry trips the `ICHECK_NE` and aborts. -/
def chase (e : List (Nat × Nat)) : Nat → Nat → Res Nat
  | 0, _ => Res.nofuel
  | fuel + 1, i =>
    match findEquiv e i with
    | none => Res.ok i
    | some t => if t = i then Res.abort else chase e fuel t

/-- Path compression loop of `Lookup`: rewrite every entry on the chain from
`i` to point directly at `root`. -/
def compress (e : List (Nat × Nat)) : Nat → Nat → Nat → List (Nat × Nat)
  | 0, _, _ => e
  | fuel + 1, i, root =>
    if i = root then e
    else
      match findEquiv e i with
      | none => e
      | some t => compress (setEquiv e i root) fuel t root

/-- Union-find `Lookup`: find the root of a domain, path-compressing every
visited entry.  The fuel `|equiv| + 1` always suffices on acyclic tables. -/
def lookupD (s : DD) (i : Nat) : Res (DD × Nat) :=
  match chase s.equiv (s.equiv.length + 1) i with
  | Res.ok root =>
    Res.ok ({ s with equiv := compress s.equiv (s.equiv.length + 1) i root }, root)
  | Res.nofuel => Res.nofuel
  | Res.abort => Res.abort

mutual
/-- Union-find `UnifyOrNull`: look up both roots, join them, and on success
add an equivalence entry from each original root to the joined domain (skipped
when a root already equals it).  `ok (s, none)` is the soft `nullptr`
sentinel. -/
def unifyGo : Nat → DD → Nat → Nat → Res (DD × Option Nat)
  | 0, _, _, _ => Res.nofuel
  | fuel + 1, s, l, r =>
    match lookupD s l with
    | Res.ok (s1, lr) =>
      match lookupD s1 r with
      | Res.ok (s2, rr) =>
        match joinGo fuel s2 lr rr with
        | Res.ok (s3, some j) =>
          let s4 := if lr = j then s3 else { s3 with equiv := emplaceEquiv s3.equiv lr j }
          let s5 := if rr = j then s4 else { s4 with equiv := emplaceEquiv s4.equiv rr j }
          Res.ok (s5, some j)
        | Res.ok (s3, none) => Res.ok (s3, none)
        | Res.nofuel => Res.nofuel
        | Res.abort => Res.abort
      | Res.nofuel => Res.nofuel
      | Res.abort => Res.abort
    | Res.nofuel => Res.nofuel
    | Res.abort => Res.abort
termination_by fuel _ _ _ => (fuel, 0, 0)

/-- `JoinOrNull` on two roots: identical roots short-circuit; differing
`args_and_result_` sizes trip the fatal shape `ICHECK` and abort; first-order
scopes are absorbed or lattice-joined (soft `none` on conflict); higher-order
domains unify their parts in declared order. -/
def joinGo : Nat → DD → Nat → Nat → Res (DD × Option Nat)
  | fuel, s, l, r =>
    if l = r then Res.ok (s, some l)
    else
      match nodeAt s l, nodeAt s r with
      | some nl, some nr =>
        if nodeSize nl ≠ nodeSize nr then Res.abort
        else
          match nl, nr with
          | DomainNode.fo scl, DomainNode.fo scr =>
            if scr.isFullyUnconstrained then Res.ok (s, some l)
            else if scl.isFullyUnconstrained then Res.ok (s, some r)
            else
              match SEScope.join scl scr with
              | none => Res.ok (s, none)
              | some jsc =>
                let p := makeFirstOrderDomain s (canonicalSEScope jsc)
                Res.ok (p.1, some p.2)
          | DomainNode.ho psl, DomainNode.ho psr =>
            match joinParts fuel s psl psr with
            | Res.ok (s', some js) =>
              let p := makeHigherOrderDomain s' js
              Res.ok (p.1, some p.2)
            | Res.ok (s', none) => Res.ok (s', none)
            | Res.nofuel => Res.nofuel
            | Res.abort => Res.abort
          | _, _ => Res.abort
      | _, _ => Res.abort
termination_by fuel _ _ _ => (fuel, 2, 0)

/-- Part loop of the higher-order `JoinOrNull` case: unify corresponding parts
in order, failing the whole join as soon as one pair fails (already-committed
sub-unifications are kept: the join is not transactional). -/
def joinParts : Nat → DD → List Nat → List Nat → Res (DD × Option (List Nat))
  | _, s, [], [] => Res.ok (s, some [])
  | fuel, s, a :: as, b :: bs =>
    match unifyGo fuel s a b with
    | Res.ok (s', some j) =>
      match joinParts fuel s' as bs with
      | Res.ok (s'', some js) => Res.ok (s'', some (j :: js))
      | Res.ok (s'', none) => Res.ok (s'', none)
      | Res.nofuel => Res.nofuel
      | Res.abort => Res.abort
    | Res.ok (s', none) => Res.ok (s', none)
    | Res.nofuel => Res.nofuel
    | Res.abort => Res.abort
  | _, _, _, _ => Res.abort
termination_by fuel _ as _ => (fuel, 1, as.length)
end

/-- Parameter loop of `CollapseOrFalse`: unify the first-order domain with
every parameter in declared order, reporting `false` on the first failure. -/
def collapseParams : Nat → DD → Nat → List Nat → Res (DD × Bool)
  | _, s, _, [] => Res.ok (s, true)
  | fuel, s, foIdx, p :: ps =>
    match unifyGo fuel s p foIdx with
    | Res.ok (s', some _) => collapseParams fuel s' foIdx ps
    | Res.ok (s', none) => Res.ok (s', false)
    | Res.nofuel => Res.nofuel
    | Res.abort => Res.abort

/-- `CollapseOrFalse`: reconcile a higher-order domain with one first-order
domain by unifying the latter with every parameter and then with the result;
the kind `ICHECK`s abort when the arguments have the wrong orders. -/
def collapseOrFalse (fuel : Nat) (s : DD) (foIdx hoIdx : Nat) : Res (DD × Bool) :=
  match nodeAt s foIdx, nodeAt s hoIdx with
  | some (DomainNode.fo _), some (DomainNode.ho ps) =>
    match ps.getLast? with
    | none => Res.abort
    | some resIdx =>
      match collapseParams fuel s foIdx ps.dropLast with
      | Res.ok (s', true) =>
        match unifyGo fuel s' resIdx foIdx with
        | Res.ok (s'', some _) => Res.ok (s'', true)
        | Res.ok (s'', none) => Res.ok (s'', false)
        | Res.nofuel => Res.nofuel
        | Res.abort => Res.abort
      | Res.ok (s', false) => Res.ok (s', false)
      | Res.nofuel => Res.nofuel
      | Res.abort => Res.abort
  | _, _ => Res.abort

/-- `UnifyCollapsedOrFalse`: collapse when the right side is higher-order,
otherwise an ordinary unification reported as a boolean. -/
def unifyCollapsedOrFalse (fuel : Nat) (s : DD) (l r : Nat) : Res (DD × Bool) :=
  match nodeAt s l with
  | some (DomainNode.fo _) =>
    match nodeAt s r with
    | some (DomainNode.ho _) => collapseOrFalse fuel s l r
    | some (DomainNode.fo _) =>
      match unifyGo fuel s l r with
      | Res.ok (s', some _) => Res.ok (s', true)
      | Res.ok (s', none) => Res.ok (s', false)
      | Res.nofuel => Res.nofuel
      | Res.abort => Res.abort
    | none => Res.abort
  | _ => Res.abort

mutual
/-- `SetDefault`: default a (post-lookup) first-order domain by unifying it
with the lattice default of its scope against the fallback (the `ICHECK`s on
an unconstrained fallback and on a failed unification abort); recurse into
every sub-domain of a higher-order domain. -/
def setDefault : Nat → DD → Nat → SEScope → Res DD
  | 0, _, _, _ => Res.nofuel
  | fuel + 1, s, d, fb =>
    if fb.isFullyUnconstrained then Res.abort
    else
      match lookupD s d with
      | Res.ok (s1, r) =>
        match nodeAt s1 r with
        | some (DomainNode.fo sc) =>
          let p := makeFirstOrderDomain s1 (canonicalSEScope (SEScope.defaultWith sc fb))
          match unifyGo (fuel + 1) p.1 r p.2 with
          | Res.ok (s2, some _) => Res.ok s2
          | Res.ok (_, none) => Res.abort
          | Res.nofuel => Res.nofuel
          | Res.abort => Res.abort
        | some (DomainNode.ho ps) => setDefaultList fuel s1 ps fb
        | none => Res.abort
      | Res.nofuel => Res.nofuel
      | Res.abort => Res.abort
termination_by fuel _ _ _ => (fuel, 0, 0)

/-- Sub-domain loop of the higher-order `SetDefault` case. -/
def setDefaultList : Nat → DD → List Nat → SEScope → Res DD
  | _, s, [], _ => Res.ok s
  | fuel, s, p :: ps, fb =>
    match setDefault fuel s p fb with
    | Res.ok s1 => setDefaultList fuel s1 ps fb
    | Res.nofuel => Res.nofuel
    | Res.abort => Res.abort
termination_by fuel _ ps _ => (fuel, 1, ps.length)
end

/-- `ResultDomain`: follow the chain of trailing (result) sub-domains, looking
up at each step, down to the innermost first-order leaf. -/
def resultDomain : Nat → DD → Nat → Res (DD × Nat)
  | 0, _, _ => Res.nofuel
  | fuel + 1, s, d =>
    match lookupD s d with
    | Res.ok (s1, r) =>
      match nodeAt s1 r with
      | some (DomainNode.fo _) => Res.ok (s1, r)
      | some (DomainNode.ho ps) =>
        match ps.getLast? with
        | some lastIdx => resultDomain fuel s1 lastIdx
        | none => Res.abort
      | none => Res.abort
    | Res.nofuel => Res.nofuel
    | Res.abort => Res.abort

/-- Modelled from the spec: `ResultSEScope` (declared in the header
`device_domains.h`, which is not part of the sources) reads the scope of the
innermost first-order result leaf reached by `ResultDomain`. -/
def resultSEScope (fuel : Nat) (s : DD) (d : Nat) : Res (DD × SEScope) :=
  match resultDomain fuel s d with
  | Res.ok (s1, r) =>
    match nodeAt s1 r with
    | some (DomainNode.fo sc) => Res.ok (s1, sc)
    | _ => Res.abort
  | Res.nofuel => Res.nofuel
  | Res.abort => Res.abort

/-- `SetResultDefaultThenParams`: plain `SetDefault` for a first-order domain;
for a higher-order domain, first default only the innermost result leaf with
the fallback, then re-run `SetDefault` over the whole domain with the
now-current result scope as the fallback. -/
def setResultDefaultThenParams (fuel : Nat) (s : DD) (d : Nat) (fb : SEScope) : Res DD :=
  match nodeAt s d with
  | some (DomainNode.fo _) => setDefault fuel s d fb
  | some (DomainNode.ho _) =>
    match resultDomain fuel s d with
    | Res.ok (s1, rd) =>
      match setDefault fuel s1 rd fb with
      | Res.ok s2 =>
        match resultSEScope fuel s2 d with
        | Res.ok (s3, rsc) => setDefault fuel s3 d rsc
        | Res.nofuel => Res.nofuel
        | Res.abort => Res.abort
      | Res.nofuel => Res.nofuel
      | Res.abort => Res.abort
    | Res.nofuel => Res.nofuel
    | Res.abort => Res.abort
  | none => Res.abort

/-- Modelled from the spec: the textual form of a scope (supplied by the
external lattice; the sources only stream it to the output). -/
def scopeText (sc : SEScope) : String :=
  "se(" ++ (match sc.deviceType with
            | some n => Nat.repr n
            | none => "*") ++ ","
        ++ (match sc.memoryScope with
            | some n => Nat.repr n
            | none => "*") ++ ")"

mutual
/-- Single-domain `ToString`: after lookup, a first-order root prints a
per-node placeholder exactly when its scope is not fully constrained, followed
by the scope text exactly when it is not fully unconstrained; a higher-order
root prints its comma-separated parameters and its result. -/
def renderDomain : Nat → DD → Nat → Res (DD × String)
  | 0, _, _ => Res.nofuel
  | fuel + 1, s, d =>
    match lookupD s d with
    | Res.ok (s1, r) =>
      match nodeAt s1 r with
      | some (DomainNode.fo sc) =>
        Res.ok (s1, (if sc.isFullyConstrained then "" else "?" ++ Nat.repr r ++ "?")
                    ++ (if sc.isFullyUnconstrained then "" else scopeText sc))
      | some (DomainNode.ho ps) =>
        match renderParams fuel s1 ps.dropLast true with
        | Res.ok (s2, inner) =>
          match ps.getLast? with
          | some lastIdx =>
            match renderDomain fuel s2 lastIdx with
            | Res.ok (s3, resText) => Res.ok (s3, "fn(" ++ inner ++ "):" ++ resText)
            | Res.nofuel => Res.nofuel
            | Res.abort => Res.abort
          | none => Res.abort
        | Res.nofuel => Res.nofuel
        | Res.abort => Res.abort
      | none => Res.abort
    | Res.nofuel => Res.nofuel
    | Res.abort => Res.abort
termination_by fuel _ _ => (fuel, 0, 0)

/-- Parameter loop of the higher-order `ToString` case, separating rendered
parameters with commas. -/
def renderParams : Nat → DD → List Nat → Bool → Res (DD × String)
  | _, s, [], _ => Res.ok (s, "")
  | fuel, s, p :: ps, first => -- matches the `if (i > 0) os << ","` separator
    match renderDomain fuel s p with
    | Res.ok (s1, t) =>
      match renderParams fuel s1 ps false with
      | Res.ok (s2, rest) => Res.ok (s2, (if first then "" else ",") ++ t ++ rest)
      | Res.nofuel => Res.nofuel
      | Res.abort => Res.abort
    | Res.nofuel => Res.nofuel
    | Res.abort => Res.abort
termination_by fuel _ ps _ => (fuel, 1, ps.length)
end

/-- Parameter loop of the data-constructor case of `DomainForCallee`: one
fresh `Free` domain per argument type, each force-collapsed against the result
domain; the boolean records whether every `ICHECK(success)` held (the loop
stops at the first failure, as the fatal check would). -/
def ctorParamsLoop : Nat → DD → Nat → List Ty → Res (DD × List Nat × Bool)
  | _, s, _, [] => Res.ok (s, ([], true))
  | fuel, s, resIdx, t :: ts =>
    let p := free s t
    match unifyCollapsedOrFalse fuel p.1 resIdx p.2 with
    | Res.ok (s1, true) =>
      match ctorParamsLoop fuel s1 resIdx ts with
      | Res.ok (s2, (ps, allOk)) => Res.ok (s2, (p.2 :: ps, allOk))
      | Res.nofuel => Res.nofuel
      | Res.abort => Res.abort
    | Res.ok (s1, false) => Res.ok (s1, ([p.2], false))
    | Res.nofuel => Res.nofuel
    | Res.abort => Res.abort

/-- The data-constructor branch of `DomainForCallee`: a fresh first-order
result domain from the constructor's result type, then the parameter loop;
returns the parameter domains, the result domain, and whether every
`ICHECK(success)` held. -/
def constructorBranch (fuel : Nat) (s : DD) (argTys : List Ty) (retTy : Ty) :
    Res (DD × List Nat × Nat × Bool) :=
  let p := free s retTy
  match ctorParamsLoop fuel p.1 p.2 argTys with
  | Res.ok (s1, (ps, allOk)) => Res.ok (s1, (ps, p.2, allOk))
  | Res.nofuel => Res.nofuel
  | Res.abort => Res.abort

/-! ### Association-list lemmas -/

theorem findEquiv_append (e e2 : List (Nat × Nat)) (i : Nat) :
    findEquiv (e ++ e2) i =
      match findEquiv e i with
      | some t => some t
      | none => findEquiv e2 i := by
  induction e with
  | nil => simp [findEquiv]
  | cons p rest ih =>
    obtain ⟨k, v⟩ := p
    by_cases h : k = i <;> simp [findEquiv, h, ih]

theorem findEquiv_append_of_none (e e2 : List (Nat × Nat)) (i : Nat)
    (h : findEquiv e i = none) : findEquiv (e ++ e2) i = findEquiv e2 i := by
  rw [findEquiv_append, h]

theorem findEquiv_append_of_some (e e2 : List (Nat × Nat)) (i t : Nat)
    (h : findEquiv e i = some t) : findEquiv (e ++ e2) i = some t := by
  rw [findEquiv_append, h]

theorem findEquiv_single (k t i : Nat) :
    findEquiv [(k, t)] i = if k = i then some t else none := by
  simp [findEquiv]

theorem findEquiv_setEquiv_ne (e : List (Nat × Nat)) (i t j : Nat) (h : j ≠ i) :
    findEquiv (setEquiv e i t) j = findEquiv e j := by
  induction e with
  | nil => simp [setEquiv]
  | cons p rest ih =>
    obtain ⟨k, v⟩ := p
    by_cases hk : k = i
    · subst hk
      have hkj : ¬k = j := fun hh => h hh.symm
      simp [setEquiv, findEquiv, hkj]
    · simp [setEquiv, hk, findEquiv, ih]

theorem findEquiv_setEquiv_self (e : List (Nat × Nat)) (i t : Nat) :
    findEquiv (setEquiv e i t) i = (findEquiv e i).map (fun _ => t) := by
  induction e with
  | nil => simp [setEquiv, findEquiv]
  | cons p rest ih =>
    obtain ⟨k, v⟩ := p
    by_cases hk : k = i <;> simp [setEquiv, findEquiv, hk, ih]

theorem setEquiv_length (e : List (Nat × Nat)) (i t : Nat) :
    (setEquiv e i t).length = e.length := by
  induction e with
  | nil => rfl
  | cons p rest ih =>
    obtain ⟨k, v⟩ := p
    by_cases hk : k = i <;> simp [setEquiv, hk, ih]

theorem findEquiv_isSome_setEquiv (e : List (Nat × Nat)) (i t j : Nat) :
    (findEquiv (setEquiv e i t) j).isSome = (findEquiv e j).isSome := by
  by_cases h : j = i
  · subst h; rw [findEquiv_setEquiv_self]; cases findEquiv e j <;> rfl
  · rw [findEquiv_setEquiv_ne e i t j h]

theorem findEquiv_emplace_of_none (e : List (Nat × Nat)) (k t j : Nat)
    (h : findEquiv e k = none) :
    findEquiv (emplaceEquiv e k t) j = if k = j then some t else findEquiv e j := by
  rw [emplaceEquiv, h]
  by_cases hj : k = j
  · subst hj
    rw [findEquiv_append_of_none e _ _ h, findEquiv_single]
    simp
  · rw [findEquiv_append]
    cases hje : findEquiv e j with
    | some v => simp [hj]
    | none => simp [findEquiv_single, hj]

theorem emplaceEquiv_of_some (e : List (Nat × Nat)) (k t v : Nat)
    (h : findEquiv e k = some v) : emplaceEquiv e k t = e := by
  rw [emplaceEquiv, h]

theorem emplaceEquiv_length_of_none (e : List (Nat × Nat)) (k t : Nat)
    (h : findEquiv e k = none) : (emplaceEquiv e k t).length = e.length + 1 := by
  rw [emplaceEquiv, h]; simp

/-! ### Chase lemmas -/

theorem chase_ok_fuel_mono (e : List (Nat × Nat)) :
    ∀ f f' i r, f ≤ f' → chase e f i = Res.ok r → chase e f' i = Res.ok r := by
  intro f
  induction f with
  | zero => intro f' i r _ h; simp [chase] at h
  | succ n ih =>
    intro f' i r hle h
    obtain ⟨m, rfl⟩ : ∃ m, f' = m + 1 := ⟨f' - 1, by omega⟩
    rw [chase] at h ⊢
    cases hf : findEquiv e i with
    | none => rw [hf] at h; exact h
    | some t =>
      rw [hf] at h
      by_cases ht : t = i
      · simp [ht] at h
      · simp only [ht, if_false] at h ⊢
        exact ih m t r (by omega) h

theorem chase_ok_unique (e : List (Nat × Nat)) (f f' i r r' : Nat)
    (h : chase e f i = Res.ok r) (h' : chase e f' i = Res.ok r') : r = r' := by
  have h1 := chase_ok_fuel_mono e f (max f f') i r (le_max_left _ _) h
  have h2 := chase_ok_fuel_mono e f' (max f f') i r' (le_max_right _ _) h'
  rw [h1] at h2
  exact (Res.ok.injEq _ _).mp h2

theorem chase_root_no_entry (e : List (Nat × Nat)) :
    ∀ f i r, chase e f i = Res.ok r → findEquiv e r = none := by
  intro f
  induction f with
  | zero => intro i r h; simp [chase] at h
  | succ n ih =>
    intro i r h
    rw [chase] at h
    cases hf : findEquiv e i with
    | none =>
      rw [hf] at h
      cases h
      exact hf
    | some t =>
      rw [hf] at h
      by_cases ht : t = i
      · simp [ht] at h
      · simp only [ht, if_false] at h
        exact ih t r h

theorem chase_no_entry (e : List (Nat × Nat)) (f i : Nat) (h : findEquiv e i = none) :
    chase e (f + 1) i = Res.ok i := by
  rw [chase, h]

theorem chase_ok_pos (e : List (Nat × Nat)) (f i r : Nat) (h : chase e f i = Res.ok r) :
    1 ≤ f := by
  cases f with
  | zero => simp [chase] at h
  | succ n => omega

theorem chase_step (e : List (Nat × Nat)) (f i r t : Nat) (h : chase e (f + 1) i = Res.ok r)
    (hf : findEquiv e i = some t) : t ≠ i ∧ chase e f t = Res.ok r := by
  rw [chase, hf] at h
  by_cases ht : t = i
  · simp [ht] at h
  · exact ⟨ht, by simpa [ht] using h⟩

theorem chase_entry (e : List (Nat × Nat)) (f i t : Nat) (hf : findEquiv e i = some t)
    (ht : ¬t = i) : chase e (f + 1) i = chase e f t := by
  rw [chase, hf]
  simp [ht]

/-- Rewriting one chain entry to point directly at its own root preserves
every chase result (at the same fuel, since chains only get shorter). -/
theorem setEquiv_preserves_chase (e : List (Nat × Nat)) (k t r ft : Nat)
    (hk : findEquiv e k = some t) (ht : chase e ft t = Res.ok r) :
    ∀ f x rt, chase e f x = Res.ok rt → chase (setEquiv e k r) f x = Res.ok rt := by
  have hrootfree : findEquiv e r = none := chase_root_no_entry e ft t r ht
  have hrk : ¬r = k := by
    intro hh
    rw [hh, hk] at hrootfree
    cases hrootfree
  intro f
  induction f with
  | zero => intro x rt h; simp [chase] at h
  | succ n ih =>
    intro x rt h
    by_cases hx : x = k
    · rw [hx] at h ⊢
      obtain ⟨htx, hrest⟩ := chase_step e n k rt t h hk
      have hn1 : 1 ≤ n := chase_ok_pos e n t rt hrest
      have hrt : rt = r := chase_ok_unique e n ft t rt r hrest ht
      have hentry : findEquiv (setEquiv e k r) k = some r := by
        rw [findEquiv_setEquiv_self, hk]
        rfl
      rw [chase_entry (setEquiv e k r) n k r hentry hrk, hrt]
      obtain ⟨m, rfl⟩ : ∃ m, n = m + 1 := ⟨n - 1, by omega⟩
      refine chase_no_entry _ m r ?h1
      rw [findEquiv_setEquiv_ne e k r r hrk]
      exact hrootfree
    · rw [chase, findEquiv_setEquiv_ne e k r x hx]
      rw [chase] at h
      cases hfx : findEquiv e x with
      | none => rw [hfx] at h; exact h
      | some t' =>
        rw [hfx] at h
        by_cases ht' : t' = x
        · simp [ht'] at h
        · simp only [ht', if_false] at h ⊢
          exact ih t' rt h

/-- Path compression preserves every chase result, the set of keys with
entries, and the table length. -/
theorem compress_preserves :
    ∀ fc (e : List (Nat × Nat)) i root, (∃ f0, chase e f0 i = Res.ok root) →
      (∀ f' x rt, chase e f' x = Res.ok rt → chase (compress e fc i root) f' x = Res.ok rt) ∧
      (∀ j, (findEquiv (compress e fc i root) j).isSome = (findEquiv e j).isSome) ∧
      (compress e fc i root).length = e.length := by
  intro fc
  induction fc with
  | zero => intro e i root _; exact ⟨fun _ _ _ h => h, fun _ => rfl, rfl⟩
  | succ n ih =>
    intro e i root hch
    obtain ⟨f0, hch⟩ := hch
    by_cases hir : i = root
    · rw [compress, if_pos hir]
      exact ⟨fun _ _ _ h => h, fun _ => rfl, rfl⟩
    · cases hfi : findEquiv e i with
      | none =>
        rw [compress, if_neg hir, hfi]
        exact ⟨fun _ _ _ h => h, fun _ => rfl, rfl⟩
      | some t =>
        have hunf : compress e (n + 1) i root = compress (setEquiv e i root) n t root := by
          rw [compress, if_neg hir, hfi]
        have hpos := chase_ok_pos e f0 i root hch
        obtain ⟨g, rfl⟩ : ∃ g, f0 = g + 1 := ⟨f0 - 1, by omega⟩
        obtain ⟨hti, htg⟩ := chase_step e g i root t hch hfi
        have hpres := setEquiv_preserves_chase e i t root g hfi htg
        have hrec := ih (setEquiv e i root) t root ⟨g, hpres g t root htg⟩
        refine ⟨?pa, ?pb, ?pc⟩
        · intro f' x rt h
          rw [hunf]
          exact hrec.1 f' x rt (hpres f' x rt h)
        · intro j
          rw [hunf, hrec.2.1 j, findEquiv_isSome_setEquiv]
        · rw [hunf, hrec.2.2, setEquiv_length]

theorem mem_setEquiv (e : List (Nat × Nat)) (i t : Nat) :
    ∀ p ∈ setEquiv e i t, p ∈ e ∨ p = (i, t) := by
  induction e with
  | nil => intro p hp; cases hp
  | cons q rest ih =>
    obtain ⟨k, v⟩ := q
    intro p hp
    rw [setEquiv] at hp
    by_cases hk : k = i
    · rw [if_pos hk] at hp
      rcases List.mem_cons.mp hp with h1 | h2
      · rw [h1, hk]
        exact Or.inr rfl
      · exact Or.inl (List.mem_cons_of_mem _ h2)
    · rw [if_neg hk] at hp
      rcases List.mem_cons.mp hp with h1 | h2
      · exact Or.inl (h1 ▸ List.mem_cons_self _ _)
      · rcases ih p h2 with h3 | h4
        · exact Or.inl (List.mem_cons_of_mem _ h3)
        · exact Or.inr h4

theorem mem_findEquiv_isSome (e : List (Nat × Nat)) (k v : Nat) (h : (k, v) ∈ e) :
    (findEquiv e k).isSome = true := by
  induction e with
  | nil => cases h
  | cons q rest ih =>
    obtain ⟨k', v'⟩ := q
    rw [findEquiv]
    by_cases hk : k' = k
    · rw [if_pos hk]
      rfl
    · rw [if_neg hk]
      rcases List.mem_cons.mp h with h1 | h2
      · cases h1
        exact absurd rfl hk
      · exact ih h2

/-- Every pair of a compressed table is an original pair or a rewrite of a
chain node to the root being compressed towards. -/
theorem compress_pairs :
    ∀ fc (e : List (Nat × Nat)) i root,
      (∀ x, ∃ rt, chase e (e.length + 1) x = Res.ok rt) →
      (∃ f0, chase e f0 i = Res.ok root) →
      ∀ p ∈ compress e fc i root,
        p ∈ e ∨ (p.2 = root ∧ ∃ f', chase e f' p.1 = Res.ok root) := by
  intro fc
  induction fc with
  | zero => intro e i root _ _ p hp; exact Or.inl hp
  | succ n ih =>
    intro e i root hwf hch p hp
    obtain ⟨f0, hch0⟩ := hch
    by_cases hir : i = root
    · rw [compress, if_pos hir] at hp
      exact Or.inl hp
    · cases hfi : findEquiv e i with
      | none =>
        rw [compress, if_neg hir, hfi] at hp
        exact Or.inl hp
      | some t =>
        have hunf : compress e (n + 1) i root = compress (setEquiv e i root) n t root := by
          rw [compress, if_neg hir, hfi]
        rw [hunf] at hp
        have hpos := chase_ok_pos e f0 i root hch0
        obtain ⟨g, rfl⟩ : ∃ g, f0 = g + 1 := ⟨f0 - 1, by omega⟩
        obtain ⟨hti, htg⟩ := chase_step e g i root t hch0 hfi
        have hpres := setEquiv_preserves_chase e i t root g hfi htg
        have hwf1 : ∀ x, ∃ rt, chase (setEquiv e i root) ((setEquiv e i root).length + 1) x =
            Res.ok rt := by
          intro x
          obtain ⟨rt, hrt⟩ := hwf x
          rw [setEquiv_length]
          exact ⟨rt, hpres _ x rt hrt⟩
        rcases ih (setEquiv e i root) t root hwf1 ⟨g, hpres g t root htg⟩ p hp with h1 | h2
        · rcases mem_setEquiv e i root p h1 with h3 | h4
          · exact Or.inl h3
          · refine Or.inr ⟨by rw [h4], ⟨g + 1, by rw [h4]; exact hch0⟩⟩
        · obtain ⟨hp2, f', hf'⟩ := h2
          obtain ⟨rt, hrt⟩ := hwf p.1
          have hrt1 := hpres _ p.1 rt hrt
          have : rt = root := chase_ok_unique (setEquiv e i root) _ f' p.1 rt root hrt1 hf'
          exact Or.inr ⟨hp2, ⟨e.length + 1, this ▸ hrt⟩⟩

/-- Root of a domain as a pure value: the chase loop at the fuel `lookupD`
uses, which suffices on every acyclic table. -/
def rootOf (s : DD) (i : Nat) : Res Nat := chase s.equiv (s.equiv.length + 1) i

theorem rootOf_no_entry (s : DD) (i : Nat) (h : findEquiv s.equiv i = none) :
    rootOf s i = Res.ok i :=
  chase_no_entry s.equiv s.equiv.length i h

theorem rootOf_root_no_entry (s : DD) (i r : Nat) (h : rootOf s i = Res.ok r) :
    findEquiv s.equiv r = none :=
  chase_root_no_entry s.equiv (s.equiv.length + 1) i r h

/-- Specification of `lookupD` on a chaseable input: it returns the chase
root, only rewrites equivalence-chain targets (key set and length unchanged,
every established root preserved), and touches neither arena nor interns. -/
theorem lookupD_spec (s : DD) (i r : Nat) (h : rootOf s i = Res.ok r) :
    ∃ s', lookupD s i = Res.ok (s', r) ∧ s'.arena = s.arena ∧ s'.intern = s.intern ∧
      s'.equiv.length = s.equiv.length ∧
      (∀ j, (findEquiv s'.equiv j).isSome = (findEquiv s.equiv j).isSome) ∧
      (∀ x rt, rootOf s x = Res.ok rt → rootOf s' x = Res.ok rt) ∧
      findEquiv s'.equiv r = none := by
  have hcomp := compress_preserves (s.equiv.length + 1) s.equiv i r ⟨s.equiv.length + 1, h⟩
  refine ⟨{ s with equiv := compress s.equiv (s.equiv.length + 1) i r }, ?e1, rfl, rfl,
    hcomp.2.2, hcomp.2.1, ?e2, ?e3⟩
  · rw [lookupD]
    rw [rootOf] at h
    rw [h]
  · intro x rt hx
    rw [rootOf] at hx ⊢
    simp only [hcomp.2.2]
    exact hcomp.1 (s.equiv.length + 1) x rt hx
  · have hnone : findEquiv s.equiv r = none := rootOf_root_no_entry s i r h
    have := hcomp.2.1 r
    rw [hnone] at this
    simp only [Option.isSome_none] at this
    cases hfr : findEquiv (compress s.equiv (s.equiv.length + 1) i r) r with
    | none => rfl
    | some v => rw [hfr] at this; simp at this

/-! ### Chain extension: appending an entry at a root -/

theorem chase_append_of_root_ne (e : List (Nat × Nat)) (k j : Nat) :
    ∀ f x r, chase e f x = Res.ok r → ¬r = k →
      chase (e ++ [(k, j)]) f x = Res.ok r := by
  intro f
  induction f with
  | zero => intro x r h _; simp [chase] at h
  | succ n ih =>
    intro x r h hrk
    cases hfx : findEquiv e x with
    | none =>
      rw [chase, hfx] at h
      have hxr : x = r := (Res.ok.injEq _ _).mp h
      have hkx : ¬k = x := fun hh => hrk (hh ▸ hxr).symm
      have hnone : findEquiv (e ++ [(k, j)]) x = none := by
        rw [findEquiv_append_of_none e _ x hfx, findEquiv_single, if_neg hkx]
      rw [chase_no_entry _ n x hnone, hxr]
    | some t =>
      obtain ⟨hti, hrest⟩ := chase_step e n x r t h hfx
      have hentry : findEquiv (e ++ [(k, j)]) x = some t :=
        findEquiv_append_of_some e _ x t hfx
      rw [chase_entry _ n x t hentry hti]
      exact ih t r hrest hrk

theorem chase_append_extend (e : List (Nat × Nat)) (k j : Nat)
    (hkj : ¬k = j)
    (hj : findEquiv (e ++ [(k, j)]) j = none) :
    ∀ f x, chase e f x = Res.ok k → chase (e ++ [(k, j)]) (f + 1) x = Res.ok j := by
  intro f
  induction f with
  | zero => intro x h; simp [chase] at h
  | succ n ih =>
    intro x h
    cases hfx : findEquiv e x with
    | none =>
      rw [chase, hfx] at h
      have hxk : x = k := (Res.ok.injEq _ _).mp h
      have hentry : findEquiv (e ++ [(k, j)]) x = some j := by
        rw [findEquiv_append_of_none e _ x hfx, findEquiv_single, hxk, if_pos rfl]
      have hjx : ¬j = x := fun hh => hkj ((hh.trans hxk).symm)
      rw [chase_entry _ (n + 1) x j hentry hjx]
      exact chase_no_entry _ n j hj
    | some t =>
      obtain ⟨hti, hrest⟩ := chase_step e n x k t h hfx
      have hentry : findEquiv (e ++ [(k, j)]) x = some t :=
        findEquiv_append_of_some e _ x t hfx
      rw [chase_entry _ (n + 1) x t hentry hti]
      exact ih t hrest

/-! ### Structural depth of domains -/

/-- Whether a result is an ordinary return. -/
def Res.isOk {α : Type} : Res α → Bool
  | Res.ok _ => true
  | _ => false

theorem Res.isOk_iff {α : Type} (x : Res α) : x.isOk = true ↔ ∃ v, x = Res.ok v := by
  cases x <;> simp [Res.isOk]

/-- Fuelled structural depth of an arena record; every constructor keeps part
indices strictly below their node, so fuel `i + 1` computes the true depth of
index `i`. -/
def depthF (a : List DomainNode) : Nat → Nat → Nat
  | 0, _ => 0
  | fuel + 1, i =>
    match a.get? i with
    | some (DomainNode.ho ps) => (ps.map (depthF a fuel)).foldr max 0 + 1
    | _ => 0

/-- Structural depth of a domain index in an arena. -/
def depthA (a : List DomainNode) (i : Nat) : Nat := depthF a (i + 1) i

/-- Part indices of higher-order records stay strictly below their node. -/
def PartsBelow (a : List DomainNode) : Prop :=
  ∀ i ps, a.get? i = some (DomainNode.ho ps) → ∀ p ∈ ps, p < i

theorem get?_some_lt {a : List DomainNode} {i : Nat} {n : DomainNode}
    (h : a.get? i = some n) : i < a.length := by
  by_contra hlt
  rw [List.get?_eq_none.mpr (by omega)] at h
  cases h

theorem depthF_ho (a : List DomainNode) (f i : Nat) (ps : List Nat)
    (h : a.get? i = some (DomainNode.ho ps)) :
    depthF a (f + 1) i = (ps.map (depthF a f)).foldr max 0 + 1 := by
  rw [depthF, h]

theorem depthF_not_ho (a : List DomainNode) (f i : Nat)
    (h : ∀ ps, ¬a.get? i = some (DomainNode.ho ps)) : depthF a (f + 1) i = 0 := by
  rw [depthF]
  cases hn : a.get? i with
  | none => rfl
  | some n =>
    cases n with
    | fo sc => rfl
    | ho ps => exact absurd hn (h ps)

theorem depthF_stable (a : List DomainNode) (hp : PartsBelow a) :
    ∀ i, ∀ f f', i < f → i < f' → depthF a f i = depthF a f' i := by
  intro i
  induction i using Nat.strong_induction_on with
  | _ i ih =>
    intro f f' hf hf'
    rcases f with _ | g
    · omega
    rcases f' with _ | g'
    · omega
    cases hn : a.get? i with
    | none =>
      rw [depthF_not_ho a g i (fun ps hps => by rw [hn] at hps; cases hps),
        depthF_not_ho a g' i (fun ps hps => by rw [hn] at hps; cases hps)]
    | some n =>
      cases n with
      | fo sc =>
        rw [depthF_not_ho a g i (fun ps hps => by rw [hn] at hps; cases hps),
          depthF_not_ho a g' i (fun ps hps => by rw [hn] at hps; cases hps)]
      | ho ps =>
        rw [depthF_ho a g i ps hn, depthF_ho a g' i ps hn]
        have hmap : ps.map (depthF a g) = ps.map (depthF a g') := by
          apply List.map_congr_left
          intro p hpmem
          have hpi : p < i := hp i ps hn p hpmem
          exact ih p hpi g g' (by omega) (by omega)
        rw [hmap]

theorem depthA_eq_depthF (a : List DomainNode) (hp : PartsBelow a) (i f : Nat) (hf : i < f) :
    depthA a i = depthF a f i :=
  depthF_stable a hp i (i + 1) f (by omega) hf

theorem depthF_append (a ext : List DomainNode) (hp : PartsBelow a) :
    ∀ i, i < a.length → ∀ f, depthF (a ++ ext) f i = depthF a f i := by
  intro i
  induction i using Nat.strong_induction_on with
  | _ i ih =>
    intro hi f
    cases f with
    | zero => rfl
    | succ g =>
      have hsame : (a ++ ext).get? i = a.get? i := List.get?_append hi
      cases hn : a.get? i with
      | none =>
        rw [depthF_not_ho (a ++ ext) g i (fun ps hps => by rw [hsame, hn] at hps; cases hps),
          depthF_not_ho a g i (fun ps hps => by rw [hn] at hps; cases hps)]
      | some n =>
        cases n with
        | fo sc =>
          rw [depthF_not_ho (a ++ ext) g i (fun ps hps => by rw [hsame, hn] at hps; cases hps),
            depthF_not_ho a g i (fun ps hps => by rw [hn] at hps; cases hps)]
        | ho ps =>
          rw [depthF_ho (a ++ ext) g i ps (by rw [hsame, hn]), depthF_ho a g i ps hn]
          have hmap : ps.map (depthF (a ++ ext) g) = ps.map (depthF a g) := by
            apply List.map_congr_left
            intro p hpmem
            have hpi : p < i := hp i ps hn p hpmem
            exact ih p hpi (by omega) g
          rw [hmap]

theorem depthA_append (a ext : List DomainNode) (hp : PartsBelow a) (i : Nat)
    (hi : i < a.length) : depthA (a ++ ext) i = depthA a i :=
  depthF_append a ext hp i hi (i + 1)

theorem depthA_fo (a : List DomainNode) (i : Nat) (sc : SEScope)
    (h : a.get? i = some (DomainNode.fo sc)) : depthA a i = 0 := by
  rw [depthA]
  exact depthF_not_ho a i i (fun ps hps => by rw [h] at hps; cases hps)

theorem depthA_ho (a : List DomainNode) (hp : PartsBelow a) (i : Nat) (ps : List Nat)
    (h : a.get? i = some (DomainNode.ho ps)) :
    depthA a i = (ps.map (depthA a)).foldr max 0 + 1 := by
  rw [depthA, depthF_ho a i i ps h]
  have hmap : ps.map (depthF a i) = ps.map (depthA a) := by
    apply List.map_congr_left
    intro p hpmem
    exact (depthA_eq_depthF a hp p i (hp i ps h p hpmem)).symm
  rw [hmap]

/-! ### The solver invariant -/

theorem findEquiv_some_mem (e : List (Nat × Nat)) (i t : Nat) (h : findEquiv e i = some t) :
    (i, t) ∈ e := by
  induction e with
  | nil => cases h
  | cons p rest ih =>
    obtain ⟨k, v⟩ := p
    rw [findEquiv] at h
    by_cases hk : k = i
    · rw [if_pos hk] at h
      cases h
      rw [hk]
      exact List.mem_cons_self _ _
    · rw [if_neg hk] at h
      exact List.mem_cons_of_mem _ (ih h)

/-- The invariant every reachable solver state satisfies: the equivalence
table is bounded, chaseable (acyclic) and depth-preserving, the intern table
is a sound and complete index of the fully-constrained first-order records
and its targets are roots, and higher-order parts point strictly below their
node. -/
structure Inv (s : DD) : Prop where
  equivBounded : ∀ p ∈ s.equiv, p.1 < s.arena.length ∧ p.2 < s.arena.length
  equivTerm : ∀ p ∈ s.equiv, (chase s.equiv (s.equiv.length + 1) p.1).isOk = true
  internBounded : ∀ q ∈ s.intern, q.2 < s.arena.length
  internSound : ∀ q ∈ s.intern,
    s.arena.get? q.2 = some (DomainNode.fo q.1) ∧ q.1.isFullyConstrained = true
  internComplete : ∀ i < s.arena.length, ∀ sc, s.arena.get? i = some (DomainNode.fo sc) →
    sc.isFullyConstrained = true → findIntern s.intern sc = some i
  internRoot : ∀ q ∈ s.intern, findEquiv s.equiv q.2 = none
  partsBelow : PartsBelow s.arena
  depthEq : ∀ p ∈ s.equiv, depthA s.arena p.1 = depthA s.arena p.2

theorem findEquiv_none_of_ge (s : DD) (hInv : Inv s) (k : Nat) (hk : s.arena.length ≤ k) :
    findEquiv s.equiv k = none := by
  cases h : findEquiv s.equiv k with
  | none => rfl
  | some t =>
    have := (hInv.equivBounded (k, t) (findEquiv_some_mem _ _ _ h)).1
    omega

theorem inv_rootOf_ok (s : DD) (hInv : Inv s) (i : Nat) : ∃ r, rootOf s i = Res.ok r := by
  cases h : findEquiv s.equiv i with
  | none => exact ⟨i, rootOf_no_entry s i h⟩
  | some t =>
    have hmem := findEquiv_some_mem _ _ _ h
    have := hInv.equivTerm (i, t) hmem
    rw [Res.isOk_iff] at this
    exact this

/-- Chasing equivalence entries preserves structural depth. -/
theorem chase_depth (s : DD) (hInv : Inv s) :
    ∀ f i r, chase s.equiv f i = Res.ok r → depthA s.arena i = depthA s.arena r := by
  intro f
  induction f with
  | zero => intro i r h; simp [chase] at h
  | succ n ih =>
    intro i r h
    cases hfi : findEquiv s.equiv i with
    | none =>
      rw [chase, hfi] at h
      rw [(Res.ok.injEq _ _).mp h]
    | some t =>
      obtain ⟨hti, hrest⟩ := chase_step _ n i r t h hfi
      have h1 : depthA s.arena i = depthA s.arena t :=
        hInv.depthEq (i, t) (findEquiv_some_mem _ _ _ hfi)
      rw [h1]
      exact ih t r hrest

theorem rootOf_depth (s : DD) (hInv : Inv s) (i r : Nat) (h : rootOf s i = Res.ok r) :
    depthA s.arena i = depthA s.arena r :=
  chase_depth s hInv (s.equiv.length + 1) i r h

/-! ### Factory operations and the invariant -/

theorem findIntern_some_mem (it : List (SEScope × Nat)) (sc : SEScope) (i : Nat)
    (h : findIntern it sc = some i) : (sc, i) ∈ it := by
  induction it with
  | nil => cases h
  | cons q rest ih =>
    obtain ⟨c, v⟩ := q
    rw [findIntern] at h
    by_cases hc : c = sc
    · rw [if_pos hc] at h
      cases h
      rw [hc]
      exact List.mem_cons_self _ _
    · rw [if_neg hc] at h
      exact List.mem_cons_of_mem _ (ih h)

theorem findIntern_append_of_none (it it2 : List (SEScope × Nat)) (sc : SEScope)
    (h : findIntern it sc = none) : findIntern (it ++ it2) sc = findIntern it2 sc := by
  induction it with
  | nil => simp [findIntern]
  | cons q rest ih =>
    obtain ⟨c, v⟩ := q
    rw [findIntern] at h
    by_cases hc : c = sc
    · rw [if_pos hc] at h; cases h
    · rw [if_neg hc] at h
      rw [List.cons_append, findIntern, if_neg hc]
      exact ih h

theorem findIntern_append_of_some (it it2 : List (SEScope × Nat)) (sc : SEScope) (i : Nat)
    (h : findIntern it sc = some i) : findIntern (it ++ it2) sc = some i := by
  induction it with
  | nil => cases h
  | cons q rest ih =>
    obtain ⟨c, v⟩ := q
    rw [findIntern] at h
    rw [List.cons_append, findIntern]
    by_cases hc : c = sc
    · rw [if_pos hc] at h
      rw [if_pos hc]
      exact h
    · rw [if_neg hc] at h
      rw [if_neg hc]
      exact ih h

theorem get?_concat (a : List DomainNode) (n : DomainNode) (i : Nat) :
    (a ++ [n]).get? i =
      if i < a.length then a.get? i else if i = a.length then some n else none := by
  by_cases h1 : i < a.length
  · rw [if_pos h1]
    exact List.get?_append h1
  · rw [if_neg h1]
    by_cases h2 : i = a.length
    · rw [if_pos h2, h2]
      exact List.get?_concat_length a n
    · rw [if_neg h2]
      apply List.get?_eq_none.mpr
      simp only [List.length_append, List.length_cons, List.length_nil]
      omega

theorem partsBelow_append (a : List DomainNode) (n : DomainNode) (hp : PartsBelow a)
    (hn : ∀ ps, n = DomainNode.ho ps → ∀ p ∈ ps, p < a.length) :
    PartsBelow (a ++ [n]) := by
  intro i ps h p hpmem
  rw [get?_concat] at h
  by_cases h1 : i < a.length
  · rw [if_pos h1] at h
    exact hp i ps h p hpmem
  · rw [if_neg h1] at h
    by_cases h2 : i = a.length
    · rw [if_pos h2] at h
      have := hn ps (Option.some.inj h) p hpmem
      omega
    · rw [if_neg h2] at h
      cases h

/-- Appending one record (with valid parts, and intern entry exactly when the
record is a new fully-constrained first-order one) preserves the invariant. -/
theorem inv_append_node (s : DD) (n : DomainNode)
    (hInv : Inv s)
    (hn : ∀ ps, n = DomainNode.ho ps → ∀ p ∈ ps, p < s.arena.length)
    (hnotfc : ∀ sc, n = DomainNode.fo sc → sc.isFullyConstrained = true → False) :
    Inv { s with arena := s.arena ++ [n] } := by
  refine ⟨?b, ?t, ?ib, ?is, ?ic, ?ir, ?pb, ?de⟩
  · intro p hp
    have := hInv.equivBounded p hp
    simp only [List.length_append, List.length_cons, List.length_nil]
    omega
  · exact hInv.equivTerm
  · intro q hq
    have := hInv.internBounded q hq
    simp only [List.length_append, List.length_cons, List.length_nil]
    omega
  · intro q hq
    obtain ⟨h1, h2⟩ := hInv.internSound q hq
    refine ⟨?s1, h2⟩
    rw [get?_concat, if_pos (hInv.internBounded q hq)]
    exact h1
  · intro i hi sc hsc hfc
    rw [get?_concat] at hsc
    by_cases h1 : i < s.arena.length
    · rw [if_pos h1] at hsc
      exact hInv.internComplete i h1 sc hsc hfc
    · rw [if_neg h1] at hsc
      by_cases h2 : i = s.arena.length
      · rw [if_pos h2] at hsc
        exact absurd hfc (fun hh => hnotfc sc (Option.some.inj hsc) hh)
      · rw [if_neg h2] at hsc
        cases hsc
  · exact hInv.internRoot
  · exact partsBelow_append s.arena n hInv.partsBelow hn
  · intro p hp
    obtain ⟨hb1, hb2⟩ := hInv.equivBounded p hp
    rw [depthA_append s.arena [n] hInv.partsBelow p.1 hb1,
      depthA_append s.arena [n] hInv.partsBelow p.2 hb2]
    exact hInv.depthEq p hp

theorem makeFirstOrderDomain_interned (s : DD) (sc : SEScope) (i : Nat)
    (hfc : sc.isFullyConstrained = true) (h : findIntern s.intern sc = some i) :
    makeFirstOrderDomain s sc = (s, i) := by
  rw [makeFirstOrderDomain, if_pos hfc, h]

/-- Full specification of `MakeFirstOrderDomain` on an invariant state. -/
theorem makeFirstOrderDomain_spec (s : DD) (sc : SEScope) (hInv : Inv s) :
    Inv (makeFirstOrderDomain s sc).1 ∧
    (makeFirstOrderDomain s sc).1.equiv = s.equiv ∧
    (∃ ext, (makeFirstOrderDomain s sc).1.arena = s.arena ++ ext) ∧
    (∀ q ∈ s.intern, q ∈ (makeFirstOrderDomain s sc).1.intern) ∧
    (makeFirstOrderDomain s sc).1.arena.get? (makeFirstOrderDomain s sc).2 =
      some (DomainNode.fo sc) ∧
    findEquiv (makeFirstOrderDomain s sc).1.equiv (makeFirstOrderDomain s sc).2 = none := by
  by_cases hfc : sc.isFullyConstrained = true
  · cases hfind : findIntern s.intern sc with
    | some i =>
      rw [makeFirstOrderDomain_interned s sc i hfc hfind]
      have hmem := findIntern_some_mem s.intern sc i hfind
      obtain ⟨h1, _⟩ := hInv.internSound (sc, i) hmem
      exact ⟨hInv, rfl, ⟨[], (List.append_nil _).symm⟩, fun q hq => hq, h1,
        hInv.internRoot (sc, i) hmem⟩
    | none =>
      have heq : makeFirstOrderDomain s sc =
          ({ arena := s.arena ++ [DomainNode.fo sc], equiv := s.equiv,
             intern := s.intern ++ [(sc, s.arena.length)] }, s.arena.length) := by
        rw [makeFirstOrderDomain, if_pos hfc, hfind]
      rw [heq]
      dsimp only
      refine ⟨?inv, rfl, ⟨[DomainNode.fo sc], rfl⟩, ?imono, ?node, ?efree⟩
      · refine ⟨?b, ?t, ?ib, ?is, ?ic, ?ir, ?pb, ?de⟩
        · intro p hp
          have := hInv.equivBounded p hp
          simp only [List.length_append, List.length_cons, List.length_nil]
          omega
        · exact hInv.equivTerm
        · intro q hq
          simp only [List.length_append, List.length_cons, List.length_nil]
          rcases List.mem_append.mp hq with hq1 | hq2
          · have := hInv.internBounded q hq1
            omega
          · have hq3 := List.mem_singleton.mp hq2
            rw [hq3]
            omega
        · intro q hq
          rcases List.mem_append.mp hq with hq1 | hq2
          · obtain ⟨h1, h2⟩ := hInv.internSound q hq1
            refine ⟨?s2, h2⟩
            rw [get?_concat, if_pos (hInv.internBounded q hq1)]
            exact h1
          · have hq3 := List.mem_singleton.mp hq2
            rw [hq3]
            refine ⟨?s3, hfc⟩
            rw [get?_concat, if_neg (by omega), if_pos rfl]
        · intro i hi sc' hsc' hfc'
          rw [get?_concat] at hsc'
          by_cases h1 : i < s.arena.length
          · rw [if_pos h1] at hsc'
            exact findIntern_append_of_some _ _ _ _ (hInv.internComplete i h1 sc' hsc' hfc')
          · rw [if_neg h1] at hsc'
            by_cases h2 : i = s.arena.length
            · rw [if_pos h2] at hsc'
              have hsc'' : sc' = sc := by
                have := Option.some.inj hsc'
                cases this
                rfl
              rw [hsc'', findIntern_append_of_none _ _ _ hfind, findIntern, if_pos rfl, h2]
            · rw [if_neg h2] at hsc'
              cases hsc'
        · intro q hq
          rcases List.mem_append.mp hq with hq1 | hq2
          · exact hInv.internRoot q hq1
          · have hq3 := List.mem_singleton.mp hq2
            rw [hq3]
            exact findEquiv_none_of_ge s hInv s.arena.length (le_refl _)
        · exact partsBelow_append s.arena _ hInv.partsBelow (fun ps hps => by cases hps)
        · intro p hp
          obtain ⟨hb1, hb2⟩ := hInv.equivBounded p hp
          have hd1 := depthA_append s.arena [DomainNode.fo sc] hInv.partsBelow p.1 hb1
          have hd2 := depthA_append s.arena [DomainNode.fo sc] hInv.partsBelow p.2 hb2
          dsimp only
          rw [hd1, hd2]
          exact hInv.depthEq p hp
      · intro q hq
        exact List.mem_append.mpr (Or.inl hq)
      · rw [get?_concat, if_neg (by omega), if_pos rfl]
      · exact findEquiv_none_of_ge s hInv s.arena.length (le_refl _)
  · have heq : makeFirstOrderDomain s sc =
        ({ arena := s.arena ++ [DomainNode.fo sc], equiv := s.equiv,
           intern := s.intern }, s.arena.length) := by
      rw [makeFirstOrderDomain, if_neg hfc]
    rw [heq]
    dsimp only
    refine ⟨?inv2, rfl, ⟨[DomainNode.fo sc], rfl⟩, fun q hq => hq, ?node2, ?efree2⟩
    · exact inv_append_node s _ hInv (fun ps hps => by cases hps)
        (fun sc' hsc' hfc' => by
          have : sc' = sc := by
            cases hsc'
            rfl
          rw [this] at hfc'
          exact hfc hfc')
    · rw [get?_concat, if_neg (by omega), if_pos rfl]
    · exact findEquiv_none_of_ge s hInv s.arena.length (le_refl _)

theorem emplaceEquiv_of_none (e : List (Nat × Nat)) (k t : Nat)
    (h : findEquiv e k = none) : emplaceEquiv e k t = e ++ [(k, t)] := by
  rw [emplaceEquiv, h]

/-- Adding an equivalence entry from one root to another, distinct,
depth-equal root preserves the invariant; chains that ended at the linked
root now end at the target, all other roots are untouched. -/
theorem inv_addEntry (s : DD) (k j : Nat) (hInv : Inv s)
    (hk : findEquiv s.equiv k = none) (hj : findEquiv s.equiv j = none) (hkj : ¬k = j)
    (hkb : k < s.arena.length) (hjb : j < s.arena.length)
    (hdepth : depthA s.arena k = depthA s.arena j)
    (hnotintern : ∀ sc, s.arena.get? k = some (DomainNode.fo sc) →
        sc.isFullyConstrained = true → False) :
    Inv { s with equiv := s.equiv ++ [(k, j)] } ∧
    (∀ x rt, rootOf s x = Res.ok rt → ¬rt = k →
       rootOf { s with equiv := s.equiv ++ [(k, j)] } x = Res.ok rt) ∧
    (∀ x, rootOf s x = Res.ok k →
       rootOf { s with equiv := s.equiv ++ [(k, j)] } x = Res.ok j) := by
  have hlen : (s.equiv ++ [(k, j)]).length = s.equiv.length + 1 := by simp
  have hjext : findEquiv (s.equiv ++ [(k, j)]) j = none := by
    rw [findEquiv_append_of_none _ _ _ hj, findEquiv_single, if_neg hkj]
  have hpresne : ∀ x rt, rootOf s x = Res.ok rt → ¬rt = k →
      rootOf { s with equiv := s.equiv ++ [(k, j)] } x = Res.ok rt := by
    intro x rt hx hrtk
    rw [rootOf] at hx ⊢
    dsimp only at hx ⊢
    rw [hlen]
    exact chase_ok_fuel_mono _ _ _ _ _ (by omega)
      (chase_append_of_root_ne s.equiv k j _ x rt hx hrtk)
  have hpresk : ∀ x, rootOf s x = Res.ok k →
      rootOf { s with equiv := s.equiv ++ [(k, j)] } x = Res.ok j := by
    intro x hx
    rw [rootOf] at hx ⊢
    dsimp only at hx ⊢
    rw [hlen]
    exact chase_append_extend s.equiv k j hkj hjext _ x hx
  refine ⟨⟨?g1, ?g2, ?g3, ?g4, ?g5, ?g6, ?g7, ?g8⟩, hpresne, hpresk⟩
  · intro p hp
    rcases List.mem_append.mp hp with hp1 | hp2
    · exact hInv.equivBounded p hp1
    · have := List.mem_singleton.mp hp2
      rw [this]
      exact ⟨hkb, hjb⟩
  · intro p hp
    dsimp only at hp ⊢
    rw [hlen]
    rcases List.mem_append.mp hp with hp1 | hp2
    · have := hInv.equivTerm p hp1
      rw [Res.isOk_iff] at this
      obtain ⟨r, hr⟩ := this
      rw [Res.isOk_iff]
      by_cases hrk : r = k
      · rw [hrk] at hr
        exact ⟨j, chase_append_extend s.equiv k j hkj hjext _ p.1 hr⟩
      · exact ⟨r, chase_ok_fuel_mono _ _ _ _ _ (by omega)
          (chase_append_of_root_ne s.equiv k j _ p.1 r hr hrk)⟩
    · have hpp := List.mem_singleton.mp hp2
      rw [hpp]
      rw [Res.isOk_iff]
      have hentry : findEquiv (s.equiv ++ [(k, j)]) k = some j := by
        rw [findEquiv_append_of_none _ _ _ hk, findEquiv_single, if_pos rfl]
      have hjk : ¬j = k := fun hh => hkj hh.symm
      refine ⟨j, ?ch⟩
      rw [chase_entry _ (s.equiv.length + 1) k j hentry hjk]
      obtain ⟨m, hm⟩ : ∃ m, s.equiv.length + 1 = m + 1 := ⟨s.equiv.length, rfl⟩
      rw [hm]
      exact chase_no_entry _ m j hjext
  · exact hInv.internBounded
  · exact hInv.internSound
  · exact hInv.internComplete
  · intro q hq
    by_cases hqk : q.2 = k
    · obtain ⟨h1, h2⟩ := hInv.internSound q hq
      rw [hqk] at h1
      exact absurd h2 (fun hh => hnotintern q.1 h1 hh)
    · rw [findEquiv_append_of_none _ _ _ (hInv.internRoot q hq), findEquiv_single,
        if_neg (fun hh => hqk hh.symm)]
  · exact hInv.partsBelow
  · intro p hp
    rcases List.mem_append.mp hp with hp1 | hp2
    · exact hInv.depthEq p hp1
    · have := List.mem_singleton.mp hp2
      rw [this]
      exact hdepth

/-! ### Scope lattice lemmas -/

theorem fc_not_fu (sc : SEScope) (h : sc.isFullyConstrained = true) :
    sc.isFullyUnconstrained = false := by
  obtain ⟨d, m⟩ := sc
  rw [SEScope.isFullyConstrained] at h
  rw [SEScope.isFullyUnconstrained]
  cases d <;> cases m <;> simp_all

theorem fu_eq (sc : SEScope) (h : sc.isFullyUnconstrained = true) :
    sc = SEScope.fullyUnconstrained := by
  obtain ⟨d, m⟩ := sc
  rw [SEScope.isFullyUnconstrained] at h
  cases d <;> cases m <;> simp_all [SEScope.fullyUnconstrained]

theorem joinField_some_left (x : Nat) (b v : Option Nat)
    (h : joinField (some x) b = some v) : v = some x := by
  cases b with
  | none => cases h; rfl
  | some z =>
    rw [joinField] at h
    by_cases hz : x = z
    · rw [if_pos hz] at h
      cases h
      rfl
    · rw [if_neg hz] at h
      cases h

theorem joinField_some_right (y : Nat) (a v : Option Nat)
    (h : joinField a (some y) = some v) : v = some y := by
  cases a with
  | none => cases h; rfl
  | some z =>
    rw [joinField] at h
    by_cases hz : z = y
    · rw [if_pos hz] at h
      cases h
      rw [hz]
    · rw [if_neg hz] at h
      cases h

theorem join_fc_left (a b j : SEScope) (ha : a.isFullyConstrained = true)
    (h : SEScope.join a b = some j) : j = a := by
  rw [SEScope.isFullyConstrained, Bool.and_eq_true] at ha
  obtain ⟨x, hx⟩ := Option.isSome_iff_exists.mp ha.1
  obtain ⟨y, hy⟩ := Option.isSome_iff_exists.mp ha.2
  rw [SEScope.join] at h
  cases h1 : joinField a.deviceType b.deviceType with
  | none => rw [h1] at h; cases h
  | some d =>
    cases h2 : joinField a.memoryScope b.memoryScope with
    | none => rw [h1, h2] at h; cases h
    | some m =>
      rw [h1, h2] at h
      have hj : j = ⟨d, m⟩ := (Option.some.inj h).symm
      rw [hx] at h1
      rw [hy] at h2
      have hd := joinField_some_left x b.deviceType d h1
      have hm := joinField_some_left y b.memoryScope m h2
      rw [hj, hd, hm, ← hx, ← hy]

theorem join_fc_right (a b j : SEScope) (hb : b.isFullyConstrained = true)
    (h : SEScope.join a b = some j) : j = b := by
  rw [SEScope.isFullyConstrained, Bool.and_eq_true] at hb
  obtain ⟨x, hx⟩ := Option.isSome_iff_exists.mp hb.1
  obtain ⟨y, hy⟩ := Option.isSome_iff_exists.mp hb.2
  rw [SEScope.join] at h
  cases h1 : joinField a.deviceType b.deviceType with
  | none => rw [h1] at h; cases h
  | some d =>
    cases h2 : joinField a.memoryScope b.memoryScope with
    | none => rw [h1, h2] at h; cases h
    | some m =>
      rw [h1, h2] at h
      have hj : j = ⟨d, m⟩ := (Option.some.inj h).symm
      rw [hx] at h1
      rw [hy] at h2
      have hd := joinField_some_right x a.deviceType d h1
      have hm := joinField_some_right y a.memoryScope m h2
      rw [hj, hd, hm, ← hx, ← hy]

theorem join_fu_left (a b : SEScope) (ha : a.isFullyUnconstrained = true) :
    SEScope.join a b = some b := by
  rw [fu_eq a ha]
  rw [SEScope.join]
  rfl

theorem join_fu_right (a b : SEScope) (hb : b.isFullyUnconstrained = true) :
    SEScope.join a b = some a := by
  rw [fu_eq b hb]
  obtain ⟨d, m⟩ := a
  rw [SEScope.join]
  cases d <;> cases m <;> rfl

/-! ### Support lemmas for the unification induction -/

theorem nodeAt_ext (s s' : DD) (ext : List DomainNode) (he : s'.arena = s.arena ++ ext)
    (i : Nat) (n : DomainNode) (h : s.arena.get? i = some n) : s'.arena.get? i = some n := by
  rw [he, List.get?_append (get?_some_lt h)]
  exact h

theorem depthA_ext (s s' : DD) (ext : List DomainNode) (he : s'.arena = s.arena ++ ext)
    (hp : PartsBelow s.arena) (i : Nat) (hi : i < s.arena.length) :
    depthA s'.arena i = depthA s.arena i := by
  rw [he]
  exact depthA_append s.arena ext hp i hi

theorem chase_last_step (e : List (Nat × Nat)) :
    ∀ f i r, chase e f i = Res.ok r → r = i ∨ ∃ k, findEquiv e k = some r := by
  intro f
  induction f with
  | zero => intro i r h; simp [chase] at h
  | succ n ih =>
    intro i r h
    cases hfi : findEquiv e i with
    | none =>
      rw [chase, hfi] at h
      exact Or.inl ((Res.ok.injEq _ _).mp h).symm
    | some t =>
      obtain ⟨hti, hrest⟩ := chase_step e n i r t h hfi
      rcases ih t r hrest with h1 | h2
      · exact Or.inr ⟨i, h1 ▸ hfi⟩
      · exact Or.inr h2

theorem rootOf_lt (s : DD) (hInv : Inv s) (i r : Nat) (hi : i < s.arena.length)
    (h : rootOf s i = Res.ok r) : r < s.arena.length := by
  rcases chase_last_step s.equiv (s.equiv.length + 1) i r h with h1 | h2
  · omega
  · obtain ⟨k, hk⟩ := h2
    exact (hInv.equivBounded (k, r) (findEquiv_some_mem _ _ _ hk)).2

theorem chase_ok_lt (s : DD) (hInv : Inv s) (f i r : Nat) (hi : i < s.arena.length)
    (h : chase s.equiv f i = Res.ok r) : r < s.arena.length := by
  rcases chase_last_step s.equiv f i r h with h1 | h2
  · omega
  · obtain ⟨k, hk⟩ := h2
    exact (hInv.equivBounded (k, r) (findEquiv_some_mem _ _ _ hk)).2

theorem key_lt (s : DD) (hInv : Inv s) (x : Nat) (hx : (findEquiv s.equiv x).isSome = true) :
    x < s.arena.length := by
  obtain ⟨t, ht⟩ := Option.isSome_iff_exists.mp hx
  exact (hInv.equivBounded (x, t) (findEquiv_some_mem _ _ _ ht)).1

/-- `lookupD` (path compression) preserves the invariant. -/
theorem lookupD_inv (s : DD) (hInv : Inv s) (i r : Nat) (s' : DD)
    (hlk : lookupD s i = Res.ok (s', r)) : Inv s' := by
  rw [lookupD] at hlk
  cases hch : chase s.equiv (s.equiv.length + 1) i with
  | abort => rw [hch] at hlk; cases hlk
  | nofuel => rw [hch] at hlk; cases hlk
  | ok r =>
    rw [hch] at hlk
    simp only at hlk
    cases hlk
    have hwf : ∀ x, ∃ rt, chase s.equiv (s.equiv.length + 1) x = Res.ok rt := fun x =>
      inv_rootOf_ok s hInv x
    have hcp := compress_pairs (s.equiv.length + 1) s.equiv i r hwf ⟨_, hch⟩
    have hcpre := compress_preserves (s.equiv.length + 1) s.equiv i r ⟨_, hch⟩
    refine ⟨?b, ?t, hInv.internBounded, hInv.internSound, hInv.internComplete, ?ir,
      hInv.partsBelow, ?de⟩
    · intro p hp
      rcases hcp p hp with h1 | ⟨h2, f', hf'⟩
      · exact hInv.equivBounded p h1
      · have hk : (findEquiv s.equiv p.1).isSome = true := by
          rw [← hcpre.2.1 p.1]
          exact mem_findEquiv_isSome _ p.1 p.2 hp
        have h1lt := key_lt s hInv p.1 hk
        exact ⟨h1lt, h2 ▸ chase_ok_lt s hInv f' p.1 r h1lt hf'⟩
    · intro p hp
      have hk : (findEquiv s.equiv p.1).isSome = true := by
        rw [← hcpre.2.1 p.1]
        exact mem_findEquiv_isSome _ p.1 p.2 hp
      obtain ⟨t0, ht0⟩ := Option.isSome_iff_exists.mp hk
      have hterm := hInv.equivTerm (p.1, t0) (findEquiv_some_mem _ _ _ ht0)
      rw [Res.isOk_iff] at hterm
      obtain ⟨rt, hrt⟩ := hterm
      rw [Res.isOk_iff]
      refine ⟨rt, ?ch⟩
      show chase (compress s.equiv (s.equiv.length + 1) i r)
        ((compress s.equiv (s.equiv.length + 1) i r).length + 1) p.1 = Res.ok rt
      rw [hcpre.2.2]
      exact hcpre.1 _ p.1 rt hrt
    · intro q hq
      have h0 := hInv.internRoot q hq
      have hiso := hcpre.2.1 q.2
      rw [h0] at hiso
      cases hf : findEquiv (compress s.equiv (s.equiv.length + 1) i r) q.2 with
      | none => rfl
      | some v =>
        rw [hf] at hiso
        cases hiso
    · intro p hp
      rcases hcp p hp with h1 | ⟨h2, f', hf'⟩
      · exact hInv.depthEq p h1
      · rw [h2]
        exact chase_depth s hInv f' p.1 r hf'

theorem le_foldr_max (l : List Nat) (x : Nat) (h : x ∈ l) : x ≤ l.foldr max 0 := by
  induction l with
  | nil => cases h
  | cons y ys ih =>
    rcases List.mem_cons.mp h with h1 | h2
    · rw [h1, List.foldr_cons]
      exact le_max_left _ _
    · exact le_trans (ih h2) (le_max_right _ _)

theorem depthA_part_lt (a : List DomainNode) (hp : PartsBelow a) (i p : Nat) (ps : List Nat)
    (h : a.get? i = some (DomainNode.ho ps)) (hpmem : p ∈ ps) : depthA a p < depthA a i := by
  rw [depthA_ho a hp i ps h]
  have h1 : depthA a p ∈ ps.map (depthA a) := List.mem_map_of_mem _ hpmem
  have := le_foldr_max _ _ h1
  omega

theorem rootOf_congr (s t : DD) (h : s.equiv = t.equiv) (x : Nat) :
    rootOf s x = rootOf t x := by
  rw [rootOf, rootOf, h]

/-- State relation established by every unify/join step that returns: the
invariant is maintained, the arena and intern table grow append-only, the
equivalence key set only grows, and every root that is still entry-free
afterwards still roots the same chains. -/
def Common (s s' : DD) : Prop :=
  Inv s' ∧ (∃ ext, s'.arena = s.arena ++ ext) ∧
  (∀ q ∈ s.intern, q ∈ s'.intern) ∧
  (∀ x, (findEquiv s.equiv x).isSome = true → (findEquiv s'.equiv x).isSome = true) ∧
  (∀ x rt, rootOf s x = Res.ok rt → findEquiv s'.equiv rt = none → rootOf s' x = Res.ok rt)

theorem common_refl (s : DD) (hInv : Inv s) : Common s s :=
  ⟨hInv, ⟨[], (List.append_nil _).symm⟩, fun _ hq => hq, fun _ h => h, fun _ _ h _ => h⟩

theorem common_trans (s1 s2 s3 : DD) (h12 : Common s1 s2) (h23 : Common s2 s3) :
    Common s1 s3 := by
  obtain ⟨i12, ⟨e12, he12⟩, m12, k12, r12⟩ := h12
  obtain ⟨i23, ⟨e23, he23⟩, m23, k23, r23⟩ := h23
  refine ⟨i23, ⟨e12 ++ e23, by rw [he23, he12, List.append_assoc]⟩,
    fun q hq => m23 q (m12 q hq), fun x hx => k23 x (k12 x hx), ?rp⟩
  intro x rt hx hrt
  have h2 : findEquiv s2.equiv rt = none := by
    cases hf : findEquiv s2.equiv rt with
    | none => rfl
    | some v =>
      have := k23 rt (by rw [hf]; rfl)
      rw [hrt] at this
      cases this
  exact r23 x rt (r12 x rt hx h2) hrt

/-- Conclusion of the master lemma for `unifyGo`. -/
def UStmt (f : Nat) : Prop :=
  ∀ s l r s' res, Inv s → l < s.arena.length → r < s.arena.length →
    unifyGo f s l r = Res.ok (s', res) →
    Common s s' ∧
    (∀ x, (findEquiv s'.equiv x).isSome = true → (findEquiv s.equiv x).isSome = true ∨
      depthA s'.arena x ≤ min (depthA s'.arena l) (depthA s'.arena r)) ∧
    (∀ j, res = some j → j < s'.arena.length ∧ findEquiv s'.equiv j = none ∧
      rootOf s' l = Res.ok j ∧ rootOf s' r = Res.ok j ∧
      depthA s'.arena j = depthA s'.arena l ∧ depthA s'.arena l = depthA s'.arena r)

/-- Conclusion of the master lemma for `joinGo` (arguments already roots). -/
def JStmt (f : Nat) : Prop :=
  ∀ s l r s' res, Inv s → findEquiv s.equiv l = none → findEquiv s.equiv r = none →
    l < s.arena.length → r < s.arena.length →
    joinGo f s l r = Res.ok (s', res) →
    Common s s' ∧
    (∀ x, (findEquiv s'.equiv x).isSome = true → (findEquiv s.equiv x).isSome = true ∨
      depthA s'.arena x < min (depthA s'.arena l) (depthA s'.arena r)) ∧
    (∀ j, res = some j → j < s'.arena.length ∧ findEquiv s'.equiv j = none ∧
      findEquiv s'.equiv l = none ∧ findEquiv s'.equiv r = none ∧
      depthA s'.arena j = depthA s'.arena l ∧ depthA s'.arena l = depthA s'.arena r ∧
      (∀ sc, nodeAt s l = some (DomainNode.fo sc) → sc.isFullyConstrained = true → j = l) ∧
      (∀ sc, nodeAt s r = some (DomainNode.fo sc) → sc.isFullyConstrained = true → j = r))

/-- Conclusion of the master lemma for `joinParts`. -/
def JPStmt (f : Nat) : Prop :=
  ∀ s as bs s' ores, Inv s → (∀ a ∈ as, a < s.arena.length) →
    (∀ b ∈ bs, b < s.arena.length) →
    joinParts f s as bs = Res.ok (s', ores) →
    Common s s' ∧
    (∀ x, (findEquiv s'.equiv x).isSome = true → (findEquiv s.equiv x).isSome = true ∨
      ∃ p ∈ as.zip bs,
        depthA s'.arena x ≤ min (depthA s'.arena p.1) (depthA s'.arena p.2)) ∧
    (∀ js, ores = some js →
      List.Forall₂ (fun j a => depthA s'.arena j = depthA s'.arena a ∧ j < s'.arena.length)
        js as ∧
      List.Forall₂ (fun j b => depthA s'.arena j = depthA s'.arena b) js bs)

theorem arena_le_of_ext (s s' : DD) (ext : List DomainNode) (he : s'.arena = s.arena ++ ext) :
    s.arena.length ≤ s'.arena.length := by
  rw [he, List.length_append]
  omega

/-- `joinParts` master lemma, given the `unifyGo` master lemma at the same
fuel. -/
theorem JP_of_U (f : Nat) (hU : UStmt f) : JPStmt f := by
  intro s as
  induction as generalizing s with
  | nil =>
    intro bs s' ores hInv ha hb h
    cases bs with
    | nil =>
      rw [joinParts] at h
      cases h
      refine ⟨common_refl s hInv, fun x hx => Or.inl hx, fun js hjs => ?c1⟩
      cases hjs
      exact ⟨List.Forall₂.nil, List.Forall₂.nil⟩
    | cons b bs =>
      have habort : joinParts f s [] (b :: bs) = Res.abort := by
        rw [joinParts] <;> intros <;> simp_all
      rw [habort] at h
      cases h
  | cons a as ih =>
    intro bs s' ores hInv ha hb h
    cases bs with
    | nil =>
      have habort : joinParts f s (a :: as) [] = Res.abort := by
        rw [joinParts] <;> intros <;> simp_all
      rw [habort] at h
      cases h
    | cons b bs =>
      have hab : a < s.arena.length := ha a (List.mem_cons_self _ _)
      have hbb : b < s.arena.length := hb b (List.mem_cons_self _ _)
      rw [joinParts] at h
      cases hu : unifyGo f s a b with
      | abort => rw [hu] at h; cases h
      | nofuel => rw [hu] at h; cases h
      | ok pr =>
        obtain ⟨s1, ures⟩ := pr
        rw [hu] at h
        obtain ⟨hcomU, hnkU, hsomeU⟩ := hU s a b s1 ures hInv hab hbb hu
        obtain ⟨ext1, hext1⟩ := hcomU.2.1
        have hble : depthA s1.arena a = depthA s.arena a :=
          depthA_ext s s1 ext1 hext1 hInv.partsBelow a hab
        have hble2 : depthA s1.arena b = depthA s.arena b :=
          depthA_ext s s1 ext1 hext1 hInv.partsBelow b hbb
        cases ures with
        | none =>
          simp only at h
          cases h
          refine ⟨hcomU, ?nk1, fun js hjs => by cases hjs⟩
          intro x hx
          rcases hnkU x hx with h1 | h2
          · exact Or.inl h1
          · refine Or.inr ⟨(a, b), ?mem1, h2⟩
            rw [List.zip_cons_cons]
            exact List.mem_cons_self _ _
        | some j =>
          simp only at h
          obtain ⟨hjlt, hjfree, hra, hrb, hdja, hdab⟩ := hsomeU j rfl
          cases hjp : joinParts f s1 as bs with
          | abort => rw [hjp] at h; cases h
          | nofuel => rw [hjp] at h; cases h
          | ok pr2 =>
            obtain ⟨s2, ores2⟩ := pr2
            rw [hjp] at h
            have ha1 : ∀ x ∈ as, x < s1.arena.length := by
              intro x hx
              have := ha x (List.mem_cons_of_mem _ hx)
              have := arena_le_of_ext s s1 ext1 hext1
              omega
            have hb1 : ∀ x ∈ bs, x < s1.arena.length := by
              intro x hx
              have := hb x (List.mem_cons_of_mem _ hx)
              have := arena_le_of_ext s s1 ext1 hext1
              omega
            obtain ⟨hcomJP, hnkJP, hsomeJP⟩ := ih s1 bs s2 ores2 hcomU.1 ha1 hb1 hjp
            obtain ⟨ext2, hext2⟩ := hcomJP.2.1
            have hle1 := arena_le_of_ext s s1 ext1 hext1
            have hle2 := arena_le_of_ext s1 s2 ext2 hext2
            have hda2 : depthA s2.arena a = depthA s1.arena a :=
              depthA_ext s1 s2 ext2 hext2 hcomU.1.partsBelow a (by omega)
            have hdb2 : depthA s2.arena b = depthA s1.arena b :=
              depthA_ext s1 s2 ext2 hext2 hcomU.1.partsBelow b (by omega)
            have hnewkeys : ∀ x, (findEquiv s2.equiv x).isSome = true →
                (findEquiv s.equiv x).isSome = true ∨
                ∃ p ∈ (a :: as).zip (b :: bs),
                  depthA s2.arena x ≤ min (depthA s2.arena p.1) (depthA s2.arena p.2) := by
              intro x hx
              rcases hnkJP x hx with h1 | ⟨p, hp, hdp⟩
              · rcases hnkU x h1 with h2 | h3
                · exact Or.inl h2
                · have hxlt : x < s1.arena.length := key_lt s1 hcomU.1 x h1
                  have hdx : depthA s2.arena x = depthA s1.arena x :=
                    depthA_ext s1 s2 ext2 hext2 hcomU.1.partsBelow x hxlt
                  refine Or.inr ⟨(a, b), ?mem2, ?bnd2⟩
                  · rw [List.zip_cons_cons]
                    exact List.mem_cons_self _ _
                  · rw [hdx, hda2, hdb2]
                    exact h3
              · refine Or.inr ⟨p, ?mem3, hdp⟩
                rw [List.zip_cons_cons]
                exact List.mem_cons_of_mem _ hp
            cases ores2 with
            | none =>
              simp only at h
              cases h
              exact ⟨common_trans _ _ _ hcomU hcomJP, hnewkeys, fun js hjs => by cases hjs⟩
            | some js2 =>
              simp only at h
              obtain ⟨hf1, hf2⟩ := hsomeJP js2 rfl
              have hdj2 : depthA s2.arena j = depthA s1.arena j :=
                depthA_ext s1 s2 ext2 hext2 hcomU.1.partsBelow j hjlt
              have hcomT := common_trans _ _ _ hcomU hcomJP
              cases h
              refine ⟨hcomT, hnewkeys, fun js hjs => ?c2⟩
              cases hjs
              constructor
              · refine List.Forall₂.cons ⟨?hc1, ?hc2⟩ hf1
                · rw [hdj2, hda2]
                  exact hdja
                · omega
              · refine List.Forall₂.cons ?hc3 hf2
                rw [hdj2, hdb2]
                exact hdja.trans hdab

theorem canonicalSEScope_eq (sc : SEScope) : canonicalSEScope sc = sc := rfl

theorem forall₂_mem_left {α β : Type} {R : α → β → Prop} {js : List α} {as : List β}
    (h : List.Forall₂ R js as) {j : α} (hj : j ∈ js) : ∃ a ∈ as, R j a := by
  induction h with
  | nil => cases hj
  | cons hR hrest ih =>
    rcases List.mem_cons.mp hj with h1 | h2
    · exact ⟨_, List.mem_cons_self _ _, h1 ▸ hR⟩
    · obtain ⟨a, ha1, ha2⟩ := ih h2
      exact ⟨a, List.mem_cons_of_mem _ ha1, ha2⟩

theorem forall₂_map_eq {α : Type} (g : Nat → α) {js as : List Nat}
    (h : List.Forall₂ (fun j a => g j = g a) js as) : js.map g = as.map g := by
  induction h with
  | nil => rfl
  | cons hR hrest ih => simp [hR, ih]

theorem forall₂_imp_mem {R S : Nat → Nat → Prop} {js as : List Nat}
    (h : List.Forall₂ R js as)
    (hi : ∀ j a, j ∈ js → a ∈ as → R j a → S j a) : List.Forall₂ S js as := by
  induction h with
  | nil => exact List.Forall₂.nil
  | cons hR hrest ih =>
    exact List.Forall₂.cons
      (hi _ _ (List.mem_cons_self _ _) (List.mem_cons_self _ _) hR)
      (ih (fun j a hj ha hR2 => hi j a (List.mem_cons_of_mem _ hj)
        (List.mem_cons_of_mem _ ha) hR2))

/-- Full specification of `MakeHigherOrderDomain` on an invariant state. -/
theorem makeHigherOrderDomain_spec (s : DD) (parts : List Nat) (hInv : Inv s)
    (hparts : ∀ p ∈ parts, p < s.arena.length) :
    Inv (makeHigherOrderDomain s parts).1 ∧
    (makeHigherOrderDomain s parts).1.equiv = s.equiv ∧
    (makeHigherOrderDomain s parts).1.intern = s.intern ∧
    (makeHigherOrderDomain s parts).1.arena = s.arena ++ [DomainNode.ho parts] ∧
    (makeHigherOrderDomain s parts).2 = s.arena.length ∧
    (makeHigherOrderDomain s parts).1.arena.get? (makeHigherOrderDomain s parts).2 =
      some (DomainNode.ho parts) ∧
    findEquiv (makeHigherOrderDomain s parts).1.equiv (makeHigherOrderDomain s parts).2 =
      none := by
  refine ⟨?inv, rfl, rfl, rfl, rfl, ?node, ?efree⟩
  · exact inv_append_node s _ hInv
      (fun ps hps => by
        have : ps = parts := by
          cases hps
          rfl
        rw [this]
        exact hparts)
      (fun sc hsc => by cases hsc)
  · rw [makeHigherOrderDomain]
    simp only
    rw [get?_concat, if_neg (by omega), if_pos rfl]
  · exact findEquiv_none_of_ge s hInv s.arena.length (le_refl _)

/-- `joinGo` master lemma, given the `joinParts` master lemma at the same
fuel. -/
theorem J_of_JP (f : Nat) (hJP : JPStmt f) : JStmt f := by
  intro s l r s' res hInv hleq hreq hllt hrlt h
  rw [joinGo] at h
  by_cases hlr : l = r
  · rw [if_pos hlr] at h
    cases h
    refine ⟨common_refl s hInv, fun x hx => Or.inl hx, fun j hj => ?c0⟩
    cases hj
    exact ⟨hllt, hleq, hleq, hreq, rfl, by rw [hlr], fun sc _ _ => rfl, fun sc hn _ => hlr⟩
  · rw [if_neg hlr] at h
    cases hnl : nodeAt s l with
    | none =>
      rw [hnl] at h
      simp only at h
      cases h
    | some nl =>
      cases hnr : nodeAt s r with
      | none =>
        rw [hnl, hnr] at h
        cases nl <;> simp only at h <;> cases h
      | some nr =>
        rw [hnl, hnr] at h
        simp only at h
        by_cases hsz : nodeSize nl = nodeSize nr
        · rw [if_neg (not_not_intro hsz)] at h
          cases nl with
          | fo scl =>
            cases nr with
            | ho psr => simp only at h; cases h
            | fo scr =>
              simp only at h
              by_cases hscr : scr.isFullyUnconstrained = true
              · rw [if_pos hscr] at h
                cases h
                refine ⟨common_refl s hInv, fun x hx => Or.inl hx, fun j hj => ?c1⟩
                cases hj
                refine ⟨hllt, hleq, hleq, hreq, rfl, ?d1, fun sc _ _ => rfl, ?fcr1⟩
                · rw [depthA_fo s.arena l scl hnl, depthA_fo s.arena r scr hnr]
                · intro sc hn hfc
                  have hsc : sc = scr := by
                    cases Option.some.inj hn
                    rfl
                  rw [hsc] at hfc
                  rw [fc_not_fu scr hfc] at hscr
                  simp at hscr
              · rw [if_neg hscr] at h
                by_cases hscl : scl.isFullyUnconstrained = true
                · rw [if_pos hscl] at h
                  cases h
                  refine ⟨common_refl s hInv, fun x hx => Or.inl hx, fun j hj => ?c2⟩
                  cases hj
                  refine ⟨hrlt, hreq, hleq, hreq, ?d2, ?d3, ?fcl2, fun sc _ _ => rfl⟩
                  · rw [depthA_fo s.arena l scl hnl, depthA_fo s.arena r scr hnr]
                  · rw [depthA_fo s.arena l scl hnl, depthA_fo s.arena r scr hnr]
                  · intro sc hn hfc
                    have hsc : sc = scl := by
                      cases Option.some.inj hn
                      rfl
                    rw [hsc] at hfc
                    rw [fc_not_fu scl hfc] at hscl
                    simp at hscl
                · rw [if_neg hscl] at h
                  cases hj : SEScope.join scl scr with
                  | none =>
                    rw [hj] at h
                    simp only at h
                    cases h
                    exact ⟨common_refl s hInv, fun x hx => Or.inl hx, fun j hjj => by cases hjj⟩
                  | some jsc =>
                    rw [hj] at h
                    simp only [canonicalSEScope_eq] at h
                    obtain ⟨hInv2, hequiv2, ⟨ext2, hext2⟩, himono2, hnode2, hefree2⟩ :=
                      makeFirstOrderDomain_spec s jsc hInv
                    cases h
                    refine ⟨⟨hInv2, ⟨ext2, hext2⟩, himono2, ?k2, ?rp2⟩, ?nk2, fun j hjj => ?c3⟩
                    · intro x hx
                      rw [hequiv2]
                      exact hx
                    · intro x rt hx _
                      rw [rootOf_congr _ s hequiv2 x]
                      exact hx
                    · intro x hx
                      rw [hequiv2] at hx
                      exact Or.inl hx
                    · cases hjj
                      refine ⟨get?_some_lt hnode2, hefree2, ?e1, ?e2, ?d4, ?d5, ?fcl3, ?fcr3⟩
                      · rw [hequiv2]
                        exact hleq
                      · rw [hequiv2]
                        exact hreq
                      · rw [depthA_fo _ _ jsc hnode2,
                          depthA_fo _ l scl (nodeAt_ext s _ ext2 hext2 l _ hnl)]
                      · rw [depthA_fo _ l scl (nodeAt_ext s _ ext2 hext2 l _ hnl),
                          depthA_fo _ r scr (nodeAt_ext s _ ext2 hext2 r _ hnr)]
                      · intro sc hn hfc
                        have hsc : sc = scl := by
                          cases Option.some.inj hn
                          rfl
                        rw [hsc] at hfc
                        have hjeq : jsc = scl := join_fc_left scl scr jsc hfc hj
                        have hci : findIntern s.intern scl = some l :=
                          hInv.internComplete l hllt scl hnl hfc
                        have hmk : makeFirstOrderDomain s jsc = (s, l) := by
                          rw [hjeq]
                          exact makeFirstOrderDomain_interned s scl l hfc hci
                        rw [hmk]
                      · intro sc hn hfc
                        have hsc : sc = scr := by
                          cases Option.some.inj hn
                          rfl
                        rw [hsc] at hfc
                        have hjeq : jsc = scr := join_fc_right scl scr jsc hfc hj
                        have hci : findIntern s.intern scr = some r :=
                          hInv.internComplete r hrlt scr hnr hfc
                        have hmk : makeFirstOrderDomain s jsc = (s, r) := by
                          rw [hjeq]
                          exact makeFirstOrderDomain_interned s scr r hfc hci
                        rw [hmk]
          | ho psl =>
            cases nr with
            | fo scr => simp only at h; cases h
            | ho psr =>
              simp only at h
              have hpsl : ∀ p ∈ psl, p < s.arena.length := fun p hp =>
                lt_trans (hInv.partsBelow l psl hnl p hp) hllt
              have hpsr : ∀ p ∈ psr, p < s.arena.length := fun p hp =>
                lt_trans (hInv.partsBelow r psr hnr p hp) hrlt
              cases hjp : joinParts f s psl psr with
              | abort => rw [hjp] at h; cases h
              | nofuel => rw [hjp] at h; cases h
              | ok pr2 =>
                obtain ⟨s2, ores2⟩ := pr2
                rw [hjp] at h
                obtain ⟨hcomJP, hnkJP, hsomeJP⟩ := hJP s psl psr s2 ores2 hInv hpsl hpsr hjp
                obtain ⟨ext2, hext2⟩ := hcomJP.2.1
                have hdl2 : depthA s2.arena l = depthA s.arena l :=
                  depthA_ext s s2 ext2 hext2 hInv.partsBelow l hllt
                have hdr2 : depthA s2.arena r = depthA s.arena r :=
                  depthA_ext s s2 ext2 hext2 hInv.partsBelow r hrlt
                have hnkS : ∀ x, (findEquiv s2.equiv x).isSome = true →
                    (findEquiv s.equiv x).isSome = true ∨
                    depthA s2.arena x < min (depthA s2.arena l) (depthA s2.arena r) := by
                  intro x hx
                  rcases hnkJP x hx with h1 | ⟨p, hp, hdp⟩
                  · exact Or.inl h1
                  · right
                    have hp1 : p.1 ∈ psl := (List.of_mem_zip hp).1
                    have hp2 : p.2 ∈ psr := (List.of_mem_zip hp).2
                    have hd1 : depthA s2.arena p.1 = depthA s.arena p.1 :=
                      depthA_ext s s2 ext2 hext2 hInv.partsBelow p.1 (hpsl p.1 hp1)
                    have hd2 : depthA s2.arena p.2 = depthA s.arena p.2 :=
                      depthA_ext s s2 ext2 hext2 hInv.partsBelow p.2 (hpsr p.2 hp2)
                    have hlt1 : depthA s.arena p.1 < depthA s.arena l :=
                      depthA_part_lt s.arena hInv.partsBelow l p.1 psl hnl hp1
                    have hlt2 : depthA s.arena p.2 < depthA s.arena r :=
                      depthA_part_lt s.arena hInv.partsBelow r p.2 psr hnr hp2
                    rw [hdl2, hdr2]
                    rw [hd1, hd2] at hdp
                    omega
                have hfl2 : findEquiv s2.equiv l = none := by
                  cases hf : findEquiv s2.equiv l with
                  | none => rfl
                  | some v =>
                    rcases hnkS l (by rw [hf]; rfl) with h1 | h2
                    · rw [hleq] at h1
                      cases h1
                    · omega
                have hfr2 : findEquiv s2.equiv r = none := by
                  cases hf : findEquiv s2.equiv r with
                  | none => rfl
                  | some v =>
                    rcases hnkS r (by rw [hf]; rfl) with h1 | h2
                    · rw [hreq] at h1
                      cases h1
                    · omega
                cases ores2 with
                | none =>
                  simp only at h
                  cases h
                  exact ⟨hcomJP, hnkS, fun j hjj => by cases hjj⟩
                | some js =>
                  simp only at h
                  obtain ⟨hf1, hf2⟩ := hsomeJP js rfl
                  have hjslt : ∀ j0 ∈ js, j0 < s2.arena.length := by
                    intro j0 hj0
                    obtain ⟨a, _, _, hlt⟩ := forall₂_mem_left hf1 hj0
                    exact hlt
                  obtain ⟨hInv3, hequiv3, hintern3, harena3, hidx3, hnode3, hefree3⟩ :=
                    makeHigherOrderDomain_spec s2 js hcomJP.1 hjslt
                  have hcom23 : Common s2 (makeHigherOrderDomain s2 js).1 := by
                    refine ⟨hInv3, ⟨[DomainNode.ho js], harena3⟩, ?i23, ?k23, ?r23⟩
                    · intro q hq
                      rw [hintern3]
                      exact hq
                    · intro x hx
                      rw [hequiv3]
                      exact hx
                    · intro x rt hx _
                      rw [rootOf_congr _ s2 hequiv3 x]
                      exact hx
                  have hxlen : s2.arena.length < (makeHigherOrderDomain s2 js).1.arena.length := by
                    rw [harena3, List.length_append]
                    simp
                  have hd3 : ∀ y, y < s2.arena.length →
                      depthA (makeHigherOrderDomain s2 js).1.arena y = depthA s2.arena y := by
                    intro y hy
                    exact depthA_ext s2 _ [DomainNode.ho js] harena3 hcomJP.1.partsBelow y hy
                  have hle12 := arena_le_of_ext s s2 ext2 hext2
                  have hmapeq : js.map (depthA (makeHigherOrderDomain s2 js).1.arena) =
                      psl.map (depthA (makeHigherOrderDomain s2 js).1.arena) := by
                    apply forall₂_map_eq
                    apply forall₂_imp_mem hf1
                    intro j0 a hj0 ha hR
                    obtain ⟨hda, hlt⟩ := hR
                    have hja : a < s.arena.length := hpsl a ha
                    rw [hd3 j0 hlt, hd3 a (by omega)]
                    exact hda
                  have hmapeq2 : js.map (depthA (makeHigherOrderDomain s2 js).1.arena) =
                      psr.map (depthA (makeHigherOrderDomain s2 js).1.arena) := by
                    apply forall₂_map_eq
                    apply forall₂_imp_mem hf2
                    intro j0 b hj0 hb hR
                    have hjb : b < s.arena.length := hpsr b hb
                    rw [hd3 j0 (hjslt j0 hj0), hd3 b (by omega)]
                    exact hR
                  have hnodeL3 : (makeHigherOrderDomain s2 js).1.arena.get? l =
                      some (DomainNode.ho psl) := by
                    rw [harena3]
                    rw [List.get?_append (by omega)]
                    exact nodeAt_ext s s2 ext2 hext2 l _ hnl
                  have hnodeR3 : (makeHigherOrderDomain s2 js).1.arena.get? r =
                      some (DomainNode.ho psr) := by
                    rw [harena3]
                    rw [List.get?_append (by omega)]
                    exact nodeAt_ext s s2 ext2 hext2 r _ hnr
                  have hdepthjl : depthA (makeHigherOrderDomain s2 js).1.arena
                        (makeHigherOrderDomain s2 js).2 =
                      depthA (makeHigherOrderDomain s2 js).1.arena l := by
                    rw [depthA_ho _ hInv3.partsBelow _ js hnode3,
                      depthA_ho _ hInv3.partsBelow l psl hnodeL3, hmapeq]
                  have hdepthlr : depthA (makeHigherOrderDomain s2 js).1.arena l =
                      depthA (makeHigherOrderDomain s2 js).1.arena r := by
                    rw [depthA_ho _ hInv3.partsBelow l psl hnodeL3,
                      depthA_ho _ hInv3.partsBelow r psr hnodeR3, ← hmapeq, ← hmapeq2]
                  have hcomT := common_trans _ _ _ hcomJP hcom23
                  cases h
                  refine ⟨hcomT, ?nk3, fun j hjj => ?c4⟩
                  · intro x hx
                    rw [hequiv3] at hx
                    rcases hnkS x hx with h1 | h2
                    · exact Or.inl h1
                    · right
                      have hxlt : x < s2.arena.length := key_lt s2 hcomJP.1 x hx
                      rw [hd3 x hxlt, hd3 l (by omega), hd3 r (by omega)]
                      rw [hdl2, hdr2] at h2 ⊢
                      exact h2
                  · cases hjj
                    refine ⟨get?_some_lt hnode3, hefree3, ?e3, ?e4, hdepthjl, hdepthlr,
                      ?fcl4, ?fcr4⟩
                    · rw [hequiv3]
                      exact hfl2
                    · rw [hequiv3]
                      exact hfr2
                    · intro sc hn hfc
                      cases Option.some.inj hn
                    · intro sc hn hfc
                      cases Option.some.inj hn
        · rw [if_pos hsz] at h
          cases h

/-- Uniform description of one conditional `emplace` of `UnifyOrNull`: link
root `k` to the joined root `j` unless they coincide. -/
theorem linkRoot_spec (s3 : DD) (k j : Nat) (hInv3 : Inv s3)
    (hkfree : findEquiv s3.equiv k = none) (hjfree : findEquiv s3.equiv j = none)
    (hkb : k < s3.arena.length) (hjb : j < s3.arena.length)
    (hdepth : depthA s3.arena k = depthA s3.arena j)
    (hnotintern : ∀ sc, s3.arena.get? k = some (DomainNode.fo sc) →
        sc.isFullyConstrained = true → j = k)
    (s4 : DD)
    (hs4 : s4 = if k = j then s3 else { s3 with equiv := emplaceEquiv s3.equiv k j }) :
    Inv s4 ∧ s4.arena = s3.arena ∧ s4.intern = s3.intern ∧
    (∀ x, (findEquiv s3.equiv x).isSome = true → (findEquiv s4.equiv x).isSome = true) ∧
    (∀ x rt, rootOf s3 x = Res.ok rt → ¬rt = k → rootOf s4 x = Res.ok rt) ∧
    (∀ x, rootOf s3 x = Res.ok k → rootOf s4 x = Res.ok j) ∧
    (∀ x, findEquiv s3.equiv x = none → ¬x = k → findEquiv s4.equiv x = none) ∧
    findEquiv s4.equiv j = none ∧
    (∀ x, (findEquiv s4.equiv x).isSome = true →
      (findEquiv s3.equiv x).isSome = true ∨ x = k) ∧
    (∀ x rt, rootOf s3 x = Res.ok rt → findEquiv s4.equiv rt = none →
      rootOf s4 x = Res.ok rt) := by
  by_cases hkj : k = j
  · rw [if_pos hkj] at hs4
    cases hs4
    exact ⟨hInv3, rfl, rfl, fun x hx => hx, fun x rt hx _ => hx,
      fun x hx => hkj ▸ hx, fun x hx _ => hx, hjfree, fun x hx => Or.inl hx,
      fun x rt hx _ => hx⟩
  · rw [if_neg hkj] at hs4
    have hem : emplaceEquiv s3.equiv k j = s3.equiv ++ [(k, j)] :=
      emplaceEquiv_of_none s3.equiv k j hkfree
    have hnot2 : ∀ sc, s3.arena.get? k = some (DomainNode.fo sc) →
        sc.isFullyConstrained = true → False := by
      intro sc hn hfc
      exact hkj (hnotintern sc hn hfc).symm
    obtain ⟨hInv4, hpresne, hpresk⟩ :=
      inv_addEntry s3 k j hInv3 hkfree hjfree hkj hkb hjb hdepth hnot2
    have hs4' : s4 = { s3 with equiv := s3.equiv ++ [(k, j)] } := by rw [hs4, hem]
    cases hs4'
    have hkentry : findEquiv (s3.equiv ++ [(k, j)]) k = some j := by
      rw [findEquiv_append_of_none _ _ _ hkfree, findEquiv_single, if_pos rfl]
    refine ⟨hInv4, rfl, rfl, ?km, hpresne, hpresk, ?keep, ?jf, ?rev, ?cpres⟩
    · intro x hx
      obtain ⟨t, ht⟩ := Option.isSome_iff_exists.mp hx
      have : findEquiv (s3.equiv ++ [(k, j)]) x = some t := findEquiv_append_of_some _ _ _ _ ht
      rw [this]
      rfl
    · intro x hx hxk
      rw [findEquiv_append_of_none _ _ _ hx, findEquiv_single,
        if_neg (fun hh => hxk hh.symm)]
    · rw [findEquiv_append_of_none _ _ _ hjfree, findEquiv_single,
        if_neg (fun hh => hkj hh)]
    · intro x hx
      cases hf : findEquiv s3.equiv x with
      | some v =>
        refine Or.inl ?hh
        rfl
      | none =>
        right
        rw [findEquiv_append_of_none _ _ _ hf, findEquiv_single] at hx
        by_cases hkx : k = x
        · exact hkx.symm
        · rw [if_neg hkx] at hx
          cases hx
    · intro x rt hx hrt
      refine hpresne x rt hx ?ne
      intro hh
      rw [hh] at hrt
      rw [hkentry] at hrt
      cases hrt

/-- `unifyGo` master lemma at successor fuel, from the `joinGo` master lemma
at the predecessor fuel: look up both roots, join, and link each original
root to the joined domain. -/
theorem U_of_J (f : Nat) (hJ : JStmt f) : UStmt (f + 1) := by
  intro s l r s' res hInv hllt hrlt h
  rw [unifyGo] at h
  obtain ⟨lr0, hlr0⟩ := inv_rootOf_ok s hInv l
  obtain ⟨s1, hlk1, ha1, hi1, hlen1, hk1, hrp1, hfree1⟩ := lookupD_spec s l lr0 hlr0
  have hInv1 : Inv s1 := lookupD_inv s hInv l lr0 s1 hlk1
  rw [hlk1] at h
  simp only at h
  obtain ⟨rr0, hrr0⟩ := inv_rootOf_ok s1 hInv1 r
  obtain ⟨s2, hlk2, ha2, hi2, hlen2, hk2, hrp2, hfree2⟩ := lookupD_spec s1 r rr0 hrr0
  have hInv2 : Inv s2 := lookupD_inv s1 hInv1 r rr0 s2 hlk2
  rw [hlk2] at h
  simp only at h
  have hlr0lt : lr0 < s.arena.length := rootOf_lt s hInv l lr0 hllt hlr0
  have hrr0lt1 : rr0 < s1.arena.length :=
    rootOf_lt s1 hInv1 r rr0 (by rw [ha1]; exact hrlt) hrr0
  have haren2 : s2.arena = s.arena := by rw [ha2, ha1]
  have hlr0lt2 : lr0 < s2.arena.length := by rw [haren2]; exact hlr0lt
  have hrr0lt2 : rr0 < s2.arena.length := by rw [ha2]; exact hrr0lt1
  have hfree1s2 : findEquiv s2.equiv lr0 = none := by
    have hiso := hk2 lr0
    rw [hfree1] at hiso
    cases hf : findEquiv s2.equiv lr0 with
    | none => rfl
    | some v => rw [hf] at hiso; cases hiso
  have hrootl2 : rootOf s2 l = Res.ok lr0 := hrp2 l lr0 (hrp1 l lr0 hlr0)
  have hrootr2 : rootOf s2 r = Res.ok rr0 := hrp2 r rr0 hrr0
  have hdl : depthA s.arena lr0 = depthA s.arena l := (rootOf_depth s hInv l lr0 hlr0).symm
  have hdr : depthA s.arena rr0 = depthA s.arena r := by
    rw [← ha1]
    exact (rootOf_depth s1 hInv1 r rr0 hrr0).symm
  have hcom01 : Common s s1 := ⟨hInv1, ⟨[], by rw [ha1, List.append_nil]⟩,
    fun q hq => by rw [hi1]; exact hq, fun x hx => by rw [hk1 x]; exact hx,
    fun x rt hx _ => hrp1 x rt hx⟩
  have hcom12 : Common s1 s2 := ⟨hInv2, ⟨[], by rw [ha2, List.append_nil]⟩,
    fun q hq => by rw [hi2]; exact hq, fun x hx => by rw [hk2 x]; exact hx,
    fun x rt hx _ => hrp2 x rt hx⟩
  have hcom02 : Common s s2 := common_trans _ _ _ hcom01 hcom12
  cases hjg : joinGo f s2 lr0 rr0 with
  | abort => rw [hjg] at h; cases h
  | nofuel => rw [hjg] at h; cases h
  | ok pr =>
    obtain ⟨s3, jres⟩ := pr
    rw [hjg] at h
    obtain ⟨hcomJ, hnkJ, hsomeJ⟩ :=
      hJ s2 lr0 rr0 s3 jres hInv2 hfree1s2 hfree2 hlr0lt2 hrr0lt2 hjg
    obtain ⟨ext3, hext3⟩ := hcomJ.2.1
    have hslen3 : s2.arena.length ≤ s3.arena.length := arena_le_of_ext s2 s3 ext3 hext3
    have hd3 : ∀ y, y < s2.arena.length → depthA s3.arena y = depthA s2.arena y := by
      intro y hy
      exact depthA_ext s2 s3 ext3 hext3 hInv2.partsBelow y hy
    have hd2s : ∀ y, depthA s2.arena y = depthA s.arena y := by
      intro y
      rw [haren2]
    have hdl3 : depthA s3.arena lr0 = depthA s3.arena l := by
      rw [hd3 lr0 hlr0lt2, hd3 l (by rw [haren2]; exact hllt), hd2s, hd2s, hdl]
    have hdr3 : depthA s3.arena rr0 = depthA s3.arena r := by
      rw [hd3 rr0 hrr0lt2, hd3 r (by rw [haren2]; exact hrlt), hd2s, hd2s, hdr]
    cases jres with
    | none =>
      simp only at h
      cases h
      refine ⟨common_trans _ _ _ hcom02 hcomJ, ?nk, fun j hj => by cases hj⟩
      intro x hx
      rcases hnkJ x hx with h1 | h2
      · left
        rw [hk2 x, hk1 x] at h1
        exact h1
      · right
        rw [hdl3, hdr3] at h2
        omega
    | some j =>
      simp only at h
      obtain ⟨hjlt3, hjfree3, hl3free, hr3free, hdj3, hdlr3, hfcL, hfcR⟩ := hsomeJ j rfl
      have hlr0lt3 : lr0 < s3.arena.length := by omega
      have hrr0lt3 : rr0 < s3.arena.length := by omega
      have hni4 : ∀ sc, s3.arena.get? lr0 = some (DomainNode.fo sc) →
          sc.isFullyConstrained = true → j = lr0 := by
        intro sc hn hfc
        rw [hext3, List.get?_append hlr0lt2] at hn
        exact hfcL sc hn hfc
      obtain ⟨hInv4, harena4, hintern4, hkm4, hpne4, hpk4, hkeep4, hjf4, hrev4, hcpres4⟩ :=
        linkRoot_spec s3 lr0 j hcomJ.1 hl3free hjfree3 hlr0lt3 hjlt3 (by rw [hdj3]) hni4
          (if lr0 = j then s3 else { s3 with equiv := emplaceEquiv s3.equiv lr0 j }) rfl
      have hfreeS4rr0 : findEquiv (if lr0 = j then s3
          else { s3 with equiv := emplaceEquiv s3.equiv lr0 j }).equiv rr0 = none := by
        by_cases hrl : rr0 = lr0
        · have hself : joinGo f s2 lr0 rr0 = Res.ok (s2, some lr0) := by
            rw [hrl, joinGo, if_pos rfl]
          rw [hjg] at hself
          have hj0 : some j = some lr0 := congrArg (fun p => p.2) (Res.ok.inj hself)
          have hjl : lr0 = j := (Option.some.inj hj0).symm
          rw [if_pos hjl]
          exact hr3free
        · exact hkeep4 rr0 hr3free hrl
      have hni5 : ∀ sc, (if lr0 = j then s3
          else { s3 with equiv := emplaceEquiv s3.equiv lr0 j }).arena.get? rr0 =
          some (DomainNode.fo sc) → sc.isFullyConstrained = true → j = rr0 := by
        intro sc hn hfc
        rw [harena4, hext3, List.get?_append hrr0lt2] at hn
        exact hfcR sc hn hfc
      obtain ⟨hInv5, harena5, hintern5, hkm5, hpne5, hpk5, hkeep5, hjf5, hrev5, hcpres5⟩ :=
        linkRoot_spec _ rr0 j hInv4 hfreeS4rr0 hjf4 (by rw [harena4]; omega)
          (by rw [harena4]; omega)
          (by rw [harena4]; rw [hdj3, hdlr3]) hni5
          (if rr0 = j then (if lr0 = j then s3
              else { s3 with equiv := emplaceEquiv s3.equiv lr0 j })
            else { (if lr0 = j then s3
              else { s3 with equiv := emplaceEquiv s3.equiv lr0 j }) with
                equiv := emplaceEquiv (if lr0 = j then s3
              else { s3 with equiv := emplaceEquiv s3.equiv lr0 j }).equiv rr0 j }) rfl
      cases h
      have hcom34 : Common s3 (if lr0 = j then s3
          else { s3 with equiv := emplaceEquiv s3.equiv lr0 j }) :=
        ⟨hInv4, ⟨[], by rw [harena4, List.append_nil]⟩,
          fun q hq => by rw [hintern4]; exact hq, hkm4, hcpres4⟩
      have hcom45 : Common (if lr0 = j then s3
          else { s3 with equiv := emplaceEquiv s3.equiv lr0 j }) _ :=
        ⟨hInv5, ⟨[], by rw [harena5, List.append_nil]⟩,
          fun q hq => by rw [hintern5]; exact hq, hkm5, hcpres5⟩
      refine ⟨common_trans _ _ _ hcom02 (common_trans _ _ _ hcomJ
        (common_trans _ _ _ hcom34 hcom45)), ?nk2, fun j0 hj0 => ?c5⟩
      · intro x hx
        have harenaF : (if rr0 = j then (if lr0 = j then s3
            else { s3 with equiv := emplaceEquiv s3.equiv lr0 j })
          else { (if lr0 = j then s3
            else { s3 with equiv := emplaceEquiv s3.equiv lr0 j }) with
              equiv := emplaceEquiv (if lr0 = j then s3
            else { s3 with equiv := emplaceEquiv s3.equiv lr0 j }).equiv rr0 j }).arena
            = s3.arena := by rw [harena5, harena4]
        rcases hrev5 x hx with h1 | h2
        · rcases hrev4 x h1 with h3 | h4
          · rcases hnkJ x h3 with h5 | h6
            · left
              rw [hk2 x, hk1 x] at h5
              exact h5
            · right
              rw [harenaF]
              omega
          · right
            rw [harenaF, h4]
            omega
        · right
          rw [harenaF, h2]
          omega
      · cases hj0
        have hrootl3 : rootOf s3 l = Res.ok lr0 := hcomJ.2.2.2.2 l lr0 hrootl2 hl3free
        have hrootr3 : rootOf s3 r = Res.ok rr0 := hcomJ.2.2.2.2 r rr0 hrootr2 hr3free
        have hrootl4 := hpk4 l hrootl3
        have hrootr4 := hcpres4 r rr0 hrootr3 hfreeS4rr0
        have hrootl5 := hcpres5 l j hrootl4 hjf5
        have hrootr5 := hpk5 r hrootr4
        refine ⟨by rw [harena5, harena4]; omega, hjf5, hrootl5, hrootr5, ?dj, ?dlr⟩
        · rw [harena5, harena4]
          omega
        · rw [harena5, harena4]
          omega

theorem UStmt_zero : UStmt 0 := by
  intro s l r s' res _ _ _ h
  rw [unifyGo] at h
  cases h

/-- The `unifyGo` master lemma, at every fuel. -/
theorem unify_master : ∀ f, UStmt f := by
  intro f
  induction f with
  | zero => exact UStmt_zero
  | succ n ih => exact U_of_J n (J_of_JP n (JP_of_U n ih))

/-- The `joinGo` master lemma, at every fuel. -/
theorem join_master : ∀ f, JStmt f := fun f => J_of_JP f (JP_of_U f (unify_master f))

mutual
/-- `MakeDomain` preserves the invariant; it never touches the equivalence
table, only appends to the arena and intern table, and returns a live,
entry-free domain. -/
theorem makeDomain_spec (t : Ty) (s : DD) (sc : SEScope) (hInv : Inv s) :
    Inv (makeDomain s t sc).1 ∧
    (∃ ext, (makeDomain s t sc).1.arena = s.arena ++ ext) ∧
    (makeDomain s t sc).1.equiv = s.equiv ∧
    (∀ q ∈ s.intern, q ∈ (makeDomain s t sc).1.intern) ∧
    (makeDomain s t sc).2 < (makeDomain s t sc).1.arena.length ∧
    findEquiv (makeDomain s t sc).1.equiv (makeDomain s t sc).2 = none := by
  cases t with
  | prim =>
    have hspec := makeFirstOrderDomain_spec s sc hInv
    rw [makeDomain]
    exact ⟨hspec.1, hspec.2.2.1, hspec.2.1, hspec.2.2.2.1,
      get?_some_lt hspec.2.2.2.2.1, hspec.2.2.2.2.2⟩
  | func args ret =>
    have hps := makeDomainParams_spec args s hInv
    obtain ⟨hInvP, ⟨extP, hextP⟩, hequivP, hinternP, hltP, hfreeP, hlenP⟩ := hps
    have hr := makeDomain_spec ret (makeDomainParams s args).1 sc hInvP
    obtain ⟨hInvR, ⟨extR, hextR⟩, hequivR, hinternR, hltR, hfreeR⟩ := hr
    have hparts : ∀ p ∈ (makeDomainParams s args).2 ++
        [(makeDomain (makeDomainParams s args).1 ret sc).2],
        p < (makeDomain (makeDomainParams s args).1 ret sc).1.arena.length := by
      intro p hp
      rcases List.mem_append.mp hp with h1 | h2
      · have h3 := hltP p h1
        have := arena_le_of_ext _ _ extR hextR
        omega
      · rw [List.mem_singleton.mp h2]
        exact hltR
    have hho := makeHigherOrderDomain_spec (makeDomain (makeDomainParams s args).1 ret sc).1
      ((makeDomainParams s args).2 ++ [(makeDomain (makeDomainParams s args).1 ret sc).2])
      hInvR hparts
    obtain ⟨hInvH, hequivH, hinternH, harenaH, hidxH, hnodeH, hfreeH⟩ := hho
    rw [makeDomain]
    refine ⟨hInvH, ?ext, ?eq, ?imono, get?_some_lt hnodeH, hfreeH⟩
    · refine ⟨extP ++ extR ++ [DomainNode.ho ((makeDomainParams s args).2 ++
        [(makeDomain (makeDomainParams s args).1 ret sc).2])], ?ee⟩
      rw [harenaH, hextR, hextP]
      simp [List.append_assoc]
    · rw [hequivH, hequivR, hequivP]
    · intro q hq
      rw [hinternH]
      exact hinternR q (hinternP q hq)

/-- Parameter loop of `MakeDomain`: same state discipline, with one fresh
fully-unconstrained domain per argument type. -/
theorem makeDomainParams_spec (ts : List Ty) (s : DD) (hInv : Inv s) :
    Inv (makeDomainParams s ts).1 ∧
    (∃ ext, (makeDomainParams s ts).1.arena = s.arena ++ ext) ∧
    (makeDomainParams s ts).1.equiv = s.equiv ∧
    (∀ q ∈ s.intern, q ∈ (makeDomainParams s ts).1.intern) ∧
    (∀ d ∈ (makeDomainParams s ts).2, d < (makeDomainParams s ts).1.arena.length) ∧
    (∀ d ∈ (makeDomainParams s ts).2, findEquiv (makeDomainParams s ts).1.equiv d = none) ∧
    (makeDomainParams s ts).2.length = ts.length := by
  cases ts with
  | nil =>
    rw [makeDomainParams]
    exact ⟨hInv, ⟨[], (List.append_nil _).symm⟩, rfl, fun q hq => hq,
      fun d hd => absurd hd (List.not_mem_nil d),
      fun d hd => absurd hd (List.not_mem_nil d), rfl⟩
  | cons t ts' =>
    have h1 := makeDomain_spec t s SEScope.fullyUnconstrained hInv
    obtain ⟨hInv1, ⟨ext1, hext1⟩, hequiv1, hintern1, hlt1, hfree1⟩ := h1
    have h2 := makeDomainParams_spec ts' (makeDomain s t SEScope.fullyUnconstrained).1 hInv1
    obtain ⟨hInv2, ⟨ext2, hext2⟩, hequiv2, hintern2, hlt2, hfree2, hlen2⟩ := h2
    rw [makeDomainParams]
    dsimp only
    refine ⟨hInv2, ⟨ext1 ++ ext2, ?ee2⟩, ?eq2, ?imono2, ?lt2, ?free2, ?len2⟩
    · rw [hext2, hext1, List.append_assoc]
    · rw [hequiv2, hequiv1]
    · intro q hq
      exact hintern2 q (hintern1 q hq)
    · intro d hd
      rcases List.mem_cons.mp hd with hh | hh
      · rw [hh]
        have := arena_le_of_ext _ _ ext2 hext2
        omega
      · exact hlt2 d hh
    · intro d hd
      rcases List.mem_cons.mp hd with hh | hh
      · rw [hh, hequiv2]
        exact hfree1
      · exact hfree2 d hh
    · simp [hlen2]
end


/-! ### Lookup idempotence -/

theorem setEquiv_self_of_find (e : List (Nat × Nat)) (i t : Nat)
    (h : findEquiv e i = some t) : setEquiv e i t = e := by
  induction e with
  | nil => rfl
  | cons p rest ih =>
    obtain ⟨k, v⟩ := p
    by_cases hk : k = i
    · subst hk
      rw [findEquiv, if_pos rfl] at h
      have hv := Option.some.inj h
      simp [setEquiv, hv]
    · rw [findEquiv, if_neg hk] at h
      simp [setEquiv, hk, ih h]

theorem compress_self (e : List (Nat × Nat)) (f root : Nat) :
    compress e f root root = e := by
  cases f with
  | zero => rfl
  | succ n => rw [compress, if_pos rfl]

/-- Compression never disturbs an entry that already points at the root being
compressed towards. -/
theorem compress_rootentry :
    ∀ (f : Nat) (e : List (Nat × Nat)) (i root x : Nat),
      findEquiv e x = some root →
      findEquiv (compress e f i root) x = some root := by
  intro f
  induction f with
  | zero => intro e i root x hx; exact hx
  | succ n ih =>
    intro e i root x hx
    rw [compress]
    by_cases hir : i = root
    · rw [if_pos hir]; exact hx
    · rw [if_neg hir]
      cases hfi : findEquiv e i with
      | none => exact hx
      | some t =>
        apply ih
        by_cases hxi : x = i
        · subst hxi
          rw [findEquiv_setEquiv_self, hfi]
          rfl
        · rw [findEquiv_setEquiv_ne e i root x hxi]
          exact hx

/-- After compressing the chain from `i` to `root`, the entry at `i` points
directly at `root`. -/
theorem compress_chain_entry (f : Nat) (e : List (Nat × Nat)) (i root t : Nat)
    (hir : i ≠ root) (hfi : findEquiv e i = some t) :
    findEquiv (compress e (f + 1) i root) i = some root := by
  rw [compress, if_neg hir, hfi]
  apply compress_rootentry
  rw [findEquiv_setEquiv_self, hfi]
  rfl

/-- Looking up an entry-free root is the identity. -/
theorem lookupD_root (s : DD) (r : Nat) (h : findEquiv s.equiv r = none) :
    lookupD s r = Res.ok (s, r) := by
  have hch : chase s.equiv (s.equiv.length + 1) r = Res.ok r :=
    chase_no_entry s.equiv s.equiv.length r h
  simp only [lookupD, hch, compress_self]

/-! ### Reachable solver states -/

/-- Solver states reachable from the empty state through the public
operations: domain construction, lookups, and unifications. -/
inductive Reachable : DD → Prop where
  | empty : Reachable ⟨[], [], []⟩
  | mkFirstOrder (s : DD) (sc : SEScope) :
      Reachable s → Reachable (makeFirstOrderDomain s sc).1
  | mkDomain (s : DD) (t : Ty) (sc : SEScope) :
      Reachable s → Reachable (makeDomain s t sc).1
  | mkHigherOrder (s : DD) (ps : List Nat) :
      Reachable s → (∀ p ∈ ps, p < s.arena.length) →
      Reachable (makeHigherOrderDomain s ps).1
  | lookup (s s' : DD) (i root : Nat) :
      Reachable s → lookupD s i = Res.ok (s', root) → Reachable s'
  | unify (f : Nat) (s s' : DD) (l r : Nat) (res : Option Nat) :
      Reachable s → l < s.arena.length → r < s.arena.length →
      unifyGo f s l r = Res.ok (s', res) → Reachable s'

theorem inv_empty : Inv ⟨[], [], []⟩ := by
  refine ⟨?g1, ?g2, ?g3, ?g4, ?g5, ?g6, ?g7, ?g8⟩
  · intro p hp
    exact absurd hp (List.not_mem_nil p)
  · intro p hp
    exact absurd hp (List.not_mem_nil p)
  · intro q hq
    exact absurd hq (List.not_mem_nil q)
  · intro q hq
    exact absurd hq (List.not_mem_nil q)
  · intro i hi
    simp at hi
  · intro q hq
    exact absurd hq (List.not_mem_nil q)
  · intro i ps hps
    simp at hps
  · intro p hp
    exact absurd hp (List.not_mem_nil p)

/-- Every reachable solver state satisfies the union-find invariant. -/
theorem reachable_inv (s : DD) (h : Reachable s) : Inv s := by
  induction h with
  | empty => exact inv_empty
  | mkFirstOrder s sc _ ih => exact (makeFirstOrderDomain_spec s sc ih).1
  | mkDomain s t sc _ ih => exact (makeDomain_spec t s sc ih).1
  | mkHigherOrder s ps _ hb ih => exact (makeHigherOrderDomain_spec s ps ih hb).1
  | lookup s s' i root _ hlk ih => exact lookupD_inv s ih i root s' hlk
  | unify f s s' l r res _ hl hr hu ih =>
    exact ((unify_master f) s l r s' res ih hl hr hu).1.1


/-! ### Claim C6 -/

/-- C6: `Lookup` is idempotent.  If looking up domain `d` returned root `r`
and state `s'`, then in `s'` both looking up `r` (the previous result) and
looking up `d` again return the same root `r` and leave the state unchanged;
in particular this holds when `d` was already an entry-free root. -/
theorem lookup_idempotent (s : DD) (d : Nat) (s' : DD) (r : Nat)
    (h : lookupD s d = Res.ok (s', r)) :
    lookupD s' r = Res.ok (s', r) ∧ lookupD s' d = Res.ok (s', r) := by
  rw [lookupD] at h
  cases hch : chase s.equiv (s.equiv.length + 1) d with
  | abort => rw [hch] at h; cases h
  | nofuel => rw [hch] at h; cases h
  | ok root =>
    rw [hch] at h
    have hpair := Res.ok.inj h
    have hs' : s' = { s with equiv := compress s.equiv (s.equiv.length + 1) d root } :=
      (congrArg Prod.fst hpair).symm
    have hrr : r = root := (congrArg Prod.snd hpair).symm
    subst hrr
    obtain ⟨s2, hlk2, harena, hintern, hlen, hkeys, hpres, hfree⟩ := lookupD_spec s d r hch
    have hs2 : s2 = s' := by
      rw [lookupD, hch] at hlk2
      have hp2 := Res.ok.inj hlk2
      rw [hs']
      exact (congrArg Prod.fst hp2).symm
    rw [hs2] at hfree hpres
    refine ⟨lookupD_root s' r hfree, ?second⟩
    by_cases hdr : d = r
    · subst hdr
      exact lookupD_root s' d hfree
    · have hrd : rootOf s' d = Res.ok r := hpres d r hch
      have hst : ∃ t, findEquiv s.equiv d = some t := by
        cases hfd : findEquiv s.equiv d with
        | some t => exact ⟨t, rfl⟩
        | none =>
          have hok : chase s.equiv (s.equiv.length + 1) d = Res.ok d :=
            chase_no_entry s.equiv s.equiv.length d hfd
          rw [hch] at hok
          exact absurd (Res.ok.inj hok).symm hdr
      obtain ⟨t, hfd⟩ := hst
      have hD : findEquiv s'.equiv d = some r := by
        rw [hs']
        exact compress_chain_entry s.equiv.length s.equiv d r t hdr hfd
      have hset : setEquiv s'.equiv d r = s'.equiv := setEquiv_self_of_find s'.equiv d r hD
      have hcomp : compress s'.equiv (s'.equiv.length + 1) d r = s'.equiv := by
        simp only [compress, if_neg hdr, hD, hset, compress_self]
      have hchd : chase s'.equiv (s'.equiv.length + 1) d = Res.ok r := hrd
      simp only [lookupD, hchd, hcomp]

/-- C6 witness: a two-domain state whose entry `0 ↦ 1` already points at the
entry-free root `1`. -/
theorem lookup_idempotent_witness :
    lookupD ⟨[DomainNode.fo ⟨none, none⟩, DomainNode.fo ⟨none, none⟩], [(0, 1)], []⟩ 1 =
      Res.ok (⟨[DomainNode.fo ⟨none, none⟩, DomainNode.fo ⟨none, none⟩], [(0, 1)], []⟩, 1) ∧
    lookupD ⟨[DomainNode.fo ⟨none, none⟩, DomainNode.fo ⟨none, none⟩], [(0, 1)], []⟩ 0 =
      Res.ok (⟨[DomainNode.fo ⟨none, none⟩, DomainNode.fo ⟨none, none⟩], [(0, 1)], []⟩, 1) :=
  lookup_idempotent ⟨[DomainNode.fo ⟨none, none⟩, DomainNode.fo ⟨none, none⟩], [(0, 1)], []⟩
    0 ⟨[DomainNode.fo ⟨none, none⟩, DomainNode.fo ⟨none, none⟩], [(0, 1)], []⟩ 1 (by decide)

/-! ### Claim C8 -/

/-- C8: in every reachable solver state — i.e. across every sequence of
domain constructions, `Lookup`s and `Unify`s starting from the empty state —
the equivalence table is acyclic: chasing entries from any domain terminates
at an entry-free root, and no domain is ever mapped to itself. -/
theorem equiv_chains_acyclic (s : DD) (h : Reachable s) :
    (∀ d, ∃ rt, rootOf s d = Res.ok rt ∧ findEquiv s.equiv rt = none) ∧
    (∀ d, findEquiv s.equiv d ≠ some d) := by
  have hInv := reachable_inv s h
  constructor
  · intro d
    obtain ⟨rt, hrt⟩ := inv_rootOf_ok s hInv d
    exact ⟨rt, hrt, rootOf_root_no_entry s d rt hrt⟩
  · intro d hd
    have hmem := findEquiv_some_mem s.equiv d d hd
    have hterm := hInv.equivTerm (d, d) hmem
    have habort : chase s.equiv (s.equiv.length + 1) d = Res.abort := by
      rw [chase, hd]
      simp
    rw [habort] at hterm
    exact Bool.noConfusion hterm

/-- C8 witness: the state holding one interned fully constrained domain. -/
theorem equiv_chains_acyclic_witness :
    (∃ rt, rootOf (makeFirstOrderDomain ⟨[], [], []⟩ ⟨some 0, some 1⟩).1 0 = Res.ok rt ∧
      findEquiv (makeFirstOrderDomain ⟨[], [], []⟩ ⟨some 0, some 1⟩).1.equiv rt = none) ∧
    findEquiv (makeFirstOrderDomain ⟨[], [], []⟩ ⟨some 0, some 1⟩).1.equiv 0 ≠ some 0 :=
  ⟨(equiv_chains_acyclic _ (Reachable.mkFirstOrder _ _ Reachable.empty)).1 0,
   (equiv_chains_acyclic _ (Reachable.mkFirstOrder _ _ Reachable.empty)).2 0⟩

/-! ### Claim C1 -/

/-- C1 (amended): unifying two domains whose roots are higher-order with
differing arity does not return the soft `none` sentinel: the size `ICHECK`
in `JoinOrNull` is fatal, so the unification aborts the process. -/
theorem unify_arity_mismatch_aborts (f : Nat) (s : DD) (l r lr rr : Nat)
    (psl psr : List Nat)
    (hrootl : rootOf s l = Res.ok lr) (hrootr : rootOf s r = Res.ok rr)
    (hne : lr ≠ rr)
    (hnl : nodeAt s lr = some (DomainNode.ho psl))
    (hnr : nodeAt s rr = some (DomainNode.ho psr))
    (hsz : psl.length ≠ psr.length) :
    unifyGo (f + 1) s l r = Res.abort := by
  obtain ⟨s1, hlk1, ha1, hi1, hlen1, hk1, hrp1, hfree1⟩ := lookupD_spec s l lr hrootl
  obtain ⟨s2, hlk2, ha2, hi2, hlen2, hk2, hrp2, hfree2⟩ :=
    lookupD_spec s1 r rr (hrp1 r rr hrootr)
  have hnl2 : nodeAt s2 lr = some (DomainNode.ho psl) := by
    rw [nodeAt, ha2, ha1]
    exact hnl
  have hnr2 : nodeAt s2 rr = some (DomainNode.ho psr) := by
    rw [nodeAt, ha2, ha1]
    exact hnr
  have hsz2 : nodeSize (DomainNode.ho psl) ≠ nodeSize (DomainNode.ho psr) := by
    simpa [nodeSize] using hsz
  simp only [unifyGo, hlk1, hlk2, joinGo, if_neg hne, hnl2, hnr2, if_pos hsz2]

/-- C1 counterexample: two higher-order domains of arities 2 and 3; contrary
to the spec sentence, their unification is a fatal abort, not the soft
sentinel. -/
theorem unify_arity_mismatch_counterexample :
    unifyGo 5 ⟨[DomainNode.fo ⟨none, none⟩, DomainNode.fo ⟨none, none⟩,
        DomainNode.fo ⟨none, none⟩, DomainNode.ho [0, 1], DomainNode.ho [0, 1, 2]],
        [], []⟩ 3 4 = Res.abort ∧
    ∀ s' : DD, unifyGo 5 ⟨[DomainNode.fo ⟨none, none⟩, DomainNode.fo ⟨none, none⟩,
        DomainNode.fo ⟨none, none⟩, DomainNode.ho [0, 1], DomainNode.ho [0, 1, 2]],
        [], []⟩ 3 4 ≠ Res.ok (s', none) := by
  have h : unifyGo 5 ⟨[DomainNode.fo ⟨none, none⟩, DomainNode.fo ⟨none, none⟩,
      DomainNode.fo ⟨none, none⟩, DomainNode.ho [0, 1], DomainNode.ho [0, 1, 2]],
      [], []⟩ 3 4 = Res.abort := by
    simp [unifyGo, joinGo, joinParts, lookupD, chase, compress, findEquiv, setEquiv,
      emplaceEquiv, nodeAt, nodeSize]
  refine ⟨h, fun s' hctr => ?bad⟩
  rw [h] at hctr
  cases hctr

/-- C1 witness: the amended theorem applied to the two mismatched
higher-order roots themselves. -/
theorem unify_arity_mismatch_witness :
    unifyGo 1 ⟨[DomainNode.fo ⟨none, none⟩, DomainNode.fo ⟨none, none⟩,
        DomainNode.fo ⟨none, none⟩, DomainNode.ho [0, 1], DomainNode.ho [0, 1, 2]],
        [], []⟩ 3 4 = Res.abort :=
  unify_arity_mismatch_aborts 0 ⟨[DomainNode.fo ⟨none, none⟩, DomainNode.fo ⟨none, none⟩,
      DomainNode.fo ⟨none, none⟩, DomainNode.ho [0, 1], DomainNode.ho [0, 1, 2]],
      [], []⟩ 3 4 3 4 [0, 1] [0, 1, 2]
    (by decide) (by decide) (by decide) (by decide) (by decide) (by decide)

/-! ### Claim C7 -/

/-- C7: unification is symmetric in outcome: after a successful
`Unify(a, b)` — and equally after a successful `Unify(b, a)` — both `a` and
`b` chase to the same root, namely the joined domain. -/
theorem unify_symmetric_roots (f : Nat) (s : DD) (a b : Nat) (s' : DD) (j : Nat)
    (hInv : Inv s) (ha : a < s.arena.length) (hb : b < s.arena.length)
    (h : unifyGo f s a b = Res.ok (s', some j) ∨ unifyGo f s b a = Res.ok (s', some j)) :
    rootOf s' a = Res.ok j ∧ rootOf s' b = Res.ok j := by
  rcases h with h | h
  · have hu := (unify_master f) s a b s' (some j) hInv ha hb h
    have hj := hu.2.2 j rfl
    exact ⟨hj.2.2.1, hj.2.2.2.1⟩
  · have hu := (unify_master f) s b a s' (some j) hInv hb ha h
    have hj := hu.2.2 j rfl
    exact ⟨hj.2.2.2.1, hj.2.2.1⟩

/-- C7 witness: joining two partially constrained scopes creates the joined
domain `2` and both inputs chase to it. -/
theorem unify_symmetric_roots_witness :
    rootOf ⟨[DomainNode.fo ⟨some 0, none⟩, DomainNode.fo ⟨none, some 1⟩,
        DomainNode.fo ⟨some 0, some 1⟩], [(0, 2), (1, 2)], [(⟨some 0, some 1⟩, 2)]⟩ 0 =
      Res.ok 2 ∧
    rootOf ⟨[DomainNode.fo ⟨some 0, none⟩, DomainNode.fo ⟨none, some 1⟩,
        DomainNode.fo ⟨some 0, some 1⟩], [(0, 2), (1, 2)], [(⟨some 0, some 1⟩, 2)]⟩ 1 =
      Res.ok 2 :=
  unify_symmetric_roots 1 ⟨[DomainNode.fo ⟨some 0, none⟩, DomainNode.fo ⟨none, some 1⟩],
      [], []⟩ 0 1
    ⟨[DomainNode.fo ⟨some 0, none⟩, DomainNode.fo ⟨none, some 1⟩,
        DomainNode.fo ⟨some 0, some 1⟩], [(0, 2), (1, 2)], [(⟨some 0, some 1⟩, 2)]⟩ 2
    (reachable_inv _ (Reachable.mkFirstOrder _ ⟨none, some 1⟩
      (Reachable.mkFirstOrder _ ⟨some 0, none⟩ Reachable.empty)))
    (by decide) (by decide)
    (Or.inl (by simp [unifyGo, joinGo, joinParts, lookupD, chase, compress, findEquiv,
      setEquiv, emplaceEquiv, nodeAt, nodeSize, SEScope.join, joinField,
      SEScope.isFullyUnconstrained, SEScope.isFullyConstrained, makeFirstOrderDomain,
      canonicalSEScope, findIntern]))

/-! ### Claim C2 -/

/-- C2 (amended): the final linking phase of a successful `Unify` maps each
original root to the joined domain — an equivalence entry is added exactly
when the root differs from the joined domain, so no self-entry ever appears
and the joined domain stays entry-free; in both outcomes the invariant is
preserved and the table key set only grows (a failed `Unify` returns the
`none` sentinel but, contrary to the spec, its lookups and committed
sub-unifications may already have changed the table). -/
theorem unify_links_roots (f : Nat) (s : DD) (l r lr rr : Nat) (s' : DD) (res : Option Nat)
    (hInv : Inv s) (hl : l < s.arena.length) (hr : r < s.arena.length)
    (hlr : rootOf s l = Res.ok lr) (hrr : rootOf s r = Res.ok rr)
    (hu : unifyGo (f + 1) s l r = Res.ok (s', res)) :
    Inv s' ∧
    (∀ x, (findEquiv s.equiv x).isSome = true → (findEquiv s'.equiv x).isSome = true) ∧
    (∀ j, res = some j →
      (if lr = j then findEquiv s'.equiv lr = none else findEquiv s'.equiv lr = some j) ∧
      (if rr = j then findEquiv s'.equiv rr = none else findEquiv s'.equiv rr = some j) ∧
      findEquiv s'.equiv j = none) := by
  rw [unifyGo] at hu
  obtain ⟨s1, hlk1, ha1, hi1, hlen1, hk1, hrp1, hfree1⟩ := lookupD_spec s l lr hlr
  have hInv1 : Inv s1 := lookupD_inv s hInv l lr s1 hlk1
  rw [hlk1] at hu
  simp only at hu
  have hrr1 : rootOf s1 r = Res.ok rr := hrp1 r rr hrr
  obtain ⟨s2, hlk2, ha2, hi2, hlen2, hk2, hrp2, hfree2⟩ := lookupD_spec s1 r rr hrr1
  have hInv2 : Inv s2 := lookupD_inv s1 hInv1 r rr s2 hlk2
  rw [hlk2] at hu
  simp only at hu
  have hlrlt : lr < s.arena.length := rootOf_lt s hInv l lr hl hlr
  have hrrlt1 : rr < s1.arena.length :=
    rootOf_lt s1 hInv1 r rr (by rw [ha1]; exact hr) hrr1
  have haren2 : s2.arena = s.arena := by rw [ha2, ha1]
  have hlrlt2 : lr < s2.arena.length := by rw [haren2]; exact hlrlt
  have hrrlt2 : rr < s2.arena.length := by rw [ha2]; exact hrrlt1
  have hfree1s2 : findEquiv s2.equiv lr = none := by
    have hiso := hk2 lr
    rw [hfree1] at hiso
    cases hf : findEquiv s2.equiv lr with
    | none => rfl
    | some v => rw [hf] at hiso; cases hiso
  have hkeys02 : ∀ x, (findEquiv s.equiv x).isSome = true →
      (findEquiv s2.equiv x).isSome = true := by
    intro x hx
    rw [hk2 x, hk1 x]
    exact hx
  cases hjg : joinGo f s2 lr rr with
  | abort => rw [hjg] at hu; cases hu
  | nofuel => rw [hjg] at hu; cases hu
  | ok pr =>
    obtain ⟨s3, jres⟩ := pr
    rw [hjg] at hu
    obtain ⟨hcomJ, hnkJ, hsomeJ⟩ :=
      (join_master f) s2 lr rr s3 jres hInv2 hfree1s2 hfree2 hlrlt2 hrrlt2 hjg
    obtain ⟨ext3, hext3⟩ := hcomJ.2.1
    cases jres with
    | none =>
      simp only at hu
      cases hu
      exact ⟨hcomJ.1, fun x hx => hcomJ.2.2.2.1 x (hkeys02 x hx),
        fun j hj => by cases hj⟩
    | some j =>
      simp only at hu
      obtain ⟨hjlt3, hjfree3, hl3free, hr3free, hdj3, hdlr3, hfcL, hfcR⟩ := hsomeJ j rfl
      have hlrlt3 : lr < s3.arena.length := by
        have := arena_le_of_ext s2 s3 ext3 hext3
        omega
      have hrrlt3 : rr < s3.arena.length := by
        have := arena_le_of_ext s2 s3 ext3 hext3
        omega
      cases hu
      by_cases hlj : lr = j
      · by_cases hrj : rr = j
        · rw [if_pos hlj, if_pos hrj]
          refine ⟨hcomJ.1, fun x hx => hcomJ.2.2.2.1 x (hkeys02 x hx), ?c0⟩
          intro j0 hj0
          cases hj0
          rw [if_pos hlj, if_pos hrj, hlj, hrj]
          exact ⟨hjfree3, hjfree3, hjfree3⟩
        · rw [if_pos hlj, if_neg hrj]
          have hem : emplaceEquiv s3.equiv rr j = s3.equiv ++ [(rr, j)] :=
            emplaceEquiv_of_none s3.equiv rr j hr3free
          have hdep : depthA s3.arena rr = depthA s3.arena j := by
            rw [hdj3, hdlr3]
          have hnfc : ∀ sc, s3.arena.get? rr = some (DomainNode.fo sc) →
              sc.isFullyConstrained = true → False := by
            intro sc hn hfc
            rw [hext3, List.get?_append hrrlt2] at hn
            exact hrj (hfcR sc hn hfc).symm
          obtain ⟨hInv4, hpresne, hpresk⟩ :=
            inv_addEntry s3 rr j hcomJ.1 hr3free hjfree3 hrj hrrlt3 hjlt3 hdep hnfc
          refine ⟨?inv1, ?keys1, ?c1⟩
          · show Inv { s3 with equiv := emplaceEquiv s3.equiv rr j }
            rw [hem]
            exact hInv4
          · intro x hx
            have hx3 := hcomJ.2.2.2.1 x (hkeys02 x hx)
            obtain ⟨t, ht⟩ := Option.isSome_iff_exists.mp hx3
            have : findEquiv (s3.equiv ++ [(rr, j)]) x = some t :=
              findEquiv_append_of_some _ _ _ _ ht
            simp only [hem, this]
            rfl
          · intro j0 hj0
            cases hj0
            rw [if_pos hlj, if_neg hrj, hlj]
            have hjf : findEquiv (emplaceEquiv s3.equiv rr j) j = none := by
              rw [hem, findEquiv_append_of_none _ _ _ hjfree3, findEquiv_single,
                if_neg hrj]
            refine ⟨hjf, ?hrrs, hjf⟩
            rw [hem, findEquiv_append_of_none _ _ _ hr3free, findEquiv_single,
              if_pos rfl]
      · by_cases hrj : rr = j
        · rw [if_neg hlj, if_pos hrj]
          have hem : emplaceEquiv s3.equiv lr j = s3.equiv ++ [(lr, j)] :=
            emplaceEquiv_of_none s3.equiv lr j hl3free
          have hnfc : ∀ sc, s3.arena.get? lr = some (DomainNode.fo sc) →
              sc.isFullyConstrained = true → False := by
            intro sc hn hfc
            rw [hext3, List.get?_append hlrlt2] at hn
            exact hlj (hfcL sc hn hfc).symm
          obtain ⟨hInv4, hpresne, hpresk⟩ :=
            inv_addEntry s3 lr j hcomJ.1 hl3free hjfree3 hlj hlrlt3 hjlt3
              (by rw [hdj3]) hnfc
          refine ⟨?inv2, ?keys2, ?c2⟩
          · show Inv { s3 with equiv := emplaceEquiv s3.equiv lr j }
            rw [hem]
            exact hInv4
          · intro x hx
            have hx3 := hcomJ.2.2.2.1 x (hkeys02 x hx)
            obtain ⟨t, ht⟩ := Option.isSome_iff_exists.mp hx3
            have : findEquiv (s3.equiv ++ [(lr, j)]) x = some t :=
              findEquiv_append_of_some _ _ _ _ ht
            simp only [hem, this]
            rfl
          · intro j0 hj0
            cases hj0
            rw [if_neg hlj, if_pos hrj, hrj]
            have hjf : findEquiv (emplaceEquiv s3.equiv lr j) j = none := by
              rw [hem, findEquiv_append_of_none _ _ _ hjfree3, findEquiv_single,
                if_neg hlj]
            refine ⟨?hlrs, hjf, hjf⟩
            rw [hem, findEquiv_append_of_none _ _ _ hl3free, findEquiv_single,
              if_pos rfl]
        · rw [if_neg hlj, if_neg hrj]
          have hem4 : emplaceEquiv s3.equiv lr j = s3.equiv ++ [(lr, j)] :=
            emplaceEquiv_of_none s3.equiv lr j hl3free
          have hnfcL : ∀ sc, s3.arena.get? lr = some (DomainNode.fo sc) →
              sc.isFullyConstrained = true → False := by
            intro sc hn hfc
            rw [hext3, List.get?_append hlrlt2] at hn
            exact hlj (hfcL sc hn hfc).symm
          obtain ⟨hInv4, hpresne4, hpresk4⟩ :=
            inv_addEntry s3 lr j hcomJ.1 hl3free hjfree3 hlj hlrlt3 hjlt3
              (by rw [hdj3]) hnfcL
          have hlrne : rr ≠ lr := by
            intro hh
            have hself : joinGo f s2 lr rr = Res.ok (s2, some lr) := by
              rw [hh, joinGo, if_pos rfl]
            rw [hjg] at hself
            have hj0 : some j = some lr := congrArg (fun p => p.2) (Res.ok.inj hself)
            exact hlj (Option.some.inj hj0).symm
          have hr4free : findEquiv (s3.equiv ++ [(lr, j)]) rr = none := by
            rw [findEquiv_append_of_none _ _ _ hr3free, findEquiv_single, if_neg hlrne.symm]
          have hj4free : findEquiv (s3.equiv ++ [(lr, j)]) j = none := by
            rw [findEquiv_append_of_none _ _ _ hjfree3, findEquiv_single, if_neg hlj]
          have hem5 : emplaceEquiv (s3.equiv ++ [(lr, j)]) rr j =
              (s3.equiv ++ [(lr, j)]) ++ [(rr, j)] :=
            emplaceEquiv_of_none _ rr j hr4free
          have hs4 : { s3 with equiv := emplaceEquiv s3.equiv lr j } =
              { s3 with equiv := s3.equiv ++ [(lr, j)] } := by rw [hem4]
          have hnfcR4 : ∀ sc, ({ s3 with equiv := s3.equiv ++ [(lr, j)] } : DD).arena.get? rr =
              some (DomainNode.fo sc) → sc.isFullyConstrained = true → False := by
            intro sc hn hfc
            rw [hext3, List.get?_append hrrlt2] at hn
            exact hrj (hfcR sc hn hfc).symm
          have hInv4' : Inv { s3 with equiv := s3.equiv ++ [(lr, j)] } := hInv4
          have hdep4 : depthA ({ s3 with equiv := s3.equiv ++ [(lr, j)] } : DD).arena rr =
              depthA ({ s3 with equiv := s3.equiv ++ [(lr, j)] } : DD).arena j := by
            rw [hdj3, hdlr3]
          obtain ⟨hInv5, hpresne5, hpresk5⟩ :=
            inv_addEntry { s3 with equiv := s3.equiv ++ [(lr, j)] } rr j hInv4'
              hr4free hj4free hrj hrrlt3 hjlt3 hdep4 hnfcR4
          refine ⟨?inv3, ?keys3, ?c3⟩
          · rw [hem4]
            show Inv { { s3 with equiv := s3.equiv ++ [(lr, j)] } with
              equiv := emplaceEquiv (s3.equiv ++ [(lr, j)]) rr j }
            rw [hem5]
            exact hInv5
          · intro x hx
            have hx3 := hcomJ.2.2.2.1 x (hkeys02 x hx)
            obtain ⟨t, ht⟩ := Option.isSome_iff_exists.mp hx3
            have ht4 : findEquiv (s3.equiv ++ [(lr, j)]) x = some t :=
              findEquiv_append_of_some _ _ _ _ ht
            have ht5 : findEquiv ((s3.equiv ++ [(lr, j)]) ++ [(rr, j)]) x = some t :=
              findEquiv_append_of_some _ _ _ _ ht4
            simp only [hem4, hem5, ht5]
            rfl
          · intro j0 hj0
            cases hj0
            rw [if_neg hlj, if_neg hrj]
            have hlr4 : findEquiv (s3.equiv ++ [(lr, j)]) lr = some j := by
              rw [findEquiv_append_of_none _ _ _ hl3free, findEquiv_single, if_pos rfl]
            have hlr5 : findEquiv ((s3.equiv ++ [(lr, j)]) ++ [(rr, j)]) lr = some j :=
              findEquiv_append_of_some _ _ _ _ hlr4
            have hrr5 : findEquiv ((s3.equiv ++ [(lr, j)]) ++ [(rr, j)]) rr = some j := by
              rw [findEquiv_append_of_none _ _ _ hr4free, findEquiv_single, if_pos rfl]
            have hj5 : findEquiv ((s3.equiv ++ [(lr, j)]) ++ [(rr, j)]) j = none := by
              rw [findEquiv_append_of_none _ _ _ hj4free, findEquiv_single, if_neg hrj]
            simp only [hem4, hem5]
            exact ⟨hlr5, hrr5, hj5⟩

/-- C2 counterexample: a failed unification of two higher-order domains that
nevertheless leaves a committed sub-unification entry in the table, contrary
to the spec sentence "on failure, make no table change". -/
theorem unify_failure_changes_table_counterexample :
    unifyGo 5 ⟨[DomainNode.fo ⟨none, none⟩, DomainNode.fo ⟨none, none⟩,
        DomainNode.fo ⟨some 0, none⟩, DomainNode.fo ⟨some 1, none⟩,
        DomainNode.ho [0, 2], DomainNode.ho [1, 3]], [], []⟩ 4 5 =
      Res.ok (⟨[DomainNode.fo ⟨none, none⟩, DomainNode.fo ⟨none, none⟩,
        DomainNode.fo ⟨some 0, none⟩, DomainNode.fo ⟨some 1, none⟩,
        DomainNode.ho [0, 2], DomainNode.ho [1, 3]], [(1, 0)], []⟩, none) ∧
    ((⟨[DomainNode.fo ⟨none, none⟩, DomainNode.fo ⟨none, none⟩,
        DomainNode.fo ⟨some 0, none⟩, DomainNode.fo ⟨some 1, none⟩,
        DomainNode.ho [0, 2], DomainNode.ho [1, 3]], [(1, 0)], []⟩ : DD).equiv ≠
      (⟨[DomainNode.fo ⟨none, none⟩, DomainNode.fo ⟨none, none⟩,
        DomainNode.fo ⟨some 0, none⟩, DomainNode.fo ⟨some 1, none⟩,
        DomainNode.ho [0, 2], DomainNode.ho [1, 3]], [], []⟩ : DD).equiv) := by
  constructor
  · simp [unifyGo, joinGo, joinParts, lookupD, chase, compress, findEquiv, setEquiv,
      emplaceEquiv, nodeAt, nodeSize, SEScope.join, joinField,
      SEScope.isFullyUnconstrained, SEScope.isFullyConstrained, makeFirstOrderDomain,
      canonicalSEScope, findIntern]
  · decide

/-- C2 witness: a successful unification linking root `0` to the joined
domain `1` with no self-entry on `1`. -/
theorem unify_links_roots_witness :
    findEquiv (⟨[DomainNode.fo ⟨none, none⟩, DomainNode.fo ⟨some 5, none⟩],
      [(0, 1)], []⟩ : DD).equiv 0 = some 1 ∧
    findEquiv (⟨[DomainNode.fo ⟨none, none⟩, DomainNode.fo ⟨some 5, none⟩],
      [(0, 1)], []⟩ : DD).equiv 1 = none := by
  have h := (unify_links_roots 0
    ⟨[DomainNode.fo ⟨none, none⟩, DomainNode.fo ⟨some 5, none⟩], [], []⟩ 0 1 0 1
    ⟨[DomainNode.fo ⟨none, none⟩, DomainNode.fo ⟨some 5, none⟩], [(0, 1)], []⟩ (some 1)
    (reachable_inv _ (Reachable.mkFirstOrder _ ⟨some 5, none⟩
      (Reachable.mkFirstOrder _ ⟨none, none⟩ Reachable.empty)))
    (by decide) (by decide) (by decide) (by decide)
    (by simp [unifyGo, joinGo, joinParts, lookupD, chase, compress, findEquiv, setEquiv,
      emplaceEquiv, nodeAt, nodeSize, SEScope.join, joinField,
      SEScope.isFullyUnconstrained, SEScope.isFullyConstrained, makeFirstOrderDomain,
      canonicalSEScope, findIntern])).2.2 1 rfl
  rw [if_neg (by decide), if_pos rfl] at h
  exact ⟨h.1, h.2.1⟩

/-! ### Claim C3 -/

theorem forall₂_imp_mem2 {α β : Type} {R S : α → β → Prop} {xs : List α} {ys : List β}
    (h : List.Forall₂ R xs ys)
    (hi : ∀ x y, x ∈ xs → y ∈ ys → R x y → S x y) : List.Forall₂ S xs ys := by
  induction h with
  | nil => exact List.Forall₂.nil
  | cons hR hrest ih =>
    exact List.Forall₂.cons
      (hi _ _ (List.mem_cons_self _ _) (List.mem_cons_self _ _) hR)
      (ih (fun x y hx hy hR2 => hi x y (List.mem_cons_of_mem _ hx)
        (List.mem_cons_of_mem _ hy) hR2))

theorem makeHigherOrderDomain_node (s : DD) (parts : List Nat) :
    nodeAt (makeHigherOrderDomain s parts).1 (makeHigherOrderDomain s parts).2 =
      some (DomainNode.ho parts) := by
  rw [nodeAt, makeHigherOrderDomain]
  simp only
  rw [get?_concat, if_neg (by omega), if_pos rfl]

theorem makeDomain_node_prim (s : DD) (sc : SEScope) (hInv : Inv s) :
    nodeAt (makeDomain s Ty.prim sc).1 (makeDomain s Ty.prim sc).2 =
      some (DomainNode.fo sc) := by
  rw [makeDomain]
  exact (makeFirstOrderDomain_spec s sc hInv).2.2.2.2.1

theorem makeDomain_node_func (s : DD) (args : List Ty) (ret : Ty) (sc : SEScope) :
    nodeAt (makeDomain s (Ty.func args ret) sc).1 (makeDomain s (Ty.func args ret) sc).2 =
      some (DomainNode.ho ((makeDomainParams s args).2 ++
        [(makeDomain (makeDomainParams s args).1 ret sc).2])) := by
  rw [makeDomain]
  exact makeHigherOrderDomain_node _ _

/-- Node shapes of the fresh parameter domains of `MakeDomain`: first-order
and fully unconstrained for non-function argument types, higher-order for
function argument types. -/
theorem makeDomainParams_nodes : ∀ (ts : List Ty) (s : DD), Inv s →
    List.Forall₂ (fun d t => match t with
      | Ty.prim => nodeAt (makeDomainParams s ts).1 d =
          some (DomainNode.fo SEScope.fullyUnconstrained)
      | Ty.func _ _ => ∃ qs, nodeAt (makeDomainParams s ts).1 d =
          some (DomainNode.ho qs))
      (makeDomainParams s ts).2 ts := by
  intro ts
  induction ts with
  | nil =>
    intro s hInv
    rw [makeDomainParams]
    exact List.Forall₂.nil
  | cons t ts' ih =>
    intro s hInv
    obtain ⟨hInv1, ⟨ext1, hext1⟩, hequiv1, hintern1, hlt1, hfree1⟩ :=
      makeDomain_spec t s SEScope.fullyUnconstrained hInv
    obtain ⟨hInv2, ⟨ext2, hext2⟩, hequiv2, hintern2, hlt2, hfree2, hlen2⟩ :=
      makeDomainParams_spec ts' (makeDomain s t SEScope.fullyUnconstrained).1 hInv1
    rw [makeDomainParams]
    dsimp only
    refine List.Forall₂.cons ?head ?tail
    · cases t with
      | prim =>
        have hn := makeDomain_node_prim s SEScope.fullyUnconstrained hInv
        exact nodeAt_ext _ _ ext2 hext2 _ _ hn
      | func a2 r2 =>
        have hn := makeDomain_node_func s a2 r2 SEScope.fullyUnconstrained
        exact ⟨_, nodeAt_ext _ _ ext2 hext2 _ _ hn⟩
    · exact ih _ hInv1

/-- C3 (amended): `MakeDomain` on a function type of arity `n` returns a
higher-order domain with exactly `n + 1` parts: the first `n` parts are the
fresh, entry-free parameter domains built fully unconstrained from the
argument types — first-order precisely when the corresponding argument type
is not itself a function type; for function-typed arguments the parameter is
higher-order, not first-order as the spec sentence says — and the last part
is the domain of the result type at the requested scope, so the requested
scope is stamped only at the result position. -/
theorem makeDomain_func_shape (s : DD) (args : List Ty) (ret : Ty) (sc : SEScope)
    (hInv : Inv s) :
    ∃ ps rres,
      nodeAt (makeDomain s (Ty.func args ret) sc).1
          (makeDomain s (Ty.func args ret) sc).2 =
        some (DomainNode.ho (ps ++ [rres])) ∧
      ps.length = args.length ∧
      List.Forall₂ (fun d t => match t with
        | Ty.prim => nodeAt (makeDomain s (Ty.func args ret) sc).1 d =
            some (DomainNode.fo SEScope.fullyUnconstrained)
        | Ty.func _ _ => ∃ qs, nodeAt (makeDomain s (Ty.func args ret) sc).1 d =
            some (DomainNode.ho qs)) ps args ∧
      (∀ d ∈ ps, findEquiv (makeDomain s (Ty.func args ret) sc).1.equiv d = none) ∧
      (ret = Ty.prim → nodeAt (makeDomain s (Ty.func args ret) sc).1 rres =
        some (DomainNode.fo sc)) := by
  obtain ⟨hInvP, ⟨extP, hextP⟩, hequivP, hinternP, hltP, hfreeP, hlenP⟩ :=
    makeDomainParams_spec args s hInv
  obtain ⟨hInvR, ⟨extR, hextR⟩, hequivR, hinternR, hltR, hfreeR⟩ :=
    makeDomain_spec ret (makeDomainParams s args).1 sc hInvP
  obtain ⟨hInvF, ⟨extF, hextF⟩, hequivF, hinternF, hltF, hfreeF⟩ :=
    makeDomain_spec (Ty.func args ret) s sc hInv
  have h1 : (makeDomain s (Ty.func args ret) sc).1 =
      (makeHigherOrderDomain (makeDomain (makeDomainParams s args).1 ret sc).1
        ((makeDomainParams s args).2 ++
          [(makeDomain (makeDomainParams s args).1 ret sc).2])).1 := by
    rw [makeDomain]
  have hextPF : (makeDomain s (Ty.func args ret) sc).1.arena =
      (makeDomainParams s args).1.arena ++ (extR ++
        [DomainNode.ho ((makeDomainParams s args).2 ++
          [(makeDomain (makeDomainParams s args).1 ret sc).2])]) := by
    rw [h1]
    show (makeDomain (makeDomainParams s args).1 ret sc).1.arena ++
        [DomainNode.ho ((makeDomainParams s args).2 ++
          [(makeDomain (makeDomainParams s args).1 ret sc).2])] = _
    rw [hextR, List.append_assoc]
  refine ⟨(makeDomainParams s args).2, (makeDomain (makeDomainParams s args).1 ret sc).2,
    makeDomain_node_func s args ret sc, hlenP, ?fa, ?efree, ?retn⟩
  · have hforall := makeDomainParams_nodes args s hInv
    refine forall₂_imp_mem2 hforall ?imp
    intro d t hd ht hR
    cases t with
    | prim =>
      exact nodeAt_ext _ _ _ hextPF _ _ hR
    | func a2 r2 =>
      obtain ⟨qs, hqs⟩ := hR
      exact ⟨qs, nodeAt_ext _ _ _ hextPF _ _ hqs⟩
  · intro d hd
    rw [hequivF, ← hequivP]
    exact hfreeP d hd
  · intro hret
    subst hret
    have hn := makeDomain_node_prim (makeDomainParams s args).1 sc hInvP
    exact nodeAt_ext _ _ [DomainNode.ho ((makeDomainParams s args).2 ++
      [(makeDomain (makeDomainParams s args).1 Ty.prim sc).2])] (by rw [h1]; rfl) _ _ hn

/-- C3 counterexample: on the function type `(prim → prim) → prim` the single
parameter domain (part `2` of the produced domain `4`) is higher-order, not
first-order as the spec sentence claims. -/
theorem makeDomain_param_higher_order_counterexample :
    (makeDomain ⟨[], [], []⟩ (Ty.func [Ty.func [Ty.prim] Ty.prim] Ty.prim)
        SEScope.fullyUnconstrained).2 = 4 ∧
    nodeAt (makeDomain ⟨[], [], []⟩ (Ty.func [Ty.func [Ty.prim] Ty.prim] Ty.prim)
        SEScope.fullyUnconstrained).1 4 = some (DomainNode.ho [2, 3]) ∧
    nodeAt (makeDomain ⟨[], [], []⟩ (Ty.func [Ty.func [Ty.prim] Ty.prim] Ty.prim)
        SEScope.fullyUnconstrained).1 2 = some (DomainNode.ho [0, 1]) ∧
    (∀ sc, nodeAt (makeDomain ⟨[], [], []⟩ (Ty.func [Ty.func [Ty.prim] Ty.prim] Ty.prim)
        SEScope.fullyUnconstrained).1 2 ≠ some (DomainNode.fo sc)) := by
  have h2 : nodeAt (makeDomain ⟨[], [], []⟩ (Ty.func [Ty.func [Ty.prim] Ty.prim] Ty.prim)
      SEScope.fullyUnconstrained).1 2 = some (DomainNode.ho [0, 1]) := by
    simp [makeDomain, makeDomainParams, makeFirstOrderDomain, makeHigherOrderDomain,
      nodeAt, findIntern, SEScope.isFullyConstrained, SEScope.fullyUnconstrained]
  refine ⟨?i, ?n4, h2, ?notfo⟩
  · simp [makeDomain, makeDomainParams, makeFirstOrderDomain, makeHigherOrderDomain,
      SEScope.isFullyConstrained, SEScope.fullyUnconstrained]
  · simp [makeDomain, makeDomainParams, makeFirstOrderDomain, makeHigherOrderDomain,
      nodeAt, findIntern, SEScope.isFullyConstrained, SEScope.fullyUnconstrained]
  · intro sc hc
    rw [h2] at hc
    cases hc

/-- C3 witness: the amended theorem applied to the arity-one function type
`prim → prim` at a partially constrained scope. -/
theorem makeDomain_func_shape_witness :
    ∃ ps rres,
      nodeAt (makeDomain ⟨[], [], []⟩ (Ty.func [Ty.prim] Ty.prim) ⟨some 3, none⟩).1
          (makeDomain ⟨[], [], []⟩ (Ty.func [Ty.prim] Ty.prim) ⟨some 3, none⟩).2 =
        some (DomainNode.ho (ps ++ [rres])) ∧
      ps.length = [Ty.prim].length ∧
      List.Forall₂ (fun d t => match t with
        | Ty.prim => nodeAt (makeDomain ⟨[], [], []⟩ (Ty.func [Ty.prim] Ty.prim)
            ⟨some 3, none⟩).1 d = some (DomainNode.fo SEScope.fullyUnconstrained)
        | Ty.func _ _ => ∃ qs, nodeAt (makeDomain ⟨[], [], []⟩ (Ty.func [Ty.prim] Ty.prim)
            ⟨some 3, none⟩).1 d = some (DomainNode.ho qs)) ps [Ty.prim] ∧
      (∀ d ∈ ps, findEquiv (makeDomain ⟨[], [], []⟩ (Ty.func [Ty.prim] Ty.prim)
        ⟨some 3, none⟩).1.equiv d = none) ∧
      (Ty.prim = Ty.prim → nodeAt (makeDomain ⟨[], [], []⟩ (Ty.func [Ty.prim] Ty.prim)
        ⟨some 3, none⟩).1 rres = some (DomainNode.fo ⟨some 3, none⟩)) :=
  makeDomain_func_shape ⟨[], [], []⟩ [Ty.prim] Ty.prim ⟨some 3, none⟩ inv_empty

theorem defaultWith_fc (sc fb : SEScope) (h : sc.isFullyConstrained = true) :
    SEScope.defaultWith sc fb = sc := by
  obtain ⟨a, b⟩ := sc
  simp [SEScope.isFullyConstrained] at h
  obtain ⟨x, hx⟩ := Option.isSome_iff_exists.mp h.1
  obtain ⟨y, hy⟩ := Option.isSome_iff_exists.mp h.2
  subst hx hy
  rfl

/-! ### Claim C9 -/

/-- C9: the single-domain `ToString` of a first-order root prints the
per-node placeholder exactly when its looked-up scope is not fully
constrained, followed by the scope text exactly when the scope is not fully
unconstrained; in particular a partially constrained scope renders both. -/
theorem renderDomain_first_order (f : Nat) (s : DD) (d : Nat) (s1 : DD) (r : Nat)
    (sc : SEScope)
    (hlk : lookupD s d = Res.ok (s1, r)) (hn : nodeAt s1 r = some (DomainNode.fo sc)) :
    renderDomain (f + 1) s d = Res.ok (s1,
      (if sc.isFullyConstrained then "" else "?" ++ Nat.repr r ++ "?") ++
      (if sc.isFullyUnconstrained then "" else scopeText sc)) ∧
    (sc.isFullyConstrained = false → sc.isFullyUnconstrained = false →
      renderDomain (f + 1) s d =
        Res.ok (s1, ("?" ++ Nat.repr r ++ "?") ++ scopeText sc)) := by
  have hmain : renderDomain (f + 1) s d = Res.ok (s1,
      (if sc.isFullyConstrained then "" else "?" ++ Nat.repr r ++ "?") ++
      (if sc.isFullyUnconstrained then "" else scopeText sc)) := by
    rw [renderDomain, hlk]
    simp only [hn]
  refine ⟨hmain, fun h1 h2 => ?tok⟩
  rw [hmain, h1, h2]
  simp

/-- C9 witness: a partially constrained scope (device set, memory scope not)
renders both the placeholder and the scope text. -/
theorem renderDomain_first_order_witness :
    renderDomain 1 ⟨[DomainNode.fo ⟨some 2, none⟩], [], []⟩ 0 =
      Res.ok (⟨[DomainNode.fo ⟨some 2, none⟩], [], []⟩,
        ("?" ++ Nat.repr 0 ++ "?") ++ scopeText ⟨some 2, none⟩) :=
  (renderDomain_first_order 0 ⟨[DomainNode.fo ⟨some 2, none⟩], [], []⟩ 0
    ⟨[DomainNode.fo ⟨some 2, none⟩], [], []⟩ 0 ⟨some 2, none⟩ (by decide) rfl).2 rfl rfl

/-! ### Claim C5 -/

/-- C5: for a single-parameter function domain whose parameter is
unconstrained and whose result is a fully constrained, interned scope `R`,
`SetResultDefaultThenParams` first defaults only the innermost result leaf
with the supplied fallback `g` (a no-op, the result being constrained) and
then re-runs `SetDefault` over the whole domain with the now-resolved result
scope `R` as fallback: the parameter gets unified with the result's interned
domain, so it resolves to `R`, and the fallback `g` appears nowhere. -/
theorem setResultDefaultThenParams_param_inherits_result (R g : SEScope)
    (hRfc : R.isFullyConstrained = true) (hgfu : g.isFullyUnconstrained = false) :
    setResultDefaultThenParams 3
      ⟨[DomainNode.fo ⟨none, none⟩, DomainNode.fo R, DomainNode.ho [0, 1]], [], [(R, 1)]⟩
      2 g =
      Res.ok ⟨[DomainNode.fo ⟨none, none⟩, DomainNode.fo R, DomainNode.ho [0, 1]],
        [(0, 1)], [(R, 1)]⟩ ∧
    rootOf ⟨[DomainNode.fo ⟨none, none⟩, DomainNode.fo R, DomainNode.ho [0, 1]],
        [(0, 1)], [(R, 1)]⟩ 0 = Res.ok 1 ∧
    nodeAt ⟨[DomainNode.fo ⟨none, none⟩, DomainNode.fo R, DomainNode.ho [0, 1]],
        [(0, 1)], [(R, 1)]⟩ 1 = some (DomainNode.fo R) ∧
    (g ≠ R → ∀ i, nodeAt ⟨[DomainNode.fo ⟨none, none⟩, DomainNode.fo R,
        DomainNode.ho [0, 1]], [(0, 1)], [(R, 1)]⟩ i ≠ some (DomainNode.fo g)) := by
  have hRnfu : R.isFullyUnconstrained = false := fc_not_fu R hRfc
  refine ⟨?main, rfl, rfl, ?nog⟩
  · simp [setResultDefaultThenParams, setDefault, setDefaultList, resultSEScope,
      resultDomain, lookupD, chase, compress, findEquiv, setEquiv, emplaceEquiv, nodeAt,
      nodeSize, unifyGo, joinGo, joinParts, makeFirstOrderDomain, findIntern,
      canonicalSEScope, hgfu, hRnfu, hRfc, defaultWith_fc R g hRfc, defaultWith_fc R R hRfc,
      (show SEScope.defaultWith ⟨none, none⟩ R = R from rfl),
      (show (⟨none, none⟩ : SEScope).isFullyUnconstrained = true from rfl)]
  · intro hgR i h
    rcases i with _ | _ | _ | i
    · have hg : (⟨none, none⟩ : SEScope) = g :=
        DomainNode.fo.inj (Option.some.inj h)
      rw [← hg] at hgfu
      exact Bool.noConfusion hgfu
    · exact hgR (DomainNode.fo.inj (Option.some.inj h)).symm
    · exact DomainNode.noConfusion (Option.some.inj h)
    · exact Option.noConfusion h

/-- C5 witness: the scenario at the concrete result scope `(0, 0)` and
fallback `(1, ·)`. -/
theorem setResultDefaultThenParams_param_inherits_result_witness :
    setResultDefaultThenParams 3
      ⟨[DomainNode.fo ⟨none, none⟩, DomainNode.fo ⟨some 0, some 0⟩, DomainNode.ho [0, 1]],
        [], [(⟨some 0, some 0⟩, 1)]⟩ 2 ⟨some 1, none⟩ =
      Res.ok ⟨[DomainNode.fo ⟨none, none⟩, DomainNode.fo ⟨some 0, some 0⟩,
        DomainNode.ho [0, 1]], [(0, 1)], [(⟨some 0, some 0⟩, 1)]⟩ ∧
    rootOf ⟨[DomainNode.fo ⟨none, none⟩, DomainNode.fo ⟨some 0, some 0⟩,
        DomainNode.ho [0, 1]], [(0, 1)], [(⟨some 0, some 0⟩, 1)]⟩ 0 = Res.ok 1 ∧
    nodeAt ⟨[DomainNode.fo ⟨none, none⟩, DomainNode.fo ⟨some 0, some 0⟩,
        DomainNode.ho [0, 1]], [(0, 1)], [(⟨some 0, some 0⟩, 1)]⟩ 1 =
      some (DomainNode.fo ⟨some 0, some 0⟩) ∧
    ((⟨some 1, none⟩ : SEScope) ≠ ⟨some 0, some 0⟩ → ∀ i,
      nodeAt ⟨[DomainNode.fo ⟨none, none⟩, DomainNode.fo ⟨some 0, some 0⟩,
        DomainNode.ho [0, 1]], [(0, 1)], [(⟨some 0, some 0⟩, 1)]⟩ i ≠
        some (DomainNode.fo ⟨some 1, none⟩)) :=
  setResultDefaultThenParams_param_inherits_result ⟨some 0, some 0⟩ ⟨some 1, none⟩
    (by decide) (by decide)

/-! ### Unification of two first-order roots -/

theorem join_self (a : SEScope) : SEScope.join a a = some a := by
  obtain ⟨d, m⟩ := a
  rw [SEScope.join]
  cases d <;> cases m <;> simp [joinField]

/-- Complete case analysis of `Unify` on two domains whose roots are both
first-order: the soft sentinel appears exactly when the scope join conflicts,
and on success the joined root carries the joined scope, both arguments chase
to it, and the only keys added are the two old roots. -/
theorem unify_fo_roots (f : Nat) (s : DD) (l r lr rr : Nat) (a b : SEScope)
    (hInv : Inv s) (hlr : rootOf s l = Res.ok lr) (hrr : rootOf s r = Res.ok rr)
    (hnl : nodeAt s lr = some (DomainNode.fo a))
    (hnr : nodeAt s rr = some (DomainNode.fo b)) :
    (SEScope.join a b = none → ∃ s1, unifyGo (f + 1) s l r = Res.ok (s1, none) ∧
      s1.arena = s.arena ∧ s1.intern = s.intern ∧
      (∀ x, (findEquiv s1.equiv x).isSome = (findEquiv s.equiv x).isSome) ∧
      (∀ x rt, rootOf s x = Res.ok rt → rootOf s1 x = Res.ok rt) ∧ Inv s1) ∧
    (∀ c, SEScope.join a b = some c → ∃ s' j,
      unifyGo (f + 1) s l r = Res.ok (s', some j) ∧
      Inv s' ∧ (∃ ext, s'.arena = s.arena ++ ext) ∧
      nodeAt s' j = some (DomainNode.fo c) ∧ findEquiv s'.equiv j = none ∧
      rootOf s' l = Res.ok j ∧ rootOf s' r = Res.ok j ∧
      (∀ x, (findEquiv s'.equiv x).isSome = true →
        (findEquiv s.equiv x).isSome = true ∨ x = lr ∨ x = rr) ∧
      (b.isFullyUnconstrained = true → j = lr ∧ s'.arena = s.arena)) := by
  obtain ⟨s1, hlk1, ha1, hi1, hlen1, hk1, hrp1, hfree1⟩ := lookupD_spec s l lr hlr
  have hInv1 : Inv s1 := lookupD_inv s hInv l lr s1 hlk1
  have hrr1 : rootOf s1 r = Res.ok rr := hrp1 r rr hrr
  obtain ⟨s2, hlk2, ha2, hi2, hlen2, hk2, hrp2, hfree2⟩ := lookupD_spec s1 r rr hrr1
  have hInv2 : Inv s2 := lookupD_inv s1 hInv1 r rr s2 hlk2
  have haren2 : s2.arena = s.arena := by rw [ha2, ha1]
  have hint2 : s2.intern = s.intern := by rw [hi2, hi1]
  have hkiso : ∀ x, (findEquiv s2.equiv x).isSome = (findEquiv s.equiv x).isSome := by
    intro x
    rw [hk2 x, hk1 x]
  have hrp02 : ∀ x rt, rootOf s x = Res.ok rt → rootOf s2 x = Res.ok rt :=
    fun x rt hx => hrp2 x rt (hrp1 x rt hx)
  have hfree1s2 : findEquiv s2.equiv lr = none := by
    have hiso := hk2 lr
    rw [hfree1] at hiso
    cases hf : findEquiv s2.equiv lr with
    | none => rfl
    | some v => rw [hf] at hiso; cases hiso
  have hnl2 : nodeAt s2 lr = some (DomainNode.fo a) := by
    rw [nodeAt, haren2]
    exact hnl
  have hnr2 : nodeAt s2 rr = some (DomainNode.fo b) := by
    rw [nodeAt, haren2]
    exact hnr
  have hlrlt2 : lr < s2.arena.length := get?_some_lt hnl2
  have hrrlt2 : rr < s2.arena.length := get?_some_lt hnr2
  have hrootl2 : rootOf s2 l = Res.ok lr := hrp2 l lr (hrp1 l lr hlr)
  have hrootr2 : rootOf s2 r = Res.ok rr := hrp2 r rr hrr1
  by_cases heq : lr = rr
  · have hab : a = b := by
      rw [heq] at hnl2
      exact DomainNode.fo.inj (Option.some.inj (hnl2.symm.trans hnr2))
    have hjoin : SEScope.join a b = some a := by
      rw [← hab]
      exact join_self a
    have hjg : joinGo f s2 lr rr = Res.ok (s2, some lr) := by
      rw [joinGo, if_pos heq]
    have hu : unifyGo (f + 1) s l r = Res.ok (s2, some lr) := by
      simp only [unifyGo, hlk1, hlk2, hjg]
      simp [heq]
    refine ⟨fun hn => ?noneA, fun c hc => ?someA⟩
    · rw [hjoin] at hn
      cases hn
    · have hca : c = a := (Option.some.inj (hjoin.symm.trans hc)).symm
      refine ⟨s2, lr, hu, hInv2, ⟨[], by rw [List.append_nil]; exact haren2⟩,
        ?nodeA, hfree1s2, hrootl2, heq ▸ hrootr2, ?keysA, fun _ => ⟨rfl, haren2⟩⟩
      · rw [hca]
        exact hnl2
      · intro x hx
        left
        rw [← hkiso x]
        exact hx
  · have hszeq : nodeSize (DomainNode.fo a) = nodeSize (DomainNode.fo b) := rfl
    by_cases hbfu : b.isFullyUnconstrained = true
    · have hjg : joinGo f s2 lr rr = Res.ok (s2, some lr) := by
        rw [joinGo, if_neg heq]
        simp [hnl2, hnr2, nodeSize, hbfu]
      have hem : emplaceEquiv s2.equiv rr lr = s2.equiv ++ [(rr, lr)] :=
        emplaceEquiv_of_none s2.equiv rr lr hfree2
      have hu : unifyGo (f + 1) s l r =
          Res.ok ({ s2 with equiv := s2.equiv ++ [(rr, lr)] }, some lr) := by
        simp only [unifyGo, hlk1, hlk2, hjg]
        simp [hem, if_neg (show ¬rr = lr from fun hh => heq hh.symm)]
      have hdep : depthA s2.arena rr = depthA s2.arena lr := by
        rw [depthA_fo s2.arena rr b hnr2, depthA_fo s2.arena lr a hnl2]
      have hnotint : ∀ sc, s2.arena.get? rr = some (DomainNode.fo sc) →
          sc.isFullyConstrained = true → False := by
        intro sc hn hfc
        have hsb : b = sc := DomainNode.fo.inj (Option.some.inj (hnr2.symm.trans hn))
        have hbfc : b.isFullyConstrained = true := by rw [hsb]; exact hfc
        have hx := fc_not_fu b hbfc
        rw [hbfu] at hx
        cases hx
      obtain ⟨hInv', hpresne, hpresk⟩ :=
        inv_addEntry s2 rr lr hInv2 hfree2 hfree1s2 (fun hh => heq hh.symm)
          hrrlt2 hlrlt2 hdep hnotint
      refine ⟨fun hn => ?noneB, fun c hc => ?someB⟩
      · rw [join_fu_right a b hbfu] at hn
        cases hn
      · have hca : c = a := (Option.some.inj ((join_fu_right a b hbfu).symm.trans hc)).symm
        refine ⟨{ s2 with equiv := s2.equiv ++ [(rr, lr)] }, lr, hu, hInv',
          ⟨[], by rw [List.append_nil]; exact haren2⟩, ?nodeB, ?jfreeB,
          hpresne l lr hrootl2 heq, hpresk r hrootr2, ?keysB,
          fun _ => ⟨rfl, haren2⟩⟩
        · rw [hca]
          exact hnl2
        · show findEquiv (s2.equiv ++ [(rr, lr)]) lr = none
          rw [findEquiv_append_of_none _ _ _ hfree1s2, findEquiv_single,
            if_neg (fun hh => heq hh.symm)]
        · intro x hx
          cases hf : findEquiv s2.equiv x with
          | some v =>
            left
            rw [← hkiso x, hf]
            rfl
          | none =>
            have hx2 : (findEquiv (s2.equiv ++ [(rr, lr)]) x).isSome = true := hx
            rw [findEquiv_append_of_none _ _ _ hf, findEquiv_single] at hx2
            by_cases hxr : rr = x
            · right; right
              exact hxr.symm
            · rw [if_neg hxr] at hx2
              cases hx2
    · have hbfu' : b.isFullyUnconstrained = false := by simpa using hbfu
      by_cases hafu : a.isFullyUnconstrained = true
      · have hjg : joinGo f s2 lr rr = Res.ok (s2, some rr) := by
          rw [joinGo, if_neg heq]
          simp [hnl2, hnr2, nodeSize, hbfu', hafu]
        have hem : emplaceEquiv s2.equiv lr rr = s2.equiv ++ [(lr, rr)] :=
          emplaceEquiv_of_none s2.equiv lr rr hfree1s2
        have hu : unifyGo (f + 1) s l r =
            Res.ok ({ s2 with equiv := s2.equiv ++ [(lr, rr)] }, some rr) := by
          simp only [unifyGo, hlk1, hlk2, hjg]
          simp [hem, if_neg heq]
        have hdep : depthA s2.arena lr = depthA s2.arena rr := by
          rw [depthA_fo s2.arena rr b hnr2, depthA_fo s2.arena lr a hnl2]
        have hnotint : ∀ sc, s2.arena.get? lr = some (DomainNode.fo sc) →
            sc.isFullyConstrained = true → False := by
          intro sc hn hfc
          have hsa : a = sc := DomainNode.fo.inj (Option.some.inj (hnl2.symm.trans hn))
          have hafc : a.isFullyConstrained = true := by rw [hsa]; exact hfc
          have hx := fc_not_fu a hafc
          rw [hafu] at hx
          cases hx
        obtain ⟨hInv', hpresne, hpresk⟩ :=
          inv_addEntry s2 lr rr hInv2 hfree1s2 hfree2 heq hlrlt2 hrrlt2 hdep hnotint
        refine ⟨fun hn => ?noneC, fun c hc => ?someC⟩
        · rw [join_fu_left a b hafu] at hn
          cases hn
        · have hcb : c = b := (Option.some.inj ((join_fu_left a b hafu).symm.trans hc)).symm
          refine ⟨{ s2 with equiv := s2.equiv ++ [(lr, rr)] }, rr, hu, hInv',
            ⟨[], by rw [List.append_nil]; exact haren2⟩, ?nodeC, ?jfreeC,
            hpresk l hrootl2, hpresne r rr hrootr2 (fun hh => heq hh.symm), ?keysC,
            fun hb => by rw [hb] at hbfu'; cases hbfu'⟩
          · rw [hcb]
            exact hnr2
          · show findEquiv (s2.equiv ++ [(lr, rr)]) rr = none
            rw [findEquiv_append_of_none _ _ _ hfree2, findEquiv_single, if_neg heq]
          · intro x hx
            cases hf : findEquiv s2.equiv x with
            | some v =>
              left
              rw [← hkiso x, hf]
              rfl
            | none =>
              have hx2 : (findEquiv (s2.equiv ++ [(lr, rr)]) x).isSome = true := hx
              rw [findEquiv_append_of_none _ _ _ hf, findEquiv_single] at hx2
              by_cases hxl : lr = x
              · right; left
                exact hxl.symm
              · rw [if_neg hxl] at hx2
                cases hx2
      · have hafu' : a.isFullyUnconstrained = false := by simpa using hafu
        cases hj : SEScope.join a b with
        | none =>
          have hjg : joinGo f s2 lr rr = Res.ok (s2, none) := by
            rw [joinGo, if_neg heq]
            simp [hnl2, hnr2, nodeSize, hbfu', hafu', hj]
          have hu : unifyGo (f + 1) s l r = Res.ok (s2, none) := by
            simp only [unifyGo, hlk1, hlk2, hjg]
          exact ⟨fun _ => ⟨s2, hu, haren2, hint2, hkiso, hrp02, hInv2⟩,
            fun c hc => Option.noConfusion hc⟩
        | some jsc =>
          obtain ⟨hInv3, hequiv3, ⟨ext3, hext3⟩, hintern3, hnode3, hfree3⟩ :=
            makeFirstOrderDomain_spec s2 jsc hInv2
          have hjg : joinGo f s2 lr rr = Res.ok ((makeFirstOrderDomain s2 jsc).1,
              some (makeFirstOrderDomain s2 jsc).2) := by
            rw [joinGo, if_neg heq]
            simp [hnl2, hnr2, nodeSize, hbfu', hafu', hj, canonicalSEScope]
          have hlr3free : findEquiv (makeFirstOrderDomain s2 jsc).1.equiv lr = none := by
            rw [hequiv3]
            exact hfree1s2
          have hrr3free : findEquiv (makeFirstOrderDomain s2 jsc).1.equiv rr = none := by
            rw [hequiv3]
            exact hfree2
          have hlrlt3 : lr < (makeFirstOrderDomain s2 jsc).1.arena.length := by
            rw [hext3, List.length_append]
            omega
          have hrrlt3 : rr < (makeFirstOrderDomain s2 jsc).1.arena.length := by
            rw [hext3, List.length_append]
            omega
          have hjlt3 : (makeFirstOrderDomain s2 jsc).2 <
              (makeFirstOrderDomain s2 jsc).1.arena.length := get?_some_lt hnode3
          have hnl3 : (makeFirstOrderDomain s2 jsc).1.arena.get? lr =
              some (DomainNode.fo a) := by
            rw [hext3, List.get?_append hlrlt2]
            exact hnl2
          have hnr3 : (makeFirstOrderDomain s2 jsc).1.arena.get? rr =
              some (DomainNode.fo b) := by
            rw [hext3, List.get?_append hrrlt2]
            exact hnr2
          have hdep3 : depthA (makeFirstOrderDomain s2 jsc).1.arena lr =
              depthA (makeFirstOrderDomain s2 jsc).1.arena (makeFirstOrderDomain s2 jsc).2 := by
            rw [depthA_fo _ lr a hnl3, depthA_fo _ _ jsc hnode3]
          have hni4 : ∀ sc, (makeFirstOrderDomain s2 jsc).1.arena.get? lr =
              some (DomainNode.fo sc) → sc.isFullyConstrained = true →
              (makeFirstOrderDomain s2 jsc).2 = lr := by
            intro sc hn hfc
            have hsa : a = sc := DomainNode.fo.inj (Option.some.inj (hnl3.symm.trans hn))
            have hafc : a.isFullyConstrained = true := by rw [hsa]; exact hfc
            have hja : jsc = a := join_fc_left a b jsc hafc hj
            have hfind : findIntern s2.intern a = some lr :=
              hInv2.internComplete lr hlrlt2 a hnl2 hafc
            rw [hja, makeFirstOrderDomain_interned s2 a lr hafc hfind]
          obtain ⟨hInv4, harena4, hintern4, hkm4, hpne4, hpk4, hkeep4, hjf4, hrev4, hcpres4⟩ :=
            linkRoot_spec (makeFirstOrderDomain s2 jsc).1 lr (makeFirstOrderDomain s2 jsc).2
              hInv3 hlr3free hfree3 hlrlt3 hjlt3 hdep3 hni4
              (if lr = (makeFirstOrderDomain s2 jsc).2 then (makeFirstOrderDomain s2 jsc).1
                else { (makeFirstOrderDomain s2 jsc).1 with
                  equiv := emplaceEquiv (makeFirstOrderDomain s2 jsc).1.equiv lr
                    (makeFirstOrderDomain s2 jsc).2 }) rfl
          have hfree4rr : findEquiv (if lr = (makeFirstOrderDomain s2 jsc).2
              then (makeFirstOrderDomain s2 jsc).1
              else { (makeFirstOrderDomain s2 jsc).1 with
                equiv := emplaceEquiv (makeFirstOrderDomain s2 jsc).1.equiv lr
                  (makeFirstOrderDomain s2 jsc).2 }).equiv rr = none :=
            hkeep4 rr hrr3free (fun hh => heq hh.symm)
          have hni5 : ∀ sc, (if lr = (makeFirstOrderDomain s2 jsc).2
              then (makeFirstOrderDomain s2 jsc).1
              else { (makeFirstOrderDomain s2 jsc).1 with
                equiv := emplaceEquiv (makeFirstOrderDomain s2 jsc).1.equiv lr
                  (makeFirstOrderDomain s2 jsc).2 }).arena.get? rr =
              some (DomainNode.fo sc) → sc.isFullyConstrained = true →
              (makeFirstOrderDomain s2 jsc).2 = rr := by
            intro sc hn hfc
            rw [harena4] at hn
            have hsb : b = sc := DomainNode.fo.inj (Option.some.inj (hnr3.symm.trans hn))
            have hbfc : b.isFullyConstrained = true := by rw [hsb]; exact hfc
            have hjb : jsc = b := join_fc_right a b jsc hbfc hj
            have hfind : findIntern s2.intern b = some rr :=
              hInv2.internComplete rr hrrlt2 b hnr2 hbfc
            rw [hjb, makeFirstOrderDomain_interned s2 b rr hbfc hfind]
          obtain ⟨hInv5, harena5, hintern5, hkm5, hpne5, hpk5, hkeep5, hjf5, hrev5, hcpres5⟩ :=
            linkRoot_spec _ rr (makeFirstOrderDomain s2 jsc).2 hInv4 hfree4rr hjf4
              (by rw [harena4]; exact hrrlt3) (by rw [harena4]; exact hjlt3)
              (by rw [harena4]
                  rw [depthA_fo _ rr b hnr3, depthA_fo _ _ jsc hnode3]) hni5
              (if rr = (makeFirstOrderDomain s2 jsc).2
                then (if lr = (makeFirstOrderDomain s2 jsc).2 then (makeFirstOrderDomain s2 jsc).1
                  else { (makeFirstOrderDomain s2 jsc).1 with
                    equiv := emplaceEquiv (makeFirstOrderDomain s2 jsc).1.equiv lr
                      (makeFirstOrderDomain s2 jsc).2 })
                else { (if lr = (makeFirstOrderDomain s2 jsc).2 then (makeFirstOrderDomain s2 jsc).1
                  else { (makeFirstOrderDomain s2 jsc).1 with
                    equiv := emplaceEquiv (makeFirstOrderDomain s2 jsc).1.equiv lr
                      (makeFirstOrderDomain s2 jsc).2 }) with
                  equiv := emplaceEquiv (if lr = (makeFirstOrderDomain s2 jsc).2
                    then (makeFirstOrderDomain s2 jsc).1
                    else { (makeFirstOrderDomain s2 jsc).1 with
                      equiv := emplaceEquiv (makeFirstOrderDomain s2 jsc).1.equiv lr
                        (makeFirstOrderDomain s2 jsc).2 }).equiv rr
                    (makeFirstOrderDomain s2 jsc).2 }) rfl
          have hu : unifyGo (f + 1) s l r = Res.ok ((if rr = (makeFirstOrderDomain s2 jsc).2
              then (if lr = (makeFirstOrderDomain s2 jsc).2 then (makeFirstOrderDomain s2 jsc).1
                else { (makeFirstOrderDomain s2 jsc).1 with
                  equiv := emplaceEquiv (makeFirstOrderDomain s2 jsc).1.equiv lr
                    (makeFirstOrderDomain s2 jsc).2 })
              else { (if lr = (makeFirstOrderDomain s2 jsc).2 then (makeFirstOrderDomain s2 jsc).1
                else { (makeFirstOrderDomain s2 jsc).1 with
                  equiv := emplaceEquiv (makeFirstOrderDomain s2 jsc).1.equiv lr
                    (makeFirstOrderDomain s2 jsc).2 }) with
                equiv := emplaceEquiv (if lr = (makeFirstOrderDomain s2 jsc).2
                  then (makeFirstOrderDomain s2 jsc).1
                  else { (makeFirstOrderDomain s2 jsc).1 with
                    equiv := emplaceEquiv (makeFirstOrderDomain s2 jsc).1.equiv lr
                      (makeFirstOrderDomain s2 jsc).2 }).equiv rr
                  (makeFirstOrderDomain s2 jsc).2 }),
              some (makeFirstOrderDomain s2 jsc).2) := by
            simp only [unifyGo, hlk1, hlk2, hjg]
          have hrootl3 : rootOf (makeFirstOrderDomain s2 jsc).1 l = Res.ok lr := by
            rw [rootOf_congr _ s2 hequiv3 l]
            exact hrootl2
          have hrootr3 : rootOf (makeFirstOrderDomain s2 jsc).1 r = Res.ok rr := by
            rw [rootOf_congr _ s2 hequiv3 r]
            exact hrootr2
          refine ⟨fun hn => Option.noConfusion hn, fun c hc => ?someD⟩
          have hcj : c = jsc := (Option.some.inj hc).symm
          refine ⟨_, (makeFirstOrderDomain s2 jsc).2, hu, hInv5, ?extD, ?nodeD, hjf5,
            hcpres5 l _ (hpk4 l hrootl3) hjf5, hpk5 r (hcpres4 r rr hrootr3 hfree4rr),
            ?keysD, fun hb => by rw [hb] at hbfu'; cases hbfu'⟩
          · refine ⟨ext3, ?ee⟩
            rw [harena5, harena4, hext3, haren2]
          · rw [nodeAt, harena5, harena4, hcj]
            exact hnode3
          · intro x hx
            rcases hrev5 x hx with h1 | h2
            · rcases hrev4 x h1 with h3 | h4
              · left
                rw [hequiv3] at h3
                rw [← hkiso x]
                exact h3
              · right; left
                exact h4
            · right; right
              exact h2

/-! ### Claim C4 -/

/-- Invariant of a state whose tables are empty and whose arena holds no
fully constrained first-order record. -/
theorem inv_of_simple (arena : List DomainNode)
    (hfc : ∀ i sc, arena.get? i = some (DomainNode.fo sc) → sc.isFullyConstrained = false)
    (hpb : PartsBelow arena) : Inv ⟨arena, [], []⟩ := by
  refine ⟨?g1, ?g2, ?g3, ?g4, ?g5, ?g6, ?g7, ?g8⟩
  · intro p hp
    exact absurd hp (List.not_mem_nil p)
  · intro p hp
    exact absurd hp (List.not_mem_nil p)
  · intro q hq
    exact absurd hq (List.not_mem_nil q)
  · intro q hq
    exact absurd hq (List.not_mem_nil q)
  · intro i hi sc hsc hfc2
    have hx := hfc i sc hsc
    rw [hfc2] at hx
    cases hx
  · intro q hq
    exact absurd hq (List.not_mem_nil q)
  · exact hpb
  · intro p hp
    exact absurd hp (List.not_mem_nil p)

/-- C4 (amended): for the one-parameter family — parameter scope `sp`, result
scope `sr`, first-order scope `sf`, none fully constrained — `Collapse`
unifies the first-order domain with the parameter and then with the result,
succeeding exactly when the successive scope joins are defined; and on
success the resolved scope of the first-order domain is the join of its OWN
initial scope `sf` with the scopes at the parameter and result positions —
not, as the spec sentence says, the join of the position scopes alone. -/
theorem collapse_scope_includes_fo (f : Nat) (sp sr sf : SEScope)
    (hp : sp.isFullyConstrained = false) (hq : sr.isFullyConstrained = false)
    (hf : sf.isFullyConstrained = false) :
    (SEScope.join sp sf = none → ∃ s1, collapseOrFalse (f + 1)
        ⟨[DomainNode.fo sp, DomainNode.fo sr, DomainNode.fo sf, DomainNode.ho [0, 1]],
          [], []⟩ 2 3 = Res.ok (s1, false)) ∧
    (∀ c1, SEScope.join sp sf = some c1 → SEScope.join sr c1 = none →
      ∃ s2, collapseOrFalse (f + 1)
        ⟨[DomainNode.fo sp, DomainNode.fo sr, DomainNode.fo sf, DomainNode.ho [0, 1]],
          [], []⟩ 2 3 = Res.ok (s2, false)) ∧
    (∀ c1 c2, SEScope.join sp sf = some c1 → SEScope.join sr c1 = some c2 →
      ∃ s2 j, collapseOrFalse (f + 1)
        ⟨[DomainNode.fo sp, DomainNode.fo sr, DomainNode.fo sf, DomainNode.ho [0, 1]],
          [], []⟩ 2 3 = Res.ok (s2, true) ∧
        rootOf s2 2 = Res.ok j ∧ nodeAt s2 j = some (DomainNode.fo c2) ∧
        rootOf s2 1 = Res.ok j) := by
  have hInv0 : Inv ⟨[DomainNode.fo sp, DomainNode.fo sr, DomainNode.fo sf,
      DomainNode.ho [0, 1]], [], []⟩ := by
    refine inv_of_simple _ ?hfc ?hpb
    · intro i sc h
      rcases i with _ | _ | _ | _ | i
      · exact (DomainNode.fo.inj (Option.some.inj h)) ▸ hp
      · exact (DomainNode.fo.inj (Option.some.inj h)) ▸ hq
      · exact (DomainNode.fo.inj (Option.some.inj h)) ▸ hf
      · exact DomainNode.noConfusion (Option.some.inj h)
      · exact Option.noConfusion h
    · intro i ps h p hp2
      rcases i with _ | _ | _ | _ | i
      · exact DomainNode.noConfusion (Option.some.inj h)
      · exact DomainNode.noConfusion (Option.some.inj h)
      · exact DomainNode.noConfusion (Option.some.inj h)
      · have hps2 : [0, 1] = ps := DomainNode.ho.inj (Option.some.inj h)
        rw [← hps2] at hp2
        simp at hp2
        rcases hp2 with rfl | rfl <;> omega
      · exact Option.noConfusion h
  have H1 := unify_fo_roots f _ 0 2 0 2 sp sf hInv0
    (rootOf_no_entry _ 0 rfl) (rootOf_no_entry _ 2 rfl) rfl rfl
  refine ⟨?noneFst, ?noneSnd, ?success⟩
  · intro hjn
    obtain ⟨s1, hu, _, _, _, _, _⟩ := H1.1 hjn
    refine ⟨s1, ?ce⟩
    simp [collapseOrFalse, collapseParams, nodeAt, hu]
  · intro c1 hj1 hj2
    obtain ⟨s', j1, hu1, hInv', ⟨ext, hext⟩, hnode1, hjfree1, hroot10, hroot12,
      hkeys1, _⟩ := H1.2 c1 hj1
    have h1free : findEquiv s'.equiv 1 = none := by
      cases hh : findEquiv s'.equiv 1 with
      | none => rfl
      | some v =>
        rcases hkeys1 1 (by rw [hh]; rfl) with h1 | h2 | h3
        · cases h1
        · exact absurd h2 (by decide)
        · exact absurd h3 (by decide)
    have hroot1 : rootOf s' 1 = Res.ok 1 := rootOf_no_entry s' 1 h1free
    have hnodesr : nodeAt s' 1 = some (DomainNode.fo sr) :=
      nodeAt_ext _ s' ext hext 1 _ rfl
    have H2 := unify_fo_roots f s' 1 2 1 j1 sr c1 hInv' hroot1 hroot12 hnodesr hnode1
    obtain ⟨s2, hu2, _, _, _, _, _⟩ := H2.1 hj2
    refine ⟨s2, ?ce2⟩
    simp [collapseOrFalse, collapseParams, nodeAt, hu1, hu2]
  · intro c1 c2 hj1 hj2
    obtain ⟨s', j1, hu1, hInv', ⟨ext, hext⟩, hnode1, hjfree1, hroot10, hroot12,
      hkeys1, _⟩ := H1.2 c1 hj1
    have h1free : findEquiv s'.equiv 1 = none := by
      cases hh : findEquiv s'.equiv 1 with
      | none => rfl
      | some v =>
        rcases hkeys1 1 (by rw [hh]; rfl) with h1 | h2 | h3
        · cases h1
        · exact absurd h2 (by decide)
        · exact absurd h3 (by decide)
    have hroot1 : rootOf s' 1 = Res.ok 1 := rootOf_no_entry s' 1 h1free
    have hnodesr : nodeAt s' 1 = some (DomainNode.fo sr) :=
      nodeAt_ext _ s' ext hext 1 _ rfl
    have H2 := unify_fo_roots f s' 1 2 1 j1 sr c1 hInv' hroot1 hroot12 hnodesr hnode1
    obtain ⟨s2, j2, hu2, hInv2, hext2, hnode2, hjfree2, hroot21, hroot22, hkeys2, _⟩ :=
      H2.2 c2 hj2
    refine ⟨s2, j2, ?ce3, hroot22, hnode2, hroot21⟩
    simp [collapseOrFalse, collapseParams, nodeAt, hu1, hu2]

/-- C4 counterexample: a fully constrained interned first-order domain
collapsed against `fn(?):?` with both positions unconstrained: the collapse
succeeds and the resolved scope is the domain's own scope, while the join of
the position scopes alone is fully unconstrained — so the spec's formula
(join of the positions only) is wrong. -/
theorem collapse_scope_counterexample :
    collapseOrFalse 5 ⟨[DomainNode.fo ⟨some 0, some 0⟩, DomainNode.fo ⟨none, none⟩,
        DomainNode.fo ⟨none, none⟩, DomainNode.ho [1, 2]],
        [], [(⟨some 0, some 0⟩, 0)]⟩ 0 3 =
      Res.ok (⟨[DomainNode.fo ⟨some 0, some 0⟩, DomainNode.fo ⟨none, none⟩,
        DomainNode.fo ⟨none, none⟩, DomainNode.ho [1, 2]],
        [(1, 0), (2, 0)], [(⟨some 0, some 0⟩, 0)]⟩, true) ∧
    resultSEScope 5 ⟨[DomainNode.fo ⟨some 0, some 0⟩, DomainNode.fo ⟨none, none⟩,
        DomainNode.fo ⟨none, none⟩, DomainNode.ho [1, 2]],
        [(1, 0), (2, 0)], [(⟨some 0, some 0⟩, 0)]⟩ 0 =
      Res.ok (⟨[DomainNode.fo ⟨some 0, some 0⟩, DomainNode.fo ⟨none, none⟩,
        DomainNode.fo ⟨none, none⟩, DomainNode.ho [1, 2]],
        [(1, 0), (2, 0)], [(⟨some 0, some 0⟩, 0)]⟩, ⟨some 0, some 0⟩) ∧
    nodeAt ⟨[DomainNode.fo ⟨some 0, some 0⟩, DomainNode.fo ⟨none, none⟩,
        DomainNode.fo ⟨none, none⟩, DomainNode.ho [1, 2]],
        [], [(⟨some 0, some 0⟩, 0)]⟩ 1 = some (DomainNode.fo ⟨none, none⟩) ∧
    nodeAt ⟨[DomainNode.fo ⟨some 0, some 0⟩, DomainNode.fo ⟨none, none⟩,
        DomainNode.fo ⟨none, none⟩, DomainNode.ho [1, 2]],
        [], [(⟨some 0, some 0⟩, 0)]⟩ 2 = some (DomainNode.fo ⟨none, none⟩) ∧
    SEScope.join ⟨none, none⟩ ⟨none, none⟩ = some ⟨none, none⟩ ∧
    (⟨some 0, some 0⟩ : SEScope) ≠ ⟨none, none⟩ := by
  refine ⟨?col, by decide, by decide, by decide, by decide, by decide⟩
  simp [collapseOrFalse, collapseParams, unifyGo, joinGo, joinParts, lookupD, chase,
    compress, findEquiv, setEquiv, emplaceEquiv, nodeAt, nodeSize, SEScope.join,
    joinField, SEScope.isFullyUnconstrained, SEScope.isFullyConstrained,
    makeFirstOrderDomain, findIntern, canonicalSEScope]

/-- C4 witness: the amended theorem at parameter and result unconstrained and
first-order scope `(0, ·)`: the collapse succeeds and the resolved scope is
that of the first-order domain itself. -/
theorem collapse_scope_includes_fo_witness :
    ∃ s2 j, collapseOrFalse (0 + 1)
        ⟨[DomainNode.fo ⟨none, none⟩, DomainNode.fo ⟨none, none⟩,
          DomainNode.fo ⟨some 0, none⟩, DomainNode.ho [0, 1]], [], []⟩ 2 3 =
        Res.ok (s2, true) ∧
      rootOf s2 2 = Res.ok j ∧ nodeAt s2 j = some (DomainNode.fo ⟨some 0, none⟩) ∧
      rootOf s2 1 = Res.ok j :=
  (collapse_scope_includes_fo 0 ⟨none, none⟩ ⟨none, none⟩ ⟨some 0, none⟩
    rfl rfl rfl).2.2 ⟨some 0, none⟩ ⟨some 0, none⟩ (by decide) (by decide)

/-! ### Claim C10: freshness facts for fully unconstrained factories -/

theorem getLast?_mem2 {l : List Nat} {a : Nat} (h : l.getLast? = some a) : a ∈ l := by
  induction l with
  | nil => cases h
  | cons x xs ih =>
    cases xs with
    | nil =>
      simp only [List.getLast?_singleton] at h
      obtain rfl := Option.some.inj h
      exact List.mem_singleton_self x
    | cons y ys =>
      rw [List.getLast?_cons_cons] at h
      exact List.mem_cons_of_mem x (ih h)

/-- At the fully unconstrained scope the factory always appends: the returned
index is at or above the old arena end. -/
theorem makeDomain_fresh_ge (t : Ty) (s : DD) (hInv : Inv s) :
    s.arena.length ≤ (makeDomain s t SEScope.fullyUnconstrained).2 := by
  cases t with
  | prim =>
    simp [makeDomain, makeFirstOrderDomain, SEScope.isFullyConstrained,
      SEScope.fullyUnconstrained]
  | func args ret =>
    obtain ⟨hInvP, ⟨extP, hextP⟩, hequivP, hinternP, hltP, hfreeP, hlenP⟩ :=
      makeDomainParams_spec args s hInv
    obtain ⟨hInvR, ⟨extR, hextR⟩, hequivR, hinternR, hltR, hfreeR⟩ :=
      makeDomain_spec ret (makeDomainParams s args).1 SEScope.fullyUnconstrained hInvP
    have h1 := arena_le_of_ext _ _ extP hextP
    have h2 := arena_le_of_ext _ _ extR hextR
    rw [makeDomain]
    show s.arena.length ≤
      (makeDomain (makeDomainParams s args).1 ret SEScope.fullyUnconstrained).1.arena.length
    omega

/-- The parameter loop at the fully unconstrained scope returns strictly
increasing fresh indices. -/
theorem makeDomainParams_fresh : ∀ (ts : List Ty) (s : DD), Inv s →
    List.Pairwise (fun x y => x < y) (makeDomainParams s ts).2 ∧
    (∀ d ∈ (makeDomainParams s ts).2, s.arena.length ≤ d) := by
  intro ts
  induction ts with
  | nil =>
    intro s hInv
    rw [makeDomainParams]
    exact ⟨List.Pairwise.nil, fun d hd => absurd hd (List.not_mem_nil d)⟩
  | cons t ts' ih =>
    intro s hInv
    obtain ⟨hInv1, ⟨ext1, hext1⟩, hequiv1, hintern1, hlt1, hfree1⟩ :=
      makeDomain_spec t s SEScope.fullyUnconstrained hInv
    obtain ⟨hpw, hge⟩ := ih (makeDomain s t SEScope.fullyUnconstrained).1 hInv1
    have hfresh := makeDomain_fresh_ge t s hInv
    rw [makeDomainParams]
    dsimp only
    constructor
    · refine List.Pairwise.cons ?hd hpw
      intro d hd
      have h1 := hge d hd
      have h2 := hlt1
      omega
    · intro d hd
      rcases List.mem_cons.mp hd with hh | hh
      · rw [hh]
        exact hfresh
      · have h1 := hge d hh
        have h2 := arena_le_of_ext _ _ ext1 hext1
        omega

/-- Node shape of a fully unconstrained factory result: a fully unconstrained
first-order record for non-function types, a higher-order record otherwise. -/
theorem makeDomain_node_shape (t : Ty) (s : DD) (hInv : Inv s) :
    nodeAt (makeDomain s t SEScope.fullyUnconstrained).1
        (makeDomain s t SEScope.fullyUnconstrained).2 =
      some (DomainNode.fo SEScope.fullyUnconstrained) ∨
    ∃ qs, nodeAt (makeDomain s t SEScope.fullyUnconstrained).1
        (makeDomain s t SEScope.fullyUnconstrained).2 = some (DomainNode.ho qs) := by
  cases t with
  | prim => exact Or.inl (makeDomain_node_prim s SEScope.fullyUnconstrained hInv)
  | func args ret => exact Or.inr ⟨_, makeDomain_node_func s args ret SEScope.fullyUnconstrained⟩

/-- The parameter loop of `Collapse` over fresh, fully unconstrained,
strictly increasing parts never reports `false`: each step absorbs the part
into the unconstrained root (or dies on the fatal shape check). -/
theorem collapseParams_fresh (f : Nat) :
    ∀ (ps : List Nat) (s : DD) (foIdx rr : Nat), Inv s →
    rootOf s foIdx = Res.ok rr →
    nodeAt s rr = some (DomainNode.fo SEScope.fullyUnconstrained) →
    List.Pairwise (fun x y => x < y) ps →
    (∀ q ∈ ps, rr < q ∧ findEquiv s.equiv q = none ∧
      (nodeAt s q = some (DomainNode.fo SEScope.fullyUnconstrained) ∨
        ∃ qs, nodeAt s q = some (DomainNode.ho qs))) →
    ∀ s' bres, collapseParams f s foIdx ps = Res.ok (s', bres) →
    bres = true ∧ Inv s' ∧ s'.arena = s.arena ∧
    ∃ rr', rootOf s' foIdx = Res.ok rr' ∧
      nodeAt s' rr' = some (DomainNode.fo SEScope.fullyUnconstrained) ∧
      (rr' = rr ∨ rr' ∈ ps) ∧
      (∀ x, findEquiv s.equiv x = none → x ≠ rr → x ∉ ps →
        findEquiv s'.equiv x = none) := by
  intro ps
  induction ps with
  | nil =>
    intro s foIdx rr hInv hroot hnoderr _ _ s' bres hcp
    rw [collapseParams] at hcp
    cases hcp
    exact ⟨rfl, hInv, rfl, rr, hroot, hnoderr, Or.inl rfl, fun x hx _ _ => hx⟩
  | cons q ps' ih =>
    intro s foIdx rr hInv hroot hnoderr hpw hqs s' bres hcp
    cases f with
    | zero =>
      rw [collapseParams, unifyGo] at hcp
      cases hcp
    | succ g =>
      obtain ⟨hrrq, hqfree, hqnode⟩ := hqs q (List.mem_cons_self q ps')
      have hrootq : rootOf s q = Res.ok q := rootOf_no_entry s q hqfree
      rw [collapseParams] at hcp
      obtain ⟨hhd, htl⟩ := List.pairwise_cons.mp hpw
      rcases hqnode with hfo | ⟨qs2, hho⟩
      · have H := unify_fo_roots g s q foIdx q rr SEScope.fullyUnconstrained
          SEScope.fullyUnconstrained hInv hrootq hroot hfo hnoderr
        obtain ⟨s2, j, hu, hInv2, hext2, hnodej, hjfree, hrootl2, hrootr2, hkeys2, hbfu⟩ :=
          H.2 SEScope.fullyUnconstrained (join_self SEScope.fullyUnconstrained)
        obtain ⟨hjq, haren⟩ := hbfu rfl
        rw [hu] at hcp
        simp only at hcp
        have hstep : ∀ q2 ∈ ps', j < q2 ∧ findEquiv s2.equiv q2 = none ∧
            (nodeAt s2 q2 = some (DomainNode.fo SEScope.fullyUnconstrained) ∨
              ∃ qs, nodeAt s2 q2 = some (DomainNode.ho qs)) := by
          intro q2 hq2
          obtain ⟨hrrq2, hq2free, hq2node⟩ := hqs q2 (List.mem_cons_of_mem q hq2)
          have hlt := hhd q2 hq2
          refine ⟨by omega, ?free2, ?node2⟩
          · cases hh : findEquiv s2.equiv q2 with
            | none => rfl
            | some v =>
              rcases hkeys2 q2 (by rw [hh]; rfl) with h1 | h2 | h3
              · rw [hq2free] at h1
                cases h1
              · omega
              · omega
          · rcases hq2node with hn | ⟨qs3, hn⟩
            · left
              rw [nodeAt, haren]
              exact hn
            · right
              exact ⟨qs3, by rw [nodeAt, haren]; exact hn⟩
        obtain ⟨hb, hInv', harena', rr', hroot', hnode', hmem', hpres'⟩ :=
          ih s2 foIdx j hInv2 hrootr2 hnodej htl hstep s' bres hcp
        refine ⟨hb, hInv', by rw [harena', haren], rr', hroot', hnode', ?mem, ?pres⟩
        · rcases hmem' with hh | hh
          · right
            rw [hh, hjq]
            exact List.mem_cons_self q ps'
          · right
            exact List.mem_cons_of_mem q hh
        · intro x hx hxrr hxps
          have hxq : x ≠ q := fun hh => hxps (hh ▸ List.mem_cons_self q ps')
          have hx2 : findEquiv s2.equiv x = none := by
            cases hh : findEquiv s2.equiv x with
            | none => rfl
            | some v =>
              rcases hkeys2 x (by rw [hh]; rfl) with h1 | h2 | h3
              · rw [hx] at h1
                cases h1
              · exact absurd h2 hxq
              · exact absurd h3 hxrr
          exact hpres' x hx2 (by rw [hjq]; exact hxq)
            (fun hh => hxps (List.mem_cons_of_mem q hh))
      · obtain ⟨s1, hlk1, ha1, hi1, hlen1, hk1, hrp1, hfree1⟩ := lookupD_spec s q q hrootq
        obtain ⟨s2, hlk2, ha2, hi2, hlen2, hk2, hrp2, hfree2⟩ :=
          lookupD_spec s1 foIdx rr (hrp1 foIdx rr hroot)
        have haren2 : s2.arena = s.arena := by rw [ha2, ha1]
        have hq2 : nodeAt s2 q = some (DomainNode.ho qs2) := by
          rw [nodeAt, haren2]
          exact hho
        have hrr2 : nodeAt s2 rr = some (DomainNode.fo SEScope.fullyUnconstrained) := by
          rw [nodeAt, haren2]
          exact hnoderr
        have hne : ¬q = rr := by omega
        have habortJ : joinGo g s2 q rr = Res.abort := by
          rw [joinGo, if_neg hne]
          simp only [hq2, hrr2]
          split
          · rfl
          · rfl
        have habortU : unifyGo (g + 1) s q foIdx = Res.abort := by
          simp only [unifyGo, hlk1, hlk2, habortJ]
        rw [habortU] at hcp
        cases hcp

theorem getLast?_pairwise_dropLast {l : List Nat} {a : Nat}
    (hpw : List.Pairwise (fun x y => x < y) l) (h : l.getLast? = some a) :
    a ∉ l.dropLast := by
  induction l with
  | nil => cases h
  | cons x xs ih =>
    cases xs with
    | nil =>
      intro hmem
      exact absurd hmem (List.not_mem_nil a)
    | cons y ys =>
      rw [List.getLast?_cons_cons] at h
      obtain ⟨hhd, htl⟩ := List.pairwise_cons.mp hpw
      have hamem : a ∈ y :: ys := getLast?_mem2 h
      have hxa : x < a := hhd a hamem
      show a ∉ x :: (y :: ys).dropLast
      intro hmem
      rcases List.mem_cons.mp hmem with hh | hh
      · omega
      · exact ih htl h hh

/-- `Collapse` of a fresh fully unconstrained first-order domain against a
higher-order domain of fresh fully unconstrained parts never reports
`false`. -/
theorem collapseOrFalse_fresh (f : Nat) (s : DD) (foIdx hoIdx rr : Nat) (ps : List Nat)
    (scF : SEScope)
    (hInv : Inv s)
    (hnodeFo : nodeAt s foIdx = some (DomainNode.fo scF))
    (hnodeHo : nodeAt s hoIdx = some (DomainNode.ho ps))
    (hroot : rootOf s foIdx = Res.ok rr)
    (hnodeRr : nodeAt s rr = some (DomainNode.fo SEScope.fullyUnconstrained))
    (hpw : List.Pairwise (fun x y => x < y) ps)
    (hps : ∀ q ∈ ps, rr < q ∧ findEquiv s.equiv q = none ∧
      (nodeAt s q = some (DomainNode.fo SEScope.fullyUnconstrained) ∨
        ∃ qs, nodeAt s q = some (DomainNode.ho qs))) :
    ∀ s' bres, collapseOrFalse f s foIdx hoIdx = Res.ok (s', bres) →
    bres = true ∧ Inv s' ∧ s'.arena = s.arena ∧
    ∃ rr', rootOf s' foIdx = Res.ok rr' ∧
      nodeAt s' rr' = some (DomainNode.fo SEScope.fullyUnconstrained) := by
  intro s' bres hcol
  rw [collapseOrFalse, hnodeFo, hnodeHo] at hcol
  simp only at hcol
  cases hlast : ps.getLast? with
  | none =>
    rw [hlast] at hcol
    cases hcol
  | some last =>
    rw [hlast] at hcol
    simp only at hcol
    cases hcp : collapseParams f s foIdx ps.dropLast with
    | abort => rw [hcp] at hcol; cases hcol
    | nofuel => rw [hcp] at hcol; cases hcol
    | ok pr =>
      obtain ⟨s1, b1⟩ := pr
      rw [hcp] at hcol
      cases b1 with
      | false =>
        obtain ⟨hb, _⟩ := collapseParams_fresh f ps.dropLast s foIdx rr hInv hroot hnodeRr
          (hpw.sublist (List.dropLast_sublist ps))
          (fun q hq => hps q (List.dropLast_subset ps hq)) s1 false hcp
        cases hb
      | true =>
        simp only at hcol
        obtain ⟨hb, hInv1, harena1, rr1, hroot1, hnode1, hmem1, hpres1⟩ :=
          collapseParams_fresh f ps.dropLast s foIdx rr hInv hroot hnodeRr
            (hpw.sublist (List.dropLast_sublist ps))
            (fun q hq => hps q (List.dropLast_subset ps hq)) s1 true hcp
        have hlastmem : last ∈ ps := getLast?_mem2 hlast
        obtain ⟨hrrlast, hlastfree, hlastnode⟩ := hps last hlastmem
        have hlastnotdrop : last ∉ ps.dropLast := getLast?_pairwise_dropLast hpw hlast
        have hrr1last : rr1 ≠ last := by
          rcases hmem1 with hh | hh
          · omega
          · intro hee
            rw [hee] at hh
            exact hlastnotdrop hh
        have hlastfree1 : findEquiv s1.equiv last = none :=
          hpres1 last hlastfree (by omega) hlastnotdrop
        have hrootlast1 : rootOf s1 last = Res.ok last := rootOf_no_entry s1 last hlastfree1
        cases f with
        | zero =>
          rw [unifyGo] at hcol
          cases hcol
        | succ g =>
          rcases hlastnode with hfo | ⟨qs2, hho⟩
          · have hfo1 : nodeAt s1 last = some (DomainNode.fo SEScope.fullyUnconstrained) := by
              rw [nodeAt, harena1]
              exact hfo
            have H := unify_fo_roots g s1 last foIdx last rr1 SEScope.fullyUnconstrained
              SEScope.fullyUnconstrained hInv1 hrootlast1 hroot1 hfo1 hnode1
            obtain ⟨s2, j, hu, hInv2, hext2, hnodej, hjfree, hrootl2, hrootr2, hkeys2, hbfu⟩ :=
              H.2 SEScope.fullyUnconstrained (join_self SEScope.fullyUnconstrained)
            obtain ⟨hjlast, haren2⟩ := hbfu rfl
            rw [hu] at hcol
            simp only at hcol
            cases hcol
            exact ⟨rfl, hInv2, by rw [haren2, harena1], j, hrootr2, hnodej⟩
          · obtain ⟨sa, hlka, haa, hia, hlena, hka, hrpa, hfreea⟩ :=
              lookupD_spec s1 last last hrootlast1
            obtain ⟨sb, hlkb, hab, hib, hlenb, hkb, hrpb, hfreeb⟩ :=
              lookupD_spec sa foIdx rr1 (hrpa foIdx rr1 hroot1)
            have harenb : sb.arena = s.arena := by rw [hab, haa, harena1]
            have hqb : nodeAt sb last = some (DomainNode.ho qs2) := by
              rw [nodeAt, harenb]
              exact hho
            have hrrb : nodeAt sb rr1 = some (DomainNode.fo SEScope.fullyUnconstrained) := by
              rw [nodeAt, harenb, ← harena1]
              exact hnode1
            have hne : ¬last = rr1 := fun hh => hrr1last hh.symm
            have habortJ : joinGo g sb last rr1 = Res.abort := by
              rw [joinGo, if_neg hne]
              simp only [hqb, hrrb]
              split
              · rfl
              · rfl
            have habortU : unifyGo (g + 1) s1 last foIdx = Res.abort := by
              simp only [unifyGo, hlka, hlkb, habortJ]
            rw [habortU] at hcol
            cases hcol

/-- Structure of a fresh fully unconstrained function-typed domain: a
higher-order record over fresh, entry-free, strictly increasing parts, each
fully unconstrained first-order or higher-order. -/
theorem free_func_parts (s : DD) (args : List Ty) (ret : Ty) (hInv : Inv s) :
    Inv (makeDomain s (Ty.func args ret) SEScope.fullyUnconstrained).1 ∧
    (makeDomain s (Ty.func args ret) SEScope.fullyUnconstrained).1.equiv = s.equiv ∧
    (∃ ext, (makeDomain s (Ty.func args ret) SEScope.fullyUnconstrained).1.arena =
      s.arena ++ ext) ∧
    nodeAt (makeDomain s (Ty.func args ret) SEScope.fullyUnconstrained).1
        (makeDomain s (Ty.func args ret) SEScope.fullyUnconstrained).2 =
      some (DomainNode.ho ((makeDomainParams s args).2 ++
        [(makeDomain (makeDomainParams s args).1 ret SEScope.fullyUnconstrained).2])) ∧
    List.Pairwise (fun x y => x < y) ((makeDomainParams s args).2 ++
      [(makeDomain (makeDomainParams s args).1 ret SEScope.fullyUnconstrained).2]) ∧
    (∀ q ∈ (makeDomainParams s args).2 ++
        [(makeDomain (makeDomainParams s args).1 ret SEScope.fullyUnconstrained).2],
      s.arena.length ≤ q ∧
      findEquiv (makeDomain s (Ty.func args ret) SEScope.fullyUnconstrained).1.equiv q =
        none ∧
      (nodeAt (makeDomain s (Ty.func args ret) SEScope.fullyUnconstrained).1 q =
          some (DomainNode.fo SEScope.fullyUnconstrained) ∨
        ∃ qs, nodeAt (makeDomain s (Ty.func args ret) SEScope.fullyUnconstrained).1 q =
          some (DomainNode.ho qs))) := by
  obtain ⟨hInvP, ⟨extP, hextP⟩, hequivP, hinternP, hltP, hfreeP, hlenP⟩ :=
    makeDomainParams_spec args s hInv
  obtain ⟨hInvR, ⟨extR, hextR⟩, hequivR, hinternR, hltR, hfreeR⟩ :=
    makeDomain_spec ret (makeDomainParams s args).1 SEScope.fullyUnconstrained hInvP
  obtain ⟨hInvF, ⟨extF, hextF⟩, hequivF, hinternF, hltF, hfreeF⟩ :=
    makeDomain_spec (Ty.func args ret) s SEScope.fullyUnconstrained hInv
  have h1 : (makeDomain s (Ty.func args ret) SEScope.fullyUnconstrained).1 =
      (makeHigherOrderDomain
        (makeDomain (makeDomainParams s args).1 ret SEScope.fullyUnconstrained).1
        ((makeDomainParams s args).2 ++
          [(makeDomain (makeDomainParams s args).1 ret SEScope.fullyUnconstrained).2])).1 := by
    rw [makeDomain]
  have hextPF : (makeDomain s (Ty.func args ret) SEScope.fullyUnconstrained).1.arena =
      (makeDomainParams s args).1.arena ++ (extR ++
        [DomainNode.ho ((makeDomainParams s args).2 ++
          [(makeDomain (makeDomainParams s args).1 ret SEScope.fullyUnconstrained).2])]) := by
    rw [h1]
    show (makeDomain (makeDomainParams s args).1 ret SEScope.fullyUnconstrained).1.arena ++
        [DomainNode.ho ((makeDomainParams s args).2 ++
          [(makeDomain (makeDomainParams s args).1 ret SEScope.fullyUnconstrained).2])] = _
    rw [hextR, List.append_assoc]
  have hext2F : (makeDomain s (Ty.func args ret) SEScope.fullyUnconstrained).1.arena =
      (makeDomain (makeDomainParams s args).1 ret SEScope.fullyUnconstrained).1.arena ++
        [DomainNode.ho ((makeDomainParams s args).2 ++
          [(makeDomain (makeDomainParams s args).1 ret SEScope.fullyUnconstrained).2])] := by
    rw [h1]
    rfl
  obtain ⟨hpwP, hgeP⟩ := makeDomainParams_fresh args s hInv
  have hgeR := makeDomain_fresh_ge ret (makeDomainParams s args).1 hInvP
  refine ⟨hInvF, hequivF, ⟨extF, hextF⟩, makeDomain_node_func s args ret _, ?pw, ?mem⟩
  · refine List.pairwise_append.mpr ⟨hpwP, List.pairwise_singleton _ _, ?cross⟩
    intro x hx y hy
    rw [List.mem_singleton.mp hy]
    have h2 := hltP x hx
    omega
  · intro q hq
    rcases List.mem_append.mp hq with hqP | hqL
    · refine ⟨hgeP q hqP, ?f2, ?f3⟩
      · rw [hequivF, ← hequivP]
        exact hfreeP q hqP
      · have hforall := makeDomainParams_nodes args s hInv
        obtain ⟨t, ht, hR⟩ := forall₂_mem_left hforall hqP
        cases t with
        | prim =>
          left
          exact nodeAt_ext _ _ _ hextPF _ _ hR
        | func a2 r2 =>
          obtain ⟨qs, hqs⟩ := hR
          right
          exact ⟨qs, nodeAt_ext _ _ _ hextPF _ _ hqs⟩
    · rw [List.mem_singleton.mp hqL]
      have h2 := arena_le_of_ext _ _ extP hextP
      refine ⟨by omega, ?g2, ?g3⟩
      · rw [hequivR, hequivP] at hfreeR
        rw [hequivF]
        exact hfreeR
      · rcases makeDomain_node_shape ret (makeDomainParams s args).1 hInvP with hn | ⟨qs, hn⟩
        · left
          exact nodeAt_ext _ _ _ hext2F _ _ hn
        · right
          exact ⟨qs, nodeAt_ext _ _ _ hext2F _ _ hn⟩

/-- One iteration of the constructor parameter loop: the forced collapse of a
fresh fully unconstrained parameter against the unconstrained result domain
never reports `false`. -/
theorem ctor_step_fresh (f : Nat) (s : DD) (foIdx rr : Nat) (t : Ty)
    (hInv : Inv s) (hfoIdx : foIdx < s.arena.length)
    (hnodeFo : nodeAt s foIdx = some (DomainNode.fo SEScope.fullyUnconstrained))
    (hroot : rootOf s foIdx = Res.ok rr)
    (hnodeRr : nodeAt s rr = some (DomainNode.fo SEScope.fullyUnconstrained)) :
    ∀ s' bres, unifyCollapsedOrFalse f (free s t).1 foIdx (free s t).2 = Res.ok (s', bres) →
    bres = true ∧ Inv s' ∧ (∃ ext, s'.arena = s.arena ++ ext) ∧ foIdx < s'.arena.length ∧
    nodeAt s' foIdx = some (DomainNode.fo SEScope.fullyUnconstrained) ∧
    ∃ rr', rootOf s' foIdx = Res.ok rr' ∧
      nodeAt s' rr' = some (DomainNode.fo SEScope.fullyUnconstrained) := by
  intro s' bres hcol
  rw [free] at hcol
  have hrrlt : rr < s.arena.length := rootOf_lt s hInv foIdx rr hfoIdx hroot
  cases t with
  | prim =>
    obtain ⟨hInvP, ⟨extp, hextp⟩, hequivp, hinternp, hltp, hfreep⟩ :=
      makeDomain_spec Ty.prim s SEScope.fullyUnconstrained hInv
    have hnodep : nodeAt (makeDomain s Ty.prim SEScope.fullyUnconstrained).1 (makeDomain s Ty.prim SEScope.fullyUnconstrained).2 =
        some (DomainNode.fo SEScope.fullyUnconstrained) :=
      makeDomain_node_prim s SEScope.fullyUnconstrained hInv
    have hnodeFo1 : nodeAt (makeDomain s Ty.prim SEScope.fullyUnconstrained).1 foIdx =
        some (DomainNode.fo SEScope.fullyUnconstrained) :=
      nodeAt_ext _ _ extp hextp _ _ hnodeFo
    have hnodeRr1 : nodeAt (makeDomain s Ty.prim SEScope.fullyUnconstrained).1 rr =
        some (DomainNode.fo SEScope.fullyUnconstrained) :=
      nodeAt_ext _ _ extp hextp _ _ hnodeRr
    have hrootFo1 : rootOf (makeDomain s Ty.prim SEScope.fullyUnconstrained).1 foIdx = Res.ok rr := by
      rw [rootOf_congr _ s hequivp foIdx]
      exact hroot
    have hrootp : rootOf (makeDomain s Ty.prim SEScope.fullyUnconstrained).1 (makeDomain s Ty.prim SEScope.fullyUnconstrained).2 =
        Res.ok (makeDomain s Ty.prim SEScope.fullyUnconstrained).2 := rootOf_no_entry _ _ hfreep
    rw [unifyCollapsedOrFalse, hnodeFo1, hnodep] at hcol
    cases f with
    | zero =>
      rw [unifyGo] at hcol
      cases hcol
    | succ g =>
      have H := unify_fo_roots g (makeDomain s Ty.prim SEScope.fullyUnconstrained).1 foIdx (makeDomain s Ty.prim SEScope.fullyUnconstrained).2 rr
        (makeDomain s Ty.prim SEScope.fullyUnconstrained).2 SEScope.fullyUnconstrained SEScope.fullyUnconstrained
        hInvP hrootFo1 hrootp hnodeRr1 hnodep
      obtain ⟨s2, j, hu, hInv2, hext2, hnodej, hjfree, hrootl2, hrootr2, hkeys2, hbfu⟩ :=
        H.2 SEScope.fullyUnconstrained (join_self SEScope.fullyUnconstrained)
      obtain ⟨hjrr, haren2⟩ := hbfu rfl
      rw [hu] at hcol
      simp only at hcol
      cases hcol
      refine ⟨rfl, hInv2, ⟨extp, by rw [haren2, hextp]⟩, ?lt, ?nodefo, j, hrootl2, hnodej⟩
      · rw [haren2, hextp, List.length_append]
        omega
      · rw [nodeAt, haren2]
        exact hnodeFo1
  | func args ret =>
    obtain ⟨hInvP, hequivP, ⟨extp, hextp⟩, hnodeHo, hpw, hmem⟩ :=
      free_func_parts s args ret hInv
    have hnodeFo1 : nodeAt (makeDomain s (Ty.func args ret) SEScope.fullyUnconstrained).1 foIdx =
        some (DomainNode.fo SEScope.fullyUnconstrained) :=
      nodeAt_ext _ _ extp hextp _ _ hnodeFo
    have hnodeRr1 : nodeAt (makeDomain s (Ty.func args ret) SEScope.fullyUnconstrained).1 rr =
        some (DomainNode.fo SEScope.fullyUnconstrained) :=
      nodeAt_ext _ _ extp hextp _ _ hnodeRr
    have hrootFo1 : rootOf (makeDomain s (Ty.func args ret) SEScope.fullyUnconstrained).1 foIdx = Res.ok rr := by
      rw [rootOf_congr _ s hequivP foIdx]
      exact hroot
    rw [unifyCollapsedOrFalse, hnodeFo1, hnodeHo] at hcol
    have hps : ∀ q ∈ (makeDomainParams s args).2 ++
        [(makeDomain (makeDomainParams s args).1 ret SEScope.fullyUnconstrained).2],
        rr < q ∧ findEquiv (makeDomain s (Ty.func args ret) SEScope.fullyUnconstrained).1.equiv q = none ∧
        (nodeAt (makeDomain s (Ty.func args ret) SEScope.fullyUnconstrained).1 q =
            some (DomainNode.fo SEScope.fullyUnconstrained) ∨
          ∃ qs, nodeAt (makeDomain s (Ty.func args ret) SEScope.fullyUnconstrained).1 q = some (DomainNode.ho qs)) := by
      intro q hq
      obtain ⟨hge, hfree, hnode⟩ := hmem q hq
      exact ⟨by omega, hfree, hnode⟩
    obtain ⟨hb, hInv', harena', rr', hroot', hnode'⟩ :=
      collapseOrFalse_fresh f (makeDomain s (Ty.func args ret) SEScope.fullyUnconstrained).1 foIdx
        (makeDomain s (Ty.func args ret) SEScope.fullyUnconstrained).2 rr _ SEScope.fullyUnconstrained hInvP hnodeFo1
        hnodeHo hrootFo1 hnodeRr1 hpw hps s' bres hcol
    refine ⟨hb, hInv', ⟨extp, by rw [harena', hextp]⟩, ?lt2, ?nodefo2, rr', hroot', hnode'⟩
    · rw [harena', hextp, List.length_append]
      omega
    · rw [nodeAt, harena']
      exact hnodeFo1

/-- The constructor parameter loop always reports success on every parameter:
when it returns, its boolean is `true`. -/
theorem ctorParamsLoop_fresh (f : Nat) :
    ∀ (ts : List Ty) (s : DD) (foIdx rr : Nat),
    Inv s → foIdx < s.arena.length →
    nodeAt s foIdx = some (DomainNode.fo SEScope.fullyUnconstrained) →
    rootOf s foIdx = Res.ok rr →
    nodeAt s rr = some (DomainNode.fo SEScope.fullyUnconstrained) →
    ∀ s' ps allOk, ctorParamsLoop f s foIdx ts = Res.ok (s', (ps, allOk)) →
    allOk = true := by
  intro ts
  induction ts with
  | nil =>
    intro s foIdx rr _ _ _ _ _ s' ps allOk h
    rw [ctorParamsLoop] at h
    cases h
    rfl
  | cons t ts' ih =>
    intro s foIdx rr hInv hfo hnodeFo hroot hnodeRr s' ps allOk h
    rw [ctorParamsLoop] at h
    cases hstep : unifyCollapsedOrFalse f (free s t).1 foIdx (free s t).2 with
    | abort => rw [hstep] at h; cases h
    | nofuel => rw [hstep] at h; cases h
    | ok pr =>
      obtain ⟨s1, b1⟩ := pr
      rw [hstep] at h
      obtain ⟨hb1, hInv1, ⟨ext1, hext1⟩, hlt1, hnodeFo1, rr1, hroot1, hnodeRr1⟩ :=
        ctor_step_fresh f s foIdx rr t hInv hfo hnodeFo hroot hnodeRr s1 b1 hstep
      subst hb1
      simp only at h
      cases hrec : ctorParamsLoop f s1 foIdx ts' with
      | abort => rw [hrec] at h; cases h
      | nofuel => rw [hrec] at h; cases h
      | ok pr2 =>
        obtain ⟨s2, ps2, allOk2⟩ := pr2
        rw [hrec] at h
        simp only at h
        have hall := ih s1 foIdx rr1 hInv1 hlt1 hnodeFo1 hroot1 hnodeRr1 s2 ps2 allOk2 hrec
        cases h
        exact hall

/-- C10: in the data-constructor branch of callee-signature synthesis the
forced collapse of each freshly created, fully unconstrained parameter domain
against the fresh first-order result domain always succeeds: whenever the
branch returns, the recorded success flag is `true`, so the `ICHECK(success)`
never fails. -/
theorem constructorBranch_success (f : Nat) (s : DD) (argTys : List Ty)
    (hInv : Inv s) (s' : DD) (ps : List Nat) (r : Nat) (b : Bool)
    (h : constructorBranch f s argTys Ty.prim = Res.ok (s', (ps, r, b))) :
    b = true := by
  rw [constructorBranch, free] at h
  obtain ⟨hInvP, ⟨extp, hextp⟩, hequivp, hinternp, hltp, hfreep⟩ :=
    makeDomain_spec Ty.prim s SEScope.fullyUnconstrained hInv
  have hnodep : nodeAt (makeDomain s Ty.prim SEScope.fullyUnconstrained).1 (makeDomain s Ty.prim SEScope.fullyUnconstrained).2 =
      some (DomainNode.fo SEScope.fullyUnconstrained) :=
    makeDomain_node_prim s SEScope.fullyUnconstrained hInv
  have hrootp : rootOf (makeDomain s Ty.prim SEScope.fullyUnconstrained).1 (makeDomain s Ty.prim SEScope.fullyUnconstrained).2 =
      Res.ok (makeDomain s Ty.prim SEScope.fullyUnconstrained).2 := rootOf_no_entry _ _ hfreep
  cases hloop : ctorParamsLoop f (makeDomain s Ty.prim SEScope.fullyUnconstrained).1 (makeDomain s Ty.prim SEScope.fullyUnconstrained).2 argTys with
  | abort => rw [hloop] at h; cases h
  | nofuel => rw [hloop] at h; cases h
  | ok pr =>
    obtain ⟨s1, ps1, allOk⟩ := pr
    rw [hloop] at h
    simp only at h
    have hall := ctorParamsLoop_fresh f argTys (makeDomain s Ty.prim SEScope.fullyUnconstrained).1 (makeDomain s Ty.prim SEScope.fullyUnconstrained).2
      (makeDomain s Ty.prim SEScope.fullyUnconstrained).2 hInvP hltp hnodep hrootp hnodep s1 ps1 allOk hloop
    cases h
    exact hall

/-- C10 witness: a single-field constructor with everything fresh succeeds
with the flag set. -/
theorem constructorBranch_success_witness :
    constructorBranch 1 ⟨[], [], []⟩ [Ty.prim] Ty.prim =
      Res.ok (⟨[DomainNode.fo ⟨none, none⟩, DomainNode.fo ⟨none, none⟩], [(1, 0)], []⟩,
        ([1], 0, true)) ∧ (true : Bool) = true := by
  have heq : constructorBranch 1 ⟨[], [], []⟩ [Ty.prim] Ty.prim =
      Res.ok (⟨[DomainNode.fo ⟨none, none⟩, DomainNode.fo ⟨none, none⟩], [(1, 0)], []⟩,
        ([1], 0, true)) := by
    simp [constructorBranch, ctorParamsLoop, free, makeDomain, makeFirstOrderDomain,
      unifyCollapsedOrFalse, unifyGo, joinGo, joinParts, lookupD, chase, compress,
      findEquiv, setEquiv, emplaceEquiv, nodeAt, nodeSize, SEScope.isFullyConstrained,
      SEScope.isFullyUnconstrained, SEScope.fullyUnconstrained, SEScope.join, joinField,
      findIntern, canonicalSEScope]
  exact ⟨heq, constructorBranch_success 1 ⟨[], [], []⟩ [Ty.prim] inv_empty _ [1] 0 true heq⟩

end DeviceDomains
